import Mathlib

/-!
# L1 intermediate-representation state (`Source/L1IRState.c`)

A shallow embedding of the block store, the local slot store with its
barrier-scoped mark-compact collector, and the block evaluator, followed by
theorems about them.

Conventions of the embedding:

* C arrays are lists; an index outside the array (an out-of-bounds read or
  write), a failed `assert` and `abort()` make the modelled function return
  `none`.
* `uint16_t` values are natural numbers; where the C code narrows a `size_t`
  to `uint16_t` the model reduces modulo `65536`.
* Memory returned by `malloc` holds indeterminate values; the model takes them
  from `Env.uninitialized`.
* Declarations of `L1IRState.h`, `L1IRSlotDescriptions` and
  `L1IRSlotAccessors` that the C file uses but that are not part of the
  sources are fields of `Env`.
-/

namespace L1

/-- Slot type tags named in `L1IRState.c`; every other enumerator of the slot
description table is `Other tag`. -/
inductive L1IRSlotType where
  | Argument
  | Captured
  | Self
  | UnresolvedSymbol
  | Error
  | Lambda
  | Pi
  | Sigma
  | ADT
  | CallCapture
  | Other (tag : Nat)
  deriving DecidableEq, Repr

/-- Block type tags (`L1IRGlobalStateBlockType`). -/
inductive L1IRGlobalStateBlockType where
  | ForeignFunction
  | Lambda
  | Pi
  | Sigma
  | ADT
  deriving DecidableEq, Repr

/-- Modelled from the spec: `L1IRLocalAddress`, "an index into the current evaluation's
local slot vector". The C file passes arrays of it as `uint16_t*`, so it is 16 bits wide;
the model holds it in a natural number and narrows where the C code does. -/
abbrev L1IRLocalAddress := Nat

/-- Modelled from the spec: `L1IRGlobalAddress`, "an index into the global block vector".
Its typedef is in `L1IRState.h`, which is not among the sources; the model uses an
unbounded natural number. -/
abbrev L1IRGlobalAddress := Nat

/-- Modelled from the spec: the packed slot word `L1IRSlot` (its layout lives in
`L1IRState.h`, which is not among the sources) is a record of a type tag, three
operands and one annotation bit. -/
structure L1IRSlot where
  type : L1IRSlotType
  operand0 : Nat
  operand1 : Nat
  operand2 : Nat
  annotation : Bool
  deriving DecidableEq, Repr

/-- Modelled from the spec: `L1IRMakeSlot` builds a slot from a type and three
operands; the annotation bit of a freshly made slot is clear. -/
def L1IRMakeSlot (type : L1IRSlotType) (operand0 operand1 operand2 : Nat) : L1IRSlot :=
  { type := type, operand0 := operand0, operand1 := operand1, operand2 := operand2,
    annotation := false }

/-- Modelled from the spec: `L1IRExtractSlotOperand(slot, j)` for `j < 3`. -/
def L1IRExtractSlotOperand (slot : L1IRSlot) (j : Nat) : Nat :=
  match j with
  | 0 => slot.operand0
  | 1 => slot.operand1
  | _ => slot.operand2

/-- Modelled from the spec: `L1IRSetSlotAnnotation(slots + index, 1)`; writing
outside the array is undefined. -/
def L1IRSetSlotAnnotation (slots : List L1IRSlot) (index : Nat) : Option (List L1IRSlot) :=
  match slots[index]? with
  | none => none
  | some slot => some (slots.set index { slot with annotation := true })

/-- A block of the global store: a native block owns its prototype slots
(`native.slots`, `native.slotCount` is the length of the list); a foreign block
holds a callback (function pointer) and user data, and its type tag is
`ForeignFunction`. -/
inductive L1IRGlobalStateBlock where
  | native (type : L1IRGlobalStateBlockType) (slots : List L1IRSlot)
  | foreign (callback : Nat) (userdata : Nat)
  deriving DecidableEq, Repr

/-- The `type` field of a block. -/
def L1IRGlobalStateBlock.type : L1IRGlobalStateBlock → L1IRGlobalStateBlockType
  | .native type _ => type
  | .foreign _ _ => .ForeignFunction

/-- The global store: the `blocks` array. -/
structure L1IRGlobalState where
  blocks : List L1IRGlobalStateBlock
  deriving DecidableEq, Repr

/-- The local store: `slots`, the stack `gcBarriers` (top of stack first) and
`callDepth`. -/
structure L1IRLocalState where
  slots : List L1IRSlot
  gcBarriers : List Nat
  callDepth : Nat
  deriving DecidableEq, Repr

/-- Evaluation flags `L1IRGlobalStateEvaluationFlagHasArgument` and
`L1IRGlobalStateEvaluationFlagHasCaptured`. -/
structure L1IRGlobalStateEvaluationFlags where
  hasArgument : Bool
  hasCaptured : Bool
  deriving DecidableEq, Repr

/-- What the C file takes from headers and tables that are not among the
sources, and from its environment. -/
structure Env where
  /-- Table lookup `SlotTypeArgumentIsLocalAddress(type, j)` of `L1IRSlotDescriptions`. -/
  SlotTypeArgumentIsLocalAddress : L1IRSlotType → Nat → Bool
  /-- Table lookup `IsImplicitRoot(type)` of `L1IRSlotDescriptions`. -/
  IsImplicitRoot : L1IRSlotType → Bool
  /-- Enumerator `L1IRErrorTypeInvalidInstruction`. -/
  L1IRErrorTypeInvalidInstruction : Nat
  /-- Enumerator `L1IRErrorTypeTypeChecking`. -/
  L1IRErrorTypeTypeChecking : Nat
  /-- Accessor `CallCapture_captures` of `L1IRSlotAccessors`. -/
  CallCapture_captures : L1IRSlot → Nat
  /-- Accessor `CallCapture_captured` of `L1IRSlotAccessors`. -/
  CallCapture_captured : L1IRSlot → Nat
  /-- The predicate `L1IRGlobalStateIsOfType(self, localState, address, typeAddress)`. -/
  L1IRGlobalStateIsOfType : L1IRGlobalState → L1IRLocalState → Nat → Nat → Bool
  /-- The function behind a foreign block's callback pointer, applied to
  `(self, localState, calleeAddress, argumentLocalAddress, out ≠ NULL, userdata)`;
  it yields the local store it leaves and the address it returns. -/
  callbacks : Nat → L1IRGlobalState → L1IRLocalState → Nat → Nat → Bool → Nat →
    L1IRLocalState × Nat
  /-- The indeterminate value found in cell `k` of memory fresh from `malloc`. -/
  uninitialized : Nat → Nat

/-- `SlotTypeForBlock`; the `default: abort()` branch is unreachable for the five
enumerators. -/
def SlotTypeForBlock : L1IRGlobalStateBlockType → L1IRSlotType
  | .ForeignFunction => .Lambda
  | .Lambda => .Lambda
  | .Pi => .Pi
  | .Sigma => .Sigma
  | .ADT => .ADT

/-! ## Block creation -/

/-- The test `memcmp(blocks->native.slots, normalizedSlots, sizeof(L1IRSlot) * n) == 0`
of `L1IRGlobalStateCreateNativeBlock`: `blocks->native.slots` is the slot buffer
of the FIRST block of the array. Reading it when block 0 is foreign, or reading
`n` slots of a shorter buffer, is undefined. -/
def memcmpFirstBlock (blocks : List L1IRGlobalStateBlock) (normalizedSlots : List L1IRSlot) :
    Option Bool :=
  match blocks.head? with
  | some (.native _ slots0) =>
    if normalizedSlots.length ≤ slots0.length then
      some (decide (slots0.take normalizedSlots.length = normalizedSlots))
    else none
  | _ => none

/-- The deduplication loop of `L1IRGlobalStateCreateNativeBlock` from index `i`
on, over the blocks `rest = blocks[i..]`. `some (some a)` is `return a` from
inside the loop, `some none` is leaving the loop (its end or `break`). -/
def scanBlocks (blocks : List L1IRGlobalStateBlock) (type : L1IRGlobalStateBlockType)
    (normalizedSlots : List L1IRSlot) :
    List L1IRGlobalStateBlock → Nat → Option (Option Nat)
  | [], _ => some none
  | b :: rest, i =>
    if type = .ADT then some none
    else if b.type ≠ type then scanBlocks blocks type normalizedSlots rest (i + 1)
    else
      match b with
      | .foreign _ _ => none
      | .native _ bslots =>
        if bslots.length ≠ normalizedSlots.length then
          scanBlocks blocks type normalizedSlots rest (i + 1)
        else
          match memcmpFirstBlock blocks normalizedSlots with
          | none => none
          | some false => scanBlocks blocks type normalizedSlots rest (i + 1)
          | some true => some (some i)

/-- `L1IRGlobalStateCreateNativeBlock(self, type, slots, slotCount, _)`: the new
global store and the returned address. -/
def L1IRGlobalStateCreateNativeBlock (self : L1IRGlobalState) (type : L1IRGlobalStateBlockType)
    (slots : List L1IRSlot) : Option (L1IRGlobalState × L1IRGlobalAddress) :=
  if type = .ForeignFunction then none
  else if slots.length = 0 then none
  else
    match scanBlocks self.blocks type slots self.blocks 0 with
    | none => none
    | some (some address) => some (self, address)
    | some none =>
      some ({ blocks := self.blocks ++ [.native type slots] }, self.blocks.length)

/-- `L1IRGlobalStateCreateForeignBlock(self, type, callback, userdata)`. -/
def L1IRGlobalStateCreateForeignBlock (self : L1IRGlobalState) (type : L1IRGlobalStateBlockType)
    (callback userdata : Nat) : Option (L1IRGlobalState × L1IRGlobalAddress) :=
  if type ≠ .ForeignFunction then none
  else some ({ blocks := self.blocks ++ [.foreign callback userdata] }, self.blocks.length)

/-! ## Local store -/

/-- `L1IRLocalStateCreateSlot`: push the slot and return its index, narrowed to
the 16-bit `L1IRLocalAddress`. -/
def L1IRLocalStateCreateSlot (self : L1IRLocalState) (slot : L1IRSlot) :
    L1IRLocalState × L1IRLocalAddress :=
  ({ self with slots := self.slots ++ [slot] }, self.slots.length % 65536)

/-- Modelled from the spec: `L1IRGlobalStateCreateSlot`, which the evaluator calls and
which is not among the sources, is `create_slot`: append the slot, return its index,
no deduplication. -/
def L1IRGlobalStateCreateSlot (localState : L1IRLocalState) (slot : L1IRSlot) :
    L1IRLocalState × L1IRLocalAddress :=
  L1IRLocalStateCreateSlot localState slot

/-! ## Garbage collection -/

/-- The loop "Mark roots" of `CompactLocalGarbage`: for each root, the assertion
`roots[i] < slotCount`, the update of `maxUsedSlotCount` and the annotation of the
root slot. Yields the slots and `maxUsedSlotCount`. -/
def markRoots (slotCount : Nat) : List L1IRSlot → Nat → List Nat → Option (List L1IRSlot × Nat)
  | slots, maxUsedSlotCount, [] => some (slots, maxUsedSlotCount)
  | slots, maxUsedSlotCount, r :: roots =>
    if r < slotCount then
      match L1IRSetSlotAnnotation slots r with
      | none => none
      | some slots1 =>
        markRoots slotCount slots1 (if r + 1 > maxUsedSlotCount then r + 1 else maxUsedSlotCount)
          roots
    else none

/-- The inner loop of "Propagate retain marks" for operand positions `j`, `j + 1`, ...
below 3 (`n` positions are left): annotate the targets of the local-address operands
of `slot` that are not below `slotStart`. -/
def markOperands (E : Env) (slotStart : Nat) (slot : L1IRSlot) :
    Nat → Nat → List L1IRSlot → Option (List L1IRSlot)
  | 0, _, slots => some slots
  | n + 1, j, slots =>
    if ¬ E.SlotTypeArgumentIsLocalAddress slot.type j then
      markOperands E slotStart slot n (j + 1) slots
    else if L1IRExtractSlotOperand slot j < slotStart then
      markOperands E slotStart slot n (j + 1) slots
    else
      match L1IRSetSlotAnnotation slots (L1IRExtractSlotOperand slot j) with
      | none => none
      | some slots1 => markOperands E slotStart slot n (j + 1) slots1

/-- The loop "Propagate retain marks", `for (i = maxUsedSlotCount; i-- > slotStart;)`,
with `k` iterations left: the next index visited is `slotStart + k - 1`. Yields the
slots and `finalSlotCount`. -/
def propagateMarks (E : Env) (slotStart : Nat) :
    Nat → List L1IRSlot → Nat → Option (List L1IRSlot × Nat)
  | 0, slots, finalSlotCount => some (slots, finalSlotCount)
  | k + 1, slots, finalSlotCount =>
    match slots[slotStart + k]? with
    | none => none
    | some slot =>
      if ¬ E.IsImplicitRoot slot.type ∧ ¬ slot.annotation then
        propagateMarks E slotStart k slots finalSlotCount
      else
        match markOperands E slotStart slot 3 0 slots with
        | none => none
        | some slots1 => propagateMarks E slotStart k slots1 (finalSlotCount + 1)

/-- The read `slotRemappings[address - slotStart]`: an address below `slotStart`
gives a negative index, and an index past the table is outside it as well. -/
def readRemapping (slotRemappings : List Nat) (slotStart address : Nat) : Option Nat :=
  if address < slotStart then none else slotRemappings[address - slotStart]?

/-- Operand `j` of a retained slot in the loop "Compact reachable memory and fix
references": a local-address operand is replaced by its remapping. -/
def remapOperand (E : Env) (slotRemappings : List Nat) (slotStart : Nat) (slot : L1IRSlot)
    (j : Nat) : Option Nat :=
  if E.SlotTypeArgumentIsLocalAddress slot.type j then
    readRemapping slotRemappings slotStart (L1IRExtractSlotOperand slot j)
  else some (L1IRExtractSlotOperand slot j)

/-- The loop "Compact reachable memory and fix references" with `k` iterations left,
at index `i`. Yields the slots, the remapping table and `finalSlotIndex`. -/
def compactSlots (E : Env) (slotStart : Nat) :
    Nat → Nat → List L1IRSlot → List Nat → Nat → Option (List L1IRSlot × List Nat × Nat)
  | 0, _, slots, slotRemappings, finalSlotIndex => some (slots, slotRemappings, finalSlotIndex)
  | k + 1, i, slots, slotRemappings, finalSlotIndex =>
    match slots[i]? with
    | none => none
    | some slot =>
      let slotRemappings1 := slotRemappings.set (i - slotStart) 65535
      if ¬ E.IsImplicitRoot slot.type ∧ ¬ slot.annotation then
        compactSlots E slotStart k (i + 1) slots slotRemappings1 finalSlotIndex
      else
        match remapOperand E slotRemappings1 slotStart slot 0,
              remapOperand E slotRemappings1 slotStart slot 1,
              remapOperand E slotRemappings1 slotStart slot 2 with
        | some o0, some o1, some o2 =>
          compactSlots E slotStart k (i + 1)
            (slots.set finalSlotIndex (L1IRMakeSlot slot.type o0 o1 o2))
            (slotRemappings1.set (i - slotStart) finalSlotIndex) (finalSlotIndex + 1)
        | _, _, _ => none

/-- The loop "Update root handles". -/
def updateRoots (slotRemappings : List Nat) (slotStart : Nat) : List Nat → Option (List Nat)
  | [] => some []
  | r :: roots =>
    match readRemapping slotRemappings slotStart r, updateRoots slotRemappings slotStart roots with
    | some r1, some roots1 => some (r1 :: roots1)
    | _, _ => none

/-- `CompactLocalGarbage(slots, slotStart, slotCount, roots, rootCount)`: the slots, the
updated roots and the returned count. -/
def CompactLocalGarbage (E : Env) (slots : List L1IRSlot) (slotStart slotCount : Nat)
    (roots : List Nat) : Option (List L1IRSlot × List Nat × Nat) :=
  match markRoots slotCount slots slotStart roots with
  | none => none
  | some (slots1, maxUsedSlotCount) =>
    if maxUsedSlotCount = slotStart then some (slots1, roots, slotStart)
    else
      match propagateMarks E slotStart (maxUsedSlotCount - slotStart) slots1 slotStart with
      | none => none
      | some (slots2, finalSlotCount) =>
        match compactSlots E slotStart (maxUsedSlotCount - slotStart) slotStart slots2
            ((List.range (maxUsedSlotCount - slotStart)).map E.uninitialized) slotStart with
        | none => none
        | some (slots3, slotRemappings, _) =>
          match updateRoots slotRemappings slotStart roots with
          | none => none
          | some roots1 => some (slots3, roots1, finalSlotCount)

/-- `L1IRGlobalStatePushGCBarrier`. -/
def L1IRGlobalStatePushGCBarrier (localState : L1IRLocalState) : L1IRLocalState :=
  { localState with gcBarriers := localState.slots.length :: localState.gcBarriers }

/-- `L1IRGlobalStatePopGCBarrier(self, localState, roots, rootCount)`: the local store
and the updated roots. Popping an empty barrier stack aborts; `L1ArraySetElementCount`
keeps the first `barrierSlotCount` slots (a count above the length would expose
indeterminate slots). -/
def L1IRGlobalStatePopGCBarrier (E : Env) (localState : L1IRLocalState) (roots : List Nat) :
    Option (L1IRLocalState × List Nat) :=
  match localState.gcBarriers with
  | [] => none
  | barrierSlotCount :: gcBarriers =>
    match CompactLocalGarbage E localState.slots (barrierSlotCount % 65536)
        (localState.slots.length % 65536) roots with
    | none => none
    | some (slots1, roots1, finalSlotCount) =>
      if finalSlotCount ≤ slots1.length then
        some ({ localState with slots := slots1.take finalSlotCount, gcBarriers := gcBarriers },
          roots1)
      else none

/-! ## Evaluation -/

/-- The loop of `WalkCaptureChain` with `depth` iterations left. -/
def walkCaptureSlots (E : Env) (slots : List L1IRSlot) : Nat → L1IRSlot → Option L1IRSlot
  | 0, captureSlot => some captureSlot
  | depth + 1, captureSlot =>
    match slots[E.CallCapture_captures captureSlot]? with
    | none => none
    | some captureSlot1 => walkCaptureSlots E slots depth captureSlot1

/-- `WalkCaptureChain(slots, captureLocalAddress, depth)`. The loop counter `i` is a
`uint16_t` while `depth` is a `size_t`: for a depth above 65535 the test `i < depth`
never fails and the function does not return. Every call in the file passes a 16-bit
operand as `depth`. -/
def WalkCaptureChain (E : Env) (slots : List L1IRSlot) (captureLocalAddress : L1IRLocalAddress)
    (depth : Nat) : Option L1IRLocalAddress :=
  if 65536 ≤ depth then none
  else
    match slots[captureLocalAddress]? with
    | none => none
    | some captureSlot =>
      match walkCaptureSlots E slots depth captureSlot with
      | none => none
      | some captureSlot1 => some (E.CallCapture_captured captureSlot1)

/-- The variables of `L1IRGlobalStateEvaluate` that its prototype loop updates. -/
structure EvaluateLocals where
  localState : L1IRLocalState
  mergingSlotRemappings : List Nat
  finalArgumentLocalAddress : Nat

/-- Operand `j` of a prototype after the two operand loops at the head of the loop
body: a local-address operand is replaced by `mergingSlotRemappings[operand]`. -/
def mergeOperand (E : Env) (mergingSlotRemappings : List Nat) (prototypeSlot : L1IRSlot)
    (j : Nat) : Option Nat :=
  if E.SlotTypeArgumentIsLocalAddress prototypeSlot.type j then
    mergingSlotRemappings[L1IRExtractSlotOperand prototypeSlot j]?
  else some (L1IRExtractSlotOperand prototypeSlot j)

/-- The `default:` case of the switch: a fresh slot of the kind of the block with the
resolved operands. -/
def instantiateDefault (blockType : L1IRGlobalStateBlockType) (i o0 o1 o2 : Nat)
    (st : EvaluateLocals) : EvaluateLocals :=
  let created := L1IRGlobalStateCreateSlot st.localState
    (L1IRMakeSlot (SlotTypeForBlock blockType) o0 o1 o2)
  { st with localState := created.1,
            mergingSlotRemappings := st.mergingSlotRemappings.set i created.2 }

/-- One iteration of the prototype loop of `L1IRGlobalStateEvaluate`, for prototype `i`.
The flag of the result is `true` when the iteration ends in `goto finish`. -/
def instantiatePrototype (E : Env) (self : L1IRGlobalState)
    (flags : L1IRGlobalStateEvaluationFlags) (blockType : L1IRGlobalStateBlockType)
    (calleeAddress argumentLocalAddress captureLocalAddress : Nat) (hasOut : Bool)
    (i : Nat) (prototypeSlot : L1IRSlot) (st : EvaluateLocals) : Option (EvaluateLocals × Bool) :=
  match mergeOperand E st.mergingSlotRemappings prototypeSlot 0,
        mergeOperand E st.mergingSlotRemappings prototypeSlot 1,
        mergeOperand E st.mergingSlotRemappings prototypeSlot 2 with
  | some o0, some o1, some o2 =>
    match prototypeSlot.type with
    | .UnresolvedSymbol | .Error =>
      let created := L1IRGlobalStateCreateSlot st.localState
        (L1IRMakeSlot .Error E.L1IRErrorTypeInvalidInstruction 0 0)
      some ({ st with localState := created.1,
                      mergingSlotRemappings := st.mergingSlotRemappings.set i created.2 }, true)
    | .Argument =>
      if o0 ≠ 0 then none
      else
        let bound :=
          if ¬ flags.hasArgument then
            L1IRGlobalStateCreateSlot st.localState
              (L1IRMakeSlot .Argument (st.localState.callDepth - 1) o1 0)
          else (st.localState, argumentLocalAddress)
        let finalArgumentLocalAddress :=
          if hasOut then bound.2 else st.finalArgumentLocalAddress
        if ¬ E.L1IRGlobalStateIsOfType self bound.1 bound.2 o1 then
          let created := L1IRGlobalStateCreateSlot bound.1
            (L1IRMakeSlot .Error E.L1IRErrorTypeTypeChecking 0 0)
          some ({ localState := created.1,
                  mergingSlotRemappings := st.mergingSlotRemappings.set i created.2,
                  finalArgumentLocalAddress := finalArgumentLocalAddress }, true)
        else
          some ({ localState := bound.1,
                  mergingSlotRemappings := st.mergingSlotRemappings.set i bound.2,
                  finalArgumentLocalAddress := finalArgumentLocalAddress }, false)
    | .Captured =>
      if flags.hasCaptured then
        match WalkCaptureChain E st.localState.slots captureLocalAddress o0 with
        | none => none
        | some captured =>
          some ({ st with mergingSlotRemappings := st.mergingSlotRemappings.set i captured },
            false)
      else
        let created := L1IRGlobalStateCreateSlot st.localState (L1IRMakeSlot .Captured o0 0 0)
        some ({ st with localState := created.1,
                        mergingSlotRemappings := st.mergingSlotRemappings.set i created.2 },
          false)
    | .Self =>
      if st.localState.callDepth > 1 then
        -- `uint16_t captureLocalAddress = 0;` declared here hides the parameter
        let captureLocalAddress1 := 0
        if flags.hasCaptured then
          match WalkCaptureChain E st.localState.slots captureLocalAddress1 o0 with
          | none => none
          | some capture =>
            let created := L1IRGlobalStateCreateSlot st.localState
              (L1IRMakeSlot (SlotTypeForBlock blockType) capture calleeAddress 0)
            some ({ st with localState := created.1,
                            mergingSlotRemappings := st.mergingSlotRemappings.set i created.2 },
              false)
        else
          let capture := L1IRGlobalStateCreateSlot st.localState (L1IRMakeSlot .Captured 0 0 0)
          let created := L1IRGlobalStateCreateSlot capture.1
            (L1IRMakeSlot (SlotTypeForBlock blockType) capture.2 calleeAddress 0)
          some ({ st with localState := created.1,
                          mergingSlotRemappings := st.mergingSlotRemappings.set i created.2 },
            false)
      else some (instantiateDefault blockType i o0 o1 o2 st, false)
    | _ => some (instantiateDefault blockType i o0 o1 o2 st, false)
  | _, _, _ => none

/-- The prototype loop of `L1IRGlobalStateEvaluate` from prototype `i` on, over the
prototypes `block->native.slots[i..]`; it ends at the label `finish`. -/
def instantiatePrototypes (E : Env) (self : L1IRGlobalState)
    (flags : L1IRGlobalStateEvaluationFlags) (blockType : L1IRGlobalStateBlockType)
    (calleeAddress argumentLocalAddress captureLocalAddress : Nat) (hasOut : Bool) :
    List L1IRSlot → Nat → EvaluateLocals → Option EvaluateLocals
  | [], _, st => some st
  | prototypeSlot :: rest, i, st =>
    match instantiatePrototype E self flags blockType calleeAddress argumentLocalAddress
        captureLocalAddress hasOut i prototypeSlot st with
    | none => none
    | some (st1, true) => some st1
    | some (st1, false) =>
      instantiatePrototypes E self flags blockType calleeAddress argumentLocalAddress
        captureLocalAddress hasOut rest (i + 1) st1

/-- The code of `L1IRGlobalStateEvaluate` from the label `resultComputed` on: the local
store, the returned `resultLocalAddress` and the value stored through
`finalArgumentLocalAddressOut` when that pointer is not null. -/
def resultComputed (E : Env) (localState : L1IRLocalState)
    (resultLocalAddress finalArgumentLocalAddress : L1IRLocalAddress) (hasOut : Bool) :
    Option (L1IRLocalState × L1IRLocalAddress × Option L1IRLocalAddress) :=
  match L1IRGlobalStatePopGCBarrier E { localState with callDepth := localState.callDepth - 1 }
      (if hasOut then [resultLocalAddress, finalArgumentLocalAddress]
       else [resultLocalAddress]) with
  | none => none
  | some (localState1, _) =>
    some (localState1, resultLocalAddress,
      if hasOut then some finalArgumentLocalAddress else none)

/-- `L1IRGlobalStateEvaluate(self, localState, flags, calleeAddress, argumentLocalAddress,
captureLocalAddress, finalArgumentLocalAddressOut)`; `hasOut` says that the last pointer
is not null. -/
def L1IRGlobalStateEvaluate (E : Env) (self : L1IRGlobalState) (localState : L1IRLocalState)
    (flags : L1IRGlobalStateEvaluationFlags) (calleeAddress : L1IRGlobalAddress)
    (argumentLocalAddress captureLocalAddress : L1IRLocalAddress) (hasOut : Bool) :
    Option (L1IRLocalState × L1IRLocalAddress × Option L1IRLocalAddress) :=
  match self.blocks[calleeAddress]? with
  | none => none
  | some block =>
    let localState1 :=
      L1IRGlobalStatePushGCBarrier { localState with callDepth := localState.callDepth + 1 }
    match block with
    | .foreign callback userdata =>
      if ¬ flags.hasArgument then none
      else if flags.hasCaptured then none
      else
        let called := E.callbacks callback self localState1 calleeAddress argumentLocalAddress
          hasOut userdata
        -- `finalArgumentLocalAddress = block->foreign.callback(...)`; `resultLocalAddress`
        -- keeps its initial value 0
        resultComputed E called.1 0 called.2 hasOut
    | .native type slots =>
      if slots.length = 0 then none
      else
        match instantiatePrototypes E self flags type calleeAddress argumentLocalAddress
            captureLocalAddress hasOut slots 0
            { localState := localState1,
              mergingSlotRemappings := (List.range slots.length).map E.uninitialized,
              finalArgumentLocalAddress := 0 } with
        | none => none
        | some st =>
          match st.mergingSlotRemappings[slots.length - 1]? with
          | none => none
          | some resultLocalAddress =>
            resultComputed E st.localState resultLocalAddress st.finalArgumentLocalAddress hasOut

/-- `L1IRGlobalStateCall(self, localState, calleeAddress, argumentLocalAddress)`: the local
store and the returned address. -/
def L1IRGlobalStateCall (E : Env) (self : L1IRGlobalState) (localState : L1IRLocalState)
    (calleeAddress : L1IRGlobalAddress) (argumentLocalAddress : L1IRLocalAddress) :
    Option (L1IRLocalState × L1IRLocalAddress) :=
  match L1IRGlobalStateEvaluate E self localState { hasArgument := true, hasCaptured := false }
      calleeAddress argumentLocalAddress 0 false with
  | none => none
  | some (localState1, resultLocalAddress, _) => some (localState1, resultLocalAddress)

/-- The slot `s1` is the slot `s`, or `s` with its annotation bit set. -/
def annotates (s s1 : L1IRSlot) : Prop :=
  s1 = s ∨ s1 = { s with annotation := true }

/-- Modelled from the spec: the address reached when the walk "descends `depth` times
along `captures`" from `address`; a link outside the slot array gives `none`. -/
def followCaptures (E : Env) (slots : List L1IRSlot) : Nat → Nat → Option Nat
  | 0, address => some address
  | depth + 1, address =>
    match slots[address]? with
    | none => none
    | some captureSlot => followCaptures E slots depth (E.CallCapture_captures captureSlot)

/-- Modelled from the spec: `walk_capture_chain(startLocalAddr, depth)` "descends `depth`
times along `captures`, then returns `captured`". -/
def walkCaptureChainSpec (E : Env) (slots : List L1IRSlot) (startLocalAddr depth : Nat) :
    Option Nat :=
  match followCaptures E slots depth startLocalAddr with
  | none => none
  | some address =>
    match slots[address]? with
    | none => none
    | some captureSlot => some (E.CallCapture_captured captureSlot)

/-- The test of both collector loops on a slot: it is kept when its type is an implicit
root or its annotation bit is set. -/
def retained (E : Env) (slot : L1IRSlot) : Bool :=
  E.IsImplicitRoot slot.type || slot.annotation

/-- The mark phase of `CompactLocalGarbage`: the loop "Mark roots" and, when a root lies
above `slotStart`, the loop "Propagate retain marks". Yields the slots,
`maxUsedSlotCount` and `finalSlotCount`. -/
def markPhase (E : Env) (slots : List L1IRSlot) (slotStart slotCount : Nat) (roots : List Nat) :
    Option (List L1IRSlot × Nat × Nat) :=
  match markRoots slotCount slots slotStart roots with
  | none => none
  | some (slots1, maxUsedSlotCount) =>
    if maxUsedSlotCount = slotStart then some (slots1, maxUsedSlotCount, slotStart)
    else
      match propagateMarks E slotStart (maxUsedSlotCount - slotStart) slots1 slotStart with
      | none => none
      | some (slots2, finalSlotCount) => some (slots2, maxUsedSlotCount, finalSlotCount)

/-- The slot `s1` is the slot `s` as the compaction loop rebuilds it: same type, clear
annotation bit, and the operands that are not local addresses unchanged. -/
def compactedFrom (E : Env) (s s1 : L1IRSlot) : Prop :=
  s1.type = s.type ∧ s1.annotation = false ∧
  ∀ j, j < 3 → E.SlotTypeArgumentIsLocalAddress s.type j = false →
    L1IRExtractSlotOperand s1 j = L1IRExtractSlotOperand s j

/-- Operands of the slots at the indices `[slotStart, hi)` point to strictly lower
indices. -/
def backwardOperands (E : Env) (slots : List L1IRSlot) (slotStart hi : Nat) : Prop :=
  ∀ i s, slotStart ≤ i → i < hi → slots[i]? = some s →
    ∀ j, j < 3 → E.SlotTypeArgumentIsLocalAddress s.type j = true →
      L1IRExtractSlotOperand s j < i

/-- The slots `slots1` are the slots `slots` with some annotation bits set. -/
def onlyMarks (slots slots1 : List L1IRSlot) : Prop :=
  slots1.length = slots.length ∧
  ∀ (r : Nat) (s : L1IRSlot), slots[r]? = some s → ∃ s1, slots1[r]? = some s1 ∧ annotates s s1

/-- Operands of the slots at the indices `[slotStart, hi)` point to strictly lower
indices that are not below `slotStart`. -/
def suffixOperands (E : Env) (slots : List L1IRSlot) (slotStart hi : Nat) : Prop :=
  ∀ i s, slotStart ≤ i → i < hi → slots[i]? = some s →
    ∀ j, j < 3 → E.SlotTypeArgumentIsLocalAddress s.type j = true →
      slotStart ≤ L1IRExtractSlotOperand s j ∧ L1IRExtractSlotOperand s j < i

/-- Decides that every local-address operand of `slot` lies in `[lo, hi)`. -/
def slotOperandsIn (E : Env) (slot : L1IRSlot) (lo hi : Nat) : Bool :=
  (List.range 3).all fun j =>
    !(E.SlotTypeArgumentIsLocalAddress slot.type j) ||
      (decide (lo ≤ L1IRExtractSlotOperand slot j) && decide (L1IRExtractSlotOperand slot j < hi))

/-- Decides that every local-address operand of every slot at an index `i ≥ slotStart`
lies in `[lo, i)`. -/
def checkOperands (E : Env) (slots : List L1IRSlot) (slotStart lo : Nat) : Bool :=
  (List.range slots.length).all fun i =>
    decide (i < slotStart) ||
      match slots[i]? with
      | none => true
      | some s => slotOperandsIn E s lo i

/-- The local-address operands of a slot. -/
def operandTargets (E : Env) (slot : L1IRSlot) : List Nat :=
  ((List.range 3).filter fun j => E.SlotTypeArgumentIsLocalAddress slot.type j).map
    (L1IRExtractSlotOperand slot)

/-- Modelled from the spec: the slot at address `b` is reachable from the slot at address
`a` "through local-address operands" along a path of at most `fuel` operands (the
reflexive-transitive closure, cut at the path length `fuel`). -/
def reaches (E : Env) (slots : List L1IRSlot) : Nat → Nat → Nat → Bool
  | 0, a, b => decide (a = b)
  | fuel + 1, a, b =>
    decide (a = b) ||
      match slots[a]? with
      | none => false
      | some s => (operandTargets E s).any fun o => reaches E slots fuel o b

/-- Modelled from the spec: the slot at address `i` is reachable from one of the roots.
With operands that point to lower indices a path has fewer steps than there are
slots. -/
def reachable (E : Env) (slots : List L1IRSlot) (roots : List Nat) (i : Nat) : Bool :=
  roots.any fun r => reaches E slots slots.length r i

/-- Modelled from the spec: "the number of slots at indices ≥ start that are reachable
from the roots". -/
def reachableCount (E : Env) (slots : List L1IRSlot) (start : Nat) (roots : List Nat) : Nat :=
  ((List.range' start (slots.length - start)).filter fun i => reachable E slots roots i).length

/-- The local store, `resultLocalAddress` and `finalArgumentLocalAddress` with which
`L1IRGlobalStateEvaluate` on a native callee arrives at the label `resultComputed`,
before `callDepth--` and the collection. -/
def instantiateBlock (E : Env) (self : L1IRGlobalState) (localState : L1IRLocalState)
    (flags : L1IRGlobalStateEvaluationFlags) (calleeAddress : L1IRGlobalAddress)
    (argumentLocalAddress captureLocalAddress : L1IRLocalAddress) (hasOut : Bool) :
    Option (L1IRLocalState × L1IRLocalAddress × L1IRLocalAddress) :=
  match self.blocks[calleeAddress]? with
  | some (.native type slots) =>
    if slots.length = 0 then none
    else
      match instantiatePrototypes E self flags type calleeAddress argumentLocalAddress
          captureLocalAddress hasOut slots 0
          { localState := L1IRGlobalStatePushGCBarrier
              { localState with callDepth := localState.callDepth + 1 },
            mergingSlotRemappings := (List.range slots.length).map E.uninitialized,
            finalArgumentLocalAddress := 0 } with
      | none => none
      | some st =>
        match st.mergingSlotRemappings[slots.length - 1]? with
        | none => none
        | some resultLocalAddress =>
          some (st.localState, resultLocalAddress, st.finalArgumentLocalAddress)
  | _ => none

/-! ## Worked inputs -/

/-- A prototype slot used in the worked inputs. -/
def protoA : L1IRSlot := L1IRMakeSlot (.Other 0) 1 0 0

/-- A second prototype slot, different from `protoA`. -/
def protoB : L1IRSlot := L1IRMakeSlot (.Other 0) 2 0 0

/-- The empty global store. -/
def emptyGlobal : L1IRGlobalState := { blocks := [] }

/-- Three successive calls of `L1IRGlobalStateCreateNativeBlock` from a store `self`:
the three returned addresses and the final store. -/
def createThree (self : L1IRGlobalState)
    (t1 : L1IRGlobalStateBlockType) (p1 : List L1IRSlot)
    (t2 : L1IRGlobalStateBlockType) (p2 : List L1IRSlot)
    (t3 : L1IRGlobalStateBlockType) (p3 : List L1IRSlot) :
    Option (Nat × Nat × Nat × L1IRGlobalState) :=
  match L1IRGlobalStateCreateNativeBlock self t1 p1 with
  | none => none
  | some (g1, a1) =>
    match L1IRGlobalStateCreateNativeBlock g1 t2 p2 with
    | none => none
    | some (g2, a2) =>
      match L1IRGlobalStateCreateNativeBlock g2 t3 p3 with
      | none => none
      | some (g3, a3) => some (a1, a2, a3, g3)

/-- A type check for the worked inputs, within the minimum contract of the spec: an
address inhabits itself, a `Lambda` slot inhabits a `Pi` slot, nothing else holds. -/
def exampleIsOfType (_ : L1IRGlobalState) (localState : L1IRLocalState)
    (address typeAddress : Nat) : Bool :=
  if address = typeAddress then true
  else
    match localState.slots[address]?, localState.slots[typeAddress]? with
    | some value, some type => decide (value.type = .Lambda ∧ type.type = .Pi)
    | _, _ => false

/-- An environment for the worked inputs: operand 0 of the closure kinds `Lambda`, `Pi`,
`Sigma`, `ADT` is a local address (the capture slot that the `Self` case of the evaluator
stores there) and no other operand is; no type is an implicit root; every callback
returns its argument and leaves the local store alone; fresh memory holds zeros. -/
def exampleEnv : Env where
  SlotTypeArgumentIsLocalAddress := fun type j =>
    decide ((type = .Lambda ∨ type = .Pi ∨ type = .Sigma ∨ type = .ADT) ∧ j = 0)
  IsImplicitRoot := fun _ => false
  L1IRErrorTypeInvalidInstruction := 0
  L1IRErrorTypeTypeChecking := 1
  CallCapture_captures := fun slot => slot.operand0
  CallCapture_captured := fun slot => slot.operand1
  L1IRGlobalStateIsOfType := exampleIsOfType
  callbacks := fun _ _ localState _ argumentLocalAddress _ _ => (localState, argumentLocalAddress)
  uninitialized := fun _ => 0

/-- A slot of kind `Pi` (a function type). -/
def piSlot : L1IRSlot := L1IRMakeSlot .Pi 0 0 0

/-- A slot of kind `Lambda` (a function value). -/
def lambdaSlot : L1IRSlot := L1IRMakeSlot .Lambda 0 0 0

/-- A slot of a base type that no `Lambda` inhabits. -/
def intSlot : L1IRSlot := L1IRMakeSlot (.Other 0) 0 0 0

/-- A local store at rest holding a `Pi` type at address 0 and a `Lambda` value at
address 1. -/
def piAndLambda : L1IRLocalState :=
  { slots := [piSlot, lambdaSlot], gcBarriers := [], callDepth := 0 }

/-- A local store at rest holding a base type at address 0 and a `Lambda` value at
address 1. -/
def intAndLambda : L1IRLocalState :=
  { slots := [intSlot, lambdaSlot], gcBarriers := [], callDepth := 0 }

/-- A global store whose only block is the native `Lambda` block with the given
prototypes. -/
def lambdaBlock (prototypes : List L1IRSlot) : L1IRGlobalState :=
  { blocks := [.native .Lambda prototypes] }

/-- Three capture cells for the worked inputs (`captures` is operand 0, `captured` is
operand 1 in `exampleEnv`): cell 0 links to itself and holds 5, cell 1 links to cell 0
and holds 6, cell 2 links to cell 1 and holds 7. -/
def captureCells : List L1IRSlot :=
  [L1IRMakeSlot .CallCapture 0 5 0, L1IRMakeSlot .CallCapture 0 6 0,
   L1IRMakeSlot .CallCapture 1 7 0]

/-- The environment `exampleEnv` with a foreign callback that keeps the length of the
barrier stack and overwrites every entry with the current slot count (as after popping
all barriers and pushing as many again), and returns its argument. -/
def tamperEnv : Env :=
  { exampleEnv with
    callbacks := fun _ _ localState _ argumentLocalAddress _ _ =>
      ({ localState with
          gcBarriers := localState.gcBarriers.map (fun _ => localState.slots.length) },
        argumentLocalAddress) }

/-- The environment `exampleEnv` with the slot type `Other 9` as an implicit root. -/
def effectEnv : Env :=
  { exampleEnv with IsImplicitRoot := fun type => decide (type = .Other 9) }

/-- A slot of the implicit-root type of `effectEnv`. -/
def effectSlot : L1IRSlot := L1IRMakeSlot (.Other 9) 0 0 0

/-- A local store inside an evaluation: two base-type slots, one barrier at 1, call
depth 1. -/
def nestedStore : L1IRLocalState :=
  { slots := [intSlot, intSlot], gcBarriers := [1], callDepth := 1 }

/-- The loop variables of an evaluation nested in another one (call depth 2) over the
store `captureCells`, with a one-cell merging table. -/
def nestedLocals : EvaluateLocals :=
  { localState := { slots := captureCells, gcBarriers := [3, 0], callDepth := 2 },
    mergingSlotRemappings := [0],
    finalArgumentLocalAddress := 0 }


/-- Slots with a forward-pointing operand: above the barrier 1, the `Lambda` slot at index
1 refers to the slot at index 2, and the `Lambda` slot at index 3 refers to index 1. -/
def forwardSlots : List L1IRSlot :=
  [intSlot, L1IRMakeSlot .Lambda 2 0 0, intSlot, L1IRMakeSlot .Lambda 1 0 0]

/-- A store with a barrier at 1 whose operands point to lower indices above the barrier:
a base-type slot below the barrier, then a base-type slot at index 1, a slot at index 2
that nothing refers to, and a `Lambda` slot at index 3 that refers to index 1. -/
def backwardStore : L1IRLocalState :=
  { slots := [intSlot, intSlot, L1IRMakeSlot (.Other 1) 0 0 0, L1IRMakeSlot .Lambda 1 0 0],
    gcBarriers := [1], callDepth := 0 }

/-- Four prototypes of a lambda block: two `Captured` leaves and two slots that refer to
them; the last one is the result. -/
def reclaimPrototypes : List L1IRSlot :=
  [L1IRMakeSlot .Captured 0 0 0, L1IRMakeSlot .Captured 1 0 0, L1IRMakeSlot .Lambda 0 0 0,
    L1IRMakeSlot .Lambda 1 0 0]

/-- A local store with one slot, no barrier and call depth 0. -/
def reclaimStore : L1IRLocalState :=
  { slots := [intSlot], gcBarriers := [], callDepth := 0 }

/-- The local store with which the evaluation of `reclaimPrototypes` on `reclaimStore`
arrives at the label `resultComputed`: the four instantiated prototypes lie above the
barrier. -/
def reclaimInstantiated : L1IRLocalState :=
  { slots := [intSlot, L1IRMakeSlot .Captured 0 0 0, L1IRMakeSlot .Captured 1 0 0,
      L1IRMakeSlot .Lambda 1 0 0, L1IRMakeSlot .Lambda 2 0 0],
    gcBarriers := [1], callDepth := 1 }

/-- A store with a barrier at 1 whose only slot above the barrier, a `Lambda` slot at
index 1, refers to the slot at index 0, below the barrier. -/
def belowBarrierStore : L1IRLocalState :=
  { slots := [intSlot, L1IRMakeSlot .Lambda 0 0 0], gcBarriers := [1], callDepth := 0 }

/-- A store with a barrier at 1 and, above it, a base-type slot at index 1 and a slot of
the implicit-root type of `effectEnv` at index 2. -/
def effectStore : L1IRLocalState :=
  { slots := [intSlot, intSlot, effectSlot], gcBarriers := [1], callDepth := 0 }

/-- Two prototypes of a lambda block: the argument, expected to inhabit the slot at
address 1, and a slot that refers to it; the last one is the result. -/
def argumentUsePrototypes : List L1IRSlot :=
  [L1IRMakeSlot .Argument 0 1 0, L1IRMakeSlot .Lambda 0 0 0]

/-- A local store at rest holding two base-type slots. -/
def twoIntStore : L1IRLocalState :=
  { slots := [intSlot, intSlot], gcBarriers := [], callDepth := 0 }

/-- The local store with which the evaluation of `argumentUsePrototypes` on `twoIntStore`
with the argument at address 1 arrives at the label `resultComputed`: the slot
instantiated above the barrier 2 refers to the argument, below the barrier. -/
def argumentUseInstantiated : L1IRLocalState :=
  { slots := [intSlot, intSlot, L1IRMakeSlot .Lambda 1 0 0], gcBarriers := [2],
    callDepth := 1 }

/-! ## Theorems -/

/-! ### The collector: auxiliary facts -/

theorem setAnnotation_of_lt (slots : List L1IRSlot) (r : Nat) (h : r < slots.length) :
    L1IRSetSlotAnnotation slots r =
      some (slots.set r { slots[r] with annotation := true }) := by
  simp [ L1IRSetSlotAnnotation, List.getElem?_eq_getElem h]

theorem annotates_refl (s : L1IRSlot) : annotates s s := Or.inl rfl

theorem annotates_trans {s s1 s2 : L1IRSlot} (h1 : annotates s s1) (h2 : annotates s1 s2) :
    annotates s s2 := by
  rcases h1 with rfl | rfl <;> rcases h2 with rfl | rfl <;> simp [annotates]

theorem annotates_bit {s s1 : L1IRSlot} (h : annotates s s1)
    (hs : s.annotation = true) : s1.annotation = true := by
  rcases h with rfl | rfl
  · exact hs
  · rfl

theorem annotates_type {s s1 : L1IRSlot} (h : annotates s s1) : s1.type = s.type := by
  rcases h with rfl | rfl <;> rfl

theorem annotates_operand {s s1 : L1IRSlot} (h : annotates s s1) (j : Nat) :
    L1IRExtractSlotOperand s1 j = L1IRExtractSlotOperand s j := by
  rcases h with rfl | rfl
  · rfl
  · unfold L1IRExtractSlotOperand
    split <;> rfl

/-- Setting an annotation bit changes no slot other than by setting its bit, and sets
the bit of the addressed slot. -/
theorem setAnnotation_annotates {slots slots1 : List L1IRSlot} {i : Nat}
    (h : L1IRSetSlotAnnotation slots i = some slots1) (r : Nat) (s : L1IRSlot)
    (hs : slots[r]? = some s) :
    ∃ s1, slots1[r]? = some s1 ∧ annotates s s1 ∧ (r = i → s1.annotation = true) := by
  unfold L1IRSetSlotAnnotation at h
  cases hi : slots[i]? with
  | none => simp [hi] at h
  | some si =>
    simp only [hi, Option.some.injEq] at h
    subst h
    by_cases hri : r = i
    · subst hri
      have hlt : r < slots.length := by
        rcases List.getElem?_eq_some_iff.mp hs with ⟨hlt, _⟩
        exact hlt
      rw [hs] at hi
      cases hi
      exact ⟨{ s with annotation := true }, by simp [List.getElem?_set, hlt],
        Or.inr rfl, fun _ => rfl⟩
    · refine ⟨s, ?_, annotates_refl s, fun h => absurd h hri⟩
      rw [List.getElem?_set_ne (fun h => hri h.symm)]
      exact hs

/-- The loop "Mark roots" only sets annotation bits, leaves `maxUsedSlotCount` above every
root, and sets the bit of every root. -/
theorem markRoots_annotates (slotCount : Nat) (roots : List Nat) :
    ∀ (slots slots1 : List L1IRSlot) (m m1 : Nat),
      markRoots slotCount slots m roots = some (slots1, m1) →
      (∀ (r : Nat) (s : L1IRSlot), slots[r]? = some s →
        ∃ s1, slots1[r]? = some s1 ∧ annotates s s1) ∧
      (∀ (r : Nat) (s : L1IRSlot), r ∈ roots → slots[r]? = some s →
        r < m1 ∧ ∃ s1, slots1[r]? = some s1 ∧ annotates s s1 ∧ s1.annotation = true) ∧
      m ≤ m1 := by
  induction roots with
  | nil =>
    intro slots slots1 m m1 h
    simp only [markRoots, Option.some.injEq, Prod.mk.injEq] at h
    obtain ⟨rfl, rfl⟩ := h
    exact ⟨fun r s hs => ⟨s, hs, annotates_refl s⟩, fun r s hr => by simp at hr, le_rfl⟩
  | cons r0 roots ih =>
    intro slots slots1 m m1 h
    simp only [markRoots] at h
    split at h
    · cases hset : L1IRSetSlotAnnotation slots r0 with
      | none => simp [hset] at h
      | some slotsA =>
        simp only [hset] at h
        obtain ⟨hall, hroots, hm⟩ := ih slotsA slots1 _ m1 h
        have hm1 : m ≤ m1 ∧ r0 < m1 := by
          split at hm <;> omega
        refine ⟨?_, ?_, hm1.1⟩
        · intro r s hs
          obtain ⟨sA, hsA, hA, _⟩ := setAnnotation_annotates hset r s hs
          obtain ⟨s1, hs1, h1⟩ := hall r sA hsA
          exact ⟨s1, hs1, annotates_trans hA h1⟩
        · intro r s hr hs
          obtain ⟨sA, hsA, hA, hbit⟩ := setAnnotation_annotates hset r s hs
          rcases List.mem_cons.mp hr with rfl | hr
          · obtain ⟨s1, hs1, h1⟩ := hall r sA hsA
            exact ⟨hm1.2, s1, hs1, annotates_trans hA h1, annotates_bit h1 (hbit rfl)⟩
          · obtain ⟨hlt, s1, hs1, h1, hb1⟩ := hroots r sA hr hsA
            exact ⟨hlt, s1, hs1, annotates_trans hA h1, hb1⟩
    · simp at h

/-- The operand loop of the mark phase only sets annotation bits. -/
theorem markOperands_annotates (E : Env) (slotStart : Nat) (slot : L1IRSlot) (n : Nat) :
    ∀ (j : Nat) (slots slots1 : List L1IRSlot),
      markOperands E slotStart slot n j slots = some slots1 →
      ∀ (r : Nat) (s : L1IRSlot), slots[r]? = some s →
        ∃ s1, slots1[r]? = some s1 ∧ annotates s s1 := by
  induction n with
  | zero =>
    intro j slots slots1 h r s hs
    simp only [markOperands, Option.some.injEq] at h
    subst h
    exact ⟨s, hs, annotates_refl s⟩
  | succ n ih =>
    intro j slots slots1 h r s hs
    simp only [markOperands] at h
    split at h
    · exact ih _ _ _ h r s hs
    · split at h
      · exact ih _ _ _ h r s hs
      · cases hset : L1IRSetSlotAnnotation slots (L1IRExtractSlotOperand slot j) with
        | none => simp [hset] at h
        | some slotsA =>
          simp only [hset] at h
          obtain ⟨sA, hsA, hA, _⟩ := setAnnotation_annotates hset r s hs
          obtain ⟨s1, hs1, h1⟩ := ih _ _ _ h r sA hsA
          exact ⟨s1, hs1, annotates_trans hA h1⟩

/-- The loop "Propagate retain marks" only sets annotation bits. -/
theorem propagateMarks_annotates (E : Env) (slotStart : Nat) (k : Nat) :
    ∀ (slots slots1 : List L1IRSlot) (c c1 : Nat),
      propagateMarks E slotStart k slots c = some (slots1, c1) →
      ∀ (r : Nat) (s : L1IRSlot), slots[r]? = some s →
        ∃ s1, slots1[r]? = some s1 ∧ annotates s s1 := by
  induction k with
  | zero =>
    intro slots slots1 c c1 h r s hs
    simp only [propagateMarks, Option.some.injEq, Prod.mk.injEq] at h
    obtain ⟨rfl, _⟩ := h
    exact ⟨s, hs, annotates_refl s⟩
  | succ k ih =>
    intro slots slots1 c c1 h r s hs
    simp only [propagateMarks] at h
    cases hget : slots[slotStart + k]? with
    | none => simp [hget] at h
    | some slot =>
      simp only [hget] at h
      split at h
      · exact ih _ _ _ _ h r s hs
      · cases hmark : markOperands E slotStart slot 3 0 slots with
        | none => simp [hmark] at h
        | some slotsA =>
          simp only [hmark] at h
          obtain ⟨sA, hsA, hA⟩ := markOperands_annotates E slotStart slot 3 0 slots slotsA hmark r s hs
          obtain ⟨s1, hs1, h1⟩ := ih _ _ _ _ h r sA hsA
          exact ⟨s1, hs1, annotates_trans hA h1⟩

/-- A retained slot with a local-address operand below `slotStart` has no remapping. -/
theorem remapOperand_below_start (E : Env) (slotRemappings : List Nat) (slotStart : Nat)
    (s : L1IRSlot) (j : Nat) (hla : E.SlotTypeArgumentIsLocalAddress s.type j = true)
    (hop : L1IRExtractSlotOperand s j < slotStart) :
    remapOperand E slotRemappings slotStart s j = none := by
  simp [remapOperand, readRemapping, hla, hop]

/-- The compaction loop has no defined result once it is to visit an annotated slot with
a local-address operand below `slotStart`. -/
theorem compactSlots_operand_below_start (E : Env) (slotStart r j : Nat) (s : L1IRSlot)
    (hj : j < 3) (hbit : s.annotation = true)
    (hla : E.SlotTypeArgumentIsLocalAddress s.type j = true)
    (hop : L1IRExtractSlotOperand s j < slotStart) (k : Nat) :
    ∀ (i : Nat) (slots : List L1IRSlot) (slotRemappings : List Nat) (finalSlotIndex : Nat),
      finalSlotIndex ≤ i → i ≤ r → r < i + k → slots[r]? = some s →
      compactSlots E slotStart k i slots slotRemappings finalSlotIndex = none := by
  induction k with
  | zero =>
    intro i slots slotRemappings finalSlotIndex _ hir hrk _
    omega
  | succ k ih =>
    intro i slots slotRemappings finalSlotIndex hfi hir hrk hs
    simp only [compactSlots]
    cases hget : slots[i]? with
    | none => rfl
    | some slot =>
      simp only []
      by_cases hri : i = r
      · subst hri
        rw [hs] at hget
        cases hget
        have hnone := remapOperand_below_start E
          (slotRemappings.set (i - slotStart) 65535) slotStart s j hla hop
        have hj3 : j = 0 ∨ j = 1 ∨ j = 2 := by omega
        simp only [hbit, not_true_eq_false, and_false, if_false]
        rcases hj3 with rfl | rfl | rfl
        · simp [hnone]
        · rw [hnone]
          split <;> simp_all
        · rw [hnone]
          split <;> simp_all
      · have hlt : i < r := by omega
        split
        · exact ih _ _ _ _ (by omega) (by omega) (by omega) hs
        · split
          · refine ih _ _ _ _ (by omega) (by omega) (by omega) ?_
            rw [List.getElem?_set_ne (by omega)]
            exact hs
          · rfl

/-- The collector has no defined result when a root above `slotStart` designates a slot
with a local-address operand below `slotStart`. -/
theorem compact_root_operand_below_start (E : Env) (slots : List L1IRSlot)
    (slotStart slotCount : Nat) (roots : List Nat) (r j : Nat) (s : L1IRSlot)
    (hstart : slotStart ≤ r) (hr : r ∈ roots) (hs : slots[r]? = some s) (hj : j < 3)
    (hla : E.SlotTypeArgumentIsLocalAddress s.type j = true)
    (hop : L1IRExtractSlotOperand s j < slotStart) :
    CompactLocalGarbage E slots slotStart slotCount roots = none := by
  unfold CompactLocalGarbage
  cases hmark : markRoots slotCount slots slotStart roots with
  | none => rfl
  | some marked =>
    obtain ⟨slots1, m1⟩ := marked
    obtain ⟨_, hroots, _⟩ := markRoots_annotates slotCount roots slots slots1 slotStart m1 hmark
    obtain ⟨hlt, s1, hs1, h1, hbit1⟩ := hroots r s hr hs
    have hne : m1 ≠ slotStart := by omega
    simp only [hne, if_false]
    cases hprop : propagateMarks E slotStart (m1 - slotStart) slots1 slotStart with
    | none => rfl
    | some propagated =>
      obtain ⟨slots2, c⟩ := propagated
      obtain ⟨s2, hs2, h2⟩ :=
        propagateMarks_annotates E slotStart (m1 - slotStart) slots1 slots2 slotStart c hprop
          r s1 hs1
      have h12 := annotates_trans h1 h2
      have hla2 : E.SlotTypeArgumentIsLocalAddress s2.type j = true := by
        rw [annotates_type h12]
        exact hla
      have hop2 : L1IRExtractSlotOperand s2 j < slotStart := by
        rw [annotates_operand h12]
        exact hop
      have hcompact := compactSlots_operand_below_start E slotStart r j s2 hj
        (annotates_bit h2 hbit1) hla2 hop2 (m1 - slotStart) slotStart slots2
        ((List.range (m1 - slotStart)).map E.uninitialized) slotStart le_rfl hstart (by omega) hs2
      simp only [hcompact]

/-- A single root below the barrier: the root slot is annotated and nothing else
happens. -/
theorem compact_single_root_below (E : Env) (slots : List L1IRSlot) (slotStart r : Nat)
    (hr : r < slots.length) (hs : r < slotStart) :
    CompactLocalGarbage E slots slotStart slots.length [r] =
      some (slots.set r { slots[r] with annotation := true }, [r], slotStart) := by
  have h1 : ¬ (r + 1 > slotStart) := by omega
  simp [CompactLocalGarbage, markRoots, hr, setAnnotation_of_lt slots r hr, h1]

/-- Popping a barrier pushed at the current length with one root below it. -/
theorem pop_single_root_below (E : Env) (localState : L1IRLocalState) (barriers : List Nat)
    (r : Nat) (hr : r < localState.slots.length) (hlen : localState.slots.length < 65536)
    (hb : localState.gcBarriers = localState.slots.length :: barriers) :
    L1IRGlobalStatePopGCBarrier E localState [r] =
      some ({ localState with
                slots := localState.slots.set r { localState.slots[r] with annotation := true },
                gcBarriers := barriers }, [r]) := by
  have hmod : localState.slots.length % 65536 = localState.slots.length :=
    Nat.mod_eq_of_lt hlen
  simp only [L1IRGlobalStatePopGCBarrier, hb, hmod]
  rw [compact_single_root_below E localState.slots localState.slots.length r hr hr]
  simp

/-- From the label `resultComputed` on, without an out-parameter, when exactly one slot
lies above the barrier `b` and the result address `u` is not the address of that slot:
either there is no defined result, or `u` is returned, `u` lies below the barrier and
the slot above the barrier is collected. -/
theorem resultComputed_stray_result (E : Env) (localState : L1IRLocalState) (b : Nat)
    (barriers : List Nat) (u finalArgumentLocalAddress : Nat)
    (hb : localState.gcBarriers = b :: barriers) (hslots : localState.slots.length = b + 1)
    (hlen : b + 1 < 65536) (hu : u ≠ b) :
    resultComputed E localState u finalArgumentLocalAddress false = none ∨
    ∃ localState1,
      resultComputed E localState u finalArgumentLocalAddress false =
        some (localState1, u, none) ∧
      localState1.slots.length = b ∧ u < b := by
  have hmodb : b % 65536 = b := Nat.mod_eq_of_lt (by omega)
  have hmodc : (b + 1) % 65536 = b + 1 := Nat.mod_eq_of_lt hlen
  by_cases hub : u < b
  · right
    have hul : u < localState.slots.length := by omega
    have hcompact := compact_single_root_below E localState.slots b u hul hub
    rw [hslots] at hcompact
    refine ⟨L1IRLocalState.mk ((localState.slots.set u
        { localState.slots[u] with annotation := true }).take b) barriers
      (localState.callDepth - 1), ?_, ?_, hub⟩
    · simp [resultComputed, L1IRGlobalStatePopGCBarrier, hb, hslots, hmodb, hmodc, hcompact]
    · simp [hslots]
  · left
    have hge : ¬ u < b + 1 := by omega
    simp [resultComputed, L1IRGlobalStatePopGCBarrier, hb, hslots, hmodb, hmodc,
      CompactLocalGarbage, markRoots, hge]

/-- A local-address operand that indexes a cell of the merging table resolves. -/
theorem mergeOperand_isSome (E : Env) (mergingSlotRemappings : List Nat)
    (prototypeSlot : L1IRSlot) (j : Nat)
    (h : E.SlotTypeArgumentIsLocalAddress prototypeSlot.type j = true →
      L1IRExtractSlotOperand prototypeSlot j < mergingSlotRemappings.length) :
    ∃ o, mergeOperand E mergingSlotRemappings prototypeSlot j = some o := by
  unfold mergeOperand
  split
  · next hla => exact ⟨_, List.getElem?_eq_getElem (h hla)⟩
  · exact ⟨_, rfl⟩

/-- The cell `n` of a fresh merging table of more than `n` cells, after cell 0 was
written, still holds its indeterminate value when `n ≠ 0`. -/
theorem unwritten_cell (E : Env) (n x : Nat) (hn : n ≠ 0) :
    (((List.range (n + 1)).map E.uninitialized).set 0 x)[n]? = some (E.uninitialized n) := by
  rw [List.getElem?_set_ne (fun h => hn h.symm)]
  simp [List.getElem?_range]

/-! ### Block creation -/

theorem scanBlocks_ADT (blocks : List L1IRGlobalStateBlock) (p : List L1IRSlot)
    (rest : List L1IRGlobalStateBlock) (i : Nat) :
    scanBlocks blocks .ADT p rest i = some none := by
  cases rest <;> simp [scanBlocks]

theorem createNativeBlock_ADT (self : L1IRGlobalState) (p : List L1IRSlot) (hp : p ≠ []) :
    L1IRGlobalStateCreateNativeBlock self .ADT p =
      some ({ blocks := self.blocks ++ [.native .ADT p] }, self.blocks.length) := by
  have hlen : p.length ≠ 0 := by
    intro h
    exact hp (List.length_eq_zero.mp h)
  simp [L1IRGlobalStateCreateNativeBlock, scanBlocks_ADT, hlen]

/-- C1 (hash-consing), evaluated on the code: after `create(Lambda, [protoA])` on the
empty store, two calls `create(Lambda, [protoB])` return the different addresses 1 and
2, and the second of them appends a third block. The comparison inside the loop reads
the slots of block 0 for every `i`, so a block that is not block 0 is never found. -/
theorem hashcons_second_call_appends :
    createThree emptyGlobal .Lambda [protoA] .Lambda [protoB] .Lambda [protoB] =
      some (0, 1, 2, { blocks := [.native .Lambda [protoA], .native .Lambda [protoB],
                                   .native .Lambda [protoB]] }) := by
  decide

/-- C2 (deduplication is sound), evaluated on the code: after `create(Pi, [protoA])` and
`create(Lambda, [protoB])` on the empty store, `create(Lambda, [protoA])` returns address
1 without appending, and the block stored at address 1 has the prototype `protoB`, not
`protoA`. -/
theorem dedup_returns_block_with_other_slots :
    createThree emptyGlobal .Pi [protoA] .Lambda [protoB] .Lambda [protoA] =
      some (0, 1, 1, { blocks := [.native .Pi [protoA], .native .Lambda [protoB]] }) ∧
    protoB ≠ protoA := by
  decide

/-- C3 (ADT nominal identity and fresh addresses): for every global store and every
non-empty prototype sequence `p`, `create_native_block(ADT, p)` appends exactly one block
and returns the previous block count; a second such call on the resulting store again
appends one block and returns a different address; and `create_foreign_block` appends
one block and returns the previous block count. -/
theorem adt_and_foreign_always_append (self : L1IRGlobalState) (p : List L1IRSlot)
    (hp : p ≠ []) (callback userdata : Nat) :
    (∃ g1 g2 a1 a2,
      L1IRGlobalStateCreateNativeBlock self .ADT p = some (g1, a1) ∧
      g1.blocks = self.blocks ++ [.native .ADT p] ∧ a1 = self.blocks.length ∧
      L1IRGlobalStateCreateNativeBlock g1 .ADT p = some (g2, a2) ∧
      g2.blocks = g1.blocks ++ [.native .ADT p] ∧ a2 = g1.blocks.length ∧
      a1 ≠ a2) ∧
    L1IRGlobalStateCreateForeignBlock self .ForeignFunction callback userdata =
      some ({ blocks := self.blocks ++ [.foreign callback userdata] }, self.blocks.length) := by
  refine ⟨⟨_, _, _, _, createNativeBlock_ADT self p hp, rfl, rfl,
    createNativeBlock_ADT _ p hp, rfl, rfl, ?_⟩, ?_⟩
  · simp
  · simp [L1IRGlobalStateCreateForeignBlock]

/-- C3 at a concrete store and prototype sequence. -/
theorem adt_and_foreign_always_append_witness :
    [protoA] ≠ [] ∧
    ((∃ g1 g2 a1 a2,
      L1IRGlobalStateCreateNativeBlock { blocks := [.native .ADT [protoA]] } .ADT [protoA] =
        some (g1, a1) ∧
      g1.blocks = [.native .ADT [protoA]] ++ [.native .ADT [protoA]] ∧ a1 = 1 ∧
      L1IRGlobalStateCreateNativeBlock g1 .ADT [protoA] = some (g2, a2) ∧
      g2.blocks = g1.blocks ++ [.native .ADT [protoA]] ∧ a2 = g1.blocks.length ∧
      a1 ≠ a2) ∧
    L1IRGlobalStateCreateForeignBlock { blocks := [.native .ADT [protoA]] } .ForeignFunction 7 9 =
      some ({ blocks := [.native .ADT [protoA]] ++ [.foreign 7 9] }, 1)) :=
  ⟨by decide, adt_and_foreign_always_append { blocks := [.native .ADT [protoA]] } [protoA]
    (by decide) 7 9⟩

/-! ### Evaluation -/

/-- The local store after `call` on a foreign block whose callback returns its argument
and leaves the local store alone: address 0 is returned whatever the argument is, and
the only change to the store is the annotation bit of slot 0. -/
theorem foreign_identity_call (E : Env) (self : L1IRGlobalState) (localState : L1IRLocalState)
    (calleeAddress a callback userdata : Nat)
    (hblock : self.blocks[calleeAddress]? = some (.foreign callback userdata))
    (ha : a < localState.slots.length) (hlen : localState.slots.length < 65536)
    (hid : E.callbacks callback self
      (L1IRGlobalStatePushGCBarrier { localState with callDepth := localState.callDepth + 1 })
      calleeAddress a false userdata =
        (L1IRGlobalStatePushGCBarrier { localState with callDepth := localState.callDepth + 1 },
          a)) :
    L1IRGlobalStateCall E self localState calleeAddress a =
      some ({ localState with
                slots := localState.slots.set 0
                  { localState.slots[0] with annotation := true } }, 0) := by
  have h0 : 0 < localState.slots.length := by omega
  have hpop := pop_single_root_below E
    { slots := localState.slots, gcBarriers := localState.slots.length :: localState.gcBarriers,
      callDepth := localState.callDepth } localState.gcBarriers 0 h0 hlen rfl
  simp only [L1IRGlobalStateCall, L1IRGlobalStateEvaluate, hblock, hid]
  simp [L1IRGlobalStatePushGCBarrier, resultComputed]
  rw [hpop]

/-- C4 (foreign identity call), what the code does: for every local store of fewer than
65536 slots and every valid argument address `a`, `call` on a foreign block whose
callback returns `a` and does not modify the local store returns the address 0, not
`a`; the length of the local store is unchanged. -/
theorem foreign_identity_call_returns_zero (E : Env) (self : L1IRGlobalState)
    (localState : L1IRLocalState) (calleeAddress a callback userdata : Nat)
    (hblock : self.blocks[calleeAddress]? = some (.foreign callback userdata))
    (ha : a < localState.slots.length) (hlen : localState.slots.length < 65536)
    (hid : E.callbacks callback self
      (L1IRGlobalStatePushGCBarrier { localState with callDepth := localState.callDepth + 1 })
      calleeAddress a false userdata =
        (L1IRGlobalStatePushGCBarrier { localState with callDepth := localState.callDepth + 1 },
          a)) :
    ∃ localState1, L1IRGlobalStateCall E self localState calleeAddress a = some (localState1, 0) ∧
      localState1.slots.length = localState.slots.length := by
  refine ⟨_, foreign_identity_call E self localState calleeAddress a callback userdata hblock ha
    hlen hid, ?_⟩
  simp

/-- C4 at the store `piAndLambda` with the argument address 1: the call returns 0. -/
theorem foreign_identity_call_returns_zero_witness :
    (1 : Nat) ≠ 0 ∧
    ∃ localState1,
      L1IRGlobalStateCall exampleEnv { blocks := [.foreign 0 0] } piAndLambda 0 1 =
        some (localState1, 0) ∧
      localState1.slots.length = piAndLambda.slots.length :=
  ⟨by decide, foreign_identity_call_returns_zero exampleEnv { blocks := [.foreign 0 0] }
    piAndLambda 0 1 0 0 rfl (by decide) (by decide) rfl⟩

/-- C5 (error absorption), what the code does on an early stop at index 0 of a block of
at least two prototypes: for every environment, every local store and every native block
`p0 :: rest` with `p0` of type `UnresolvedSymbol` or `Error` and `rest` non-empty, `call`
returns the indeterminate content `u` of the never-written cell `slotCount - 1` of the
merging table. Unless `u` happens to be the address of the new `Error` slot, either the
call has no defined result, or the `Error` slot is collected and `u` is an address below
the barrier, that of a slot that was in the store before the call. -/
theorem early_stop_returns_unwritten_cell (E : Env) (self : L1IRGlobalState)
    (localState : L1IRLocalState) (calleeAddress a : Nat) (type : L1IRGlobalStateBlockType)
    (p0 : L1IRSlot) (rest : List L1IRSlot)
    (hblock : self.blocks[calleeAddress]? = some (.native type (p0 :: rest)))
    (hp0 : p0.type = .UnresolvedSymbol ∨ p0.type = .Error) (hrest : rest ≠ [])
    (hops : ∀ j, E.SlotTypeArgumentIsLocalAddress p0.type j = true →
      L1IRExtractSlotOperand p0 j ≤ rest.length)
    (hlen : localState.slots.length + 1 < 65536)
    (hu : E.uninitialized rest.length ≠ localState.slots.length) :
    L1IRGlobalStateCall E self localState calleeAddress a = none ∨
    ∃ localState1,
      L1IRGlobalStateCall E self localState calleeAddress a =
        some (localState1, E.uninitialized rest.length) ∧
      localState1.slots.length = localState.slots.length ∧
      E.uninitialized rest.length < localState.slots.length := by
  have hn : rest.length ≠ 0 := fun h => hrest (List.length_eq_zero.mp h)
  have hres : ∀ j, ∃ o, mergeOperand E ((List.range (rest.length + 1)).map E.uninitialized)
      p0 j = some o := by
    intro j
    apply mergeOperand_isSome
    intro hla
    have := hops j hla
    simp
    omega
  obtain ⟨o0, h0⟩ := hres 0
  obtain ⟨o1, h1⟩ := hres 1
  obtain ⟨o2, h2⟩ := hres 2
  have hstep : instantiatePrototypes E self { hasArgument := true, hasCaptured := false } type
      calleeAddress a 0 false (p0 :: rest) 0
      { localState := L1IRGlobalStatePushGCBarrier
          { localState with callDepth := localState.callDepth + 1 },
        mergingSlotRemappings := (List.range (rest.length + 1)).map E.uninitialized,
        finalArgumentLocalAddress := 0 } =
      some { localState :=
               { slots := localState.slots ++
                   [L1IRMakeSlot .Error E.L1IRErrorTypeInvalidInstruction 0 0],
                 gcBarriers := localState.slots.length :: localState.gcBarriers,
                 callDepth := localState.callDepth + 1 },
             mergingSlotRemappings := ((List.range (rest.length + 1)).map E.uninitialized).set 0
               (localState.slots.length % 65536),
             finalArgumentLocalAddress := 0 } := by
    rcases hp0 with hp | hp <;>
      simp [instantiatePrototypes, instantiatePrototype, h0, h1, h2, hp,
        L1IRGlobalStateCreateSlot, L1IRLocalStateCreateSlot, L1IRGlobalStatePushGCBarrier]
  have hstray := resultComputed_stray_result E
    { slots := localState.slots ++ [L1IRMakeSlot .Error E.L1IRErrorTypeInvalidInstruction 0 0],
      gcBarriers := localState.slots.length :: localState.gcBarriers,
      callDepth := localState.callDepth + 1 }
    localState.slots.length localState.gcBarriers (E.uninitialized rest.length) 0 rfl (by simp)
    hlen hu
  simp only [L1IRGlobalStateCall, L1IRGlobalStateEvaluate, hblock, List.length_cons,
    Nat.add_sub_cancel, hstep, unwritten_cell E rest.length _ hn]
  rcases hstray with hnone | ⟨localState1, hsome, hl, hlt⟩
  · left
    simp [hnone]
  · right
    exact ⟨localState1, by simp [hsome], hl, hlt⟩

/-- C5 at the store `piAndLambda` (two slots) with fresh memory holding zeros. The block
`[UnresolvedSymbol, UnresolvedSymbol]` stops at index 0: address 0 is returned, the
`Error` slot is collected and address 0 holds the `Pi` slot. The last conjuncts evaluate
the block `[Captured, UnresolvedSymbol]`, which stops at its last index: the `Error` slot
is created at address 3 and moved to address 2 by the collector, but the address
returned is the address 3 from before the collection, outside the store. -/
theorem early_stop_returns_unwritten_cell_witness :
    (((L1IRMakeSlot .UnresolvedSymbol 0 0 0).type = .UnresolvedSymbol ∨
        (L1IRMakeSlot .UnresolvedSymbol 0 0 0).type = .Error) ∧
      [L1IRMakeSlot .UnresolvedSymbol 0 0 0] ≠ [] ∧
      piAndLambda.slots.length + 1 < 65536 ∧
      exampleEnv.uninitialized [L1IRMakeSlot .UnresolvedSymbol 0 0 0].length ≠
        piAndLambda.slots.length) ∧
    (L1IRGlobalStateCall exampleEnv
        (lambdaBlock [L1IRMakeSlot .UnresolvedSymbol 0 0 0, L1IRMakeSlot .UnresolvedSymbol 0 0 0])
        piAndLambda 0 1 = none ∨
      ∃ localState1,
        L1IRGlobalStateCall exampleEnv
          (lambdaBlock [L1IRMakeSlot .UnresolvedSymbol 0 0 0, L1IRMakeSlot .UnresolvedSymbol 0 0 0])
          piAndLambda 0 1 =
          some (localState1,
            exampleEnv.uninitialized [L1IRMakeSlot .UnresolvedSymbol 0 0 0].length) ∧
        localState1.slots.length = piAndLambda.slots.length ∧
        exampleEnv.uninitialized [L1IRMakeSlot .UnresolvedSymbol 0 0 0].length <
          piAndLambda.slots.length) ∧
    (L1IRGlobalStateCall exampleEnv
        (lambdaBlock [L1IRMakeSlot .UnresolvedSymbol 0 0 0, L1IRMakeSlot .UnresolvedSymbol 0 0 0])
        piAndLambda 0 1 =
      some ({ slots := [{ piSlot with annotation := true }, lambdaSlot], gcBarriers := [],
              callDepth := 0 }, 0)) ∧
    (L1IRGlobalStateCall exampleEnv
        (lambdaBlock [L1IRMakeSlot .Captured 0 0 0, L1IRMakeSlot .UnresolvedSymbol 0 0 0])
        piAndLambda 0 1 =
      some ({ slots := [piSlot, lambdaSlot, L1IRMakeSlot .Error 0 0 0], gcBarriers := [],
              callDepth := 0 }, 3)) ∧
    [piSlot, lambdaSlot, L1IRMakeSlot .Error 0 0 0][3]? = none :=
  ⟨by decide,
   early_stop_returns_unwritten_cell exampleEnv
     (lambdaBlock [L1IRMakeSlot .UnresolvedSymbol 0 0 0, L1IRMakeSlot .UnresolvedSymbol 0 0 0])
     piAndLambda 0 1 .Lambda (L1IRMakeSlot .UnresolvedSymbol 0 0 0)
     [L1IRMakeSlot .UnresolvedSymbol 0 0 0] rfl (Or.inl rfl) (by decide)
     (fun j h => by simp [exampleEnv, L1IRMakeSlot] at h) (by decide) (by decide),
   by decide, by decide, by decide⟩

/-- C6 (type check gating), what the code does when the `Argument` prototype is at index
0 of a block of at least two prototypes: for every environment, every local store and
every native block `p0 :: rest` with `p0` of type `Argument` and `rest` non-empty, if the
operand resolution of the code leaves the depth operand 0 and gives the type address `t`,
and `is_of_type(a, t)` is false, then `call` with the argument `a` returns the
indeterminate content `u` of the never-written cell `slotCount - 1` of the merging table.
Unless `u` happens to be the address of the new `Error(TypeChecking)` slot, either the
call has no defined result, or that slot is collected and `u` is the address of a slot
that was in the store before the call. -/
theorem type_error_returns_unwritten_cell (E : Env) (self : L1IRGlobalState)
    (localState : L1IRLocalState) (calleeAddress a t : Nat) (type : L1IRGlobalStateBlockType)
    (p0 : L1IRSlot) (rest : List L1IRSlot)
    (hblock : self.blocks[calleeAddress]? = some (.native type (p0 :: rest)))
    (hp0 : p0.type = .Argument) (hrest : rest ≠ [])
    (hdepth : mergeOperand E ((List.range (rest.length + 1)).map E.uninitialized) p0 0 = some 0)
    (htype : mergeOperand E ((List.range (rest.length + 1)).map E.uninitialized) p0 1 = some t)
    (hop2 : E.SlotTypeArgumentIsLocalAddress p0.type 2 = true →
      L1IRExtractSlotOperand p0 2 ≤ rest.length)
    (hof : E.L1IRGlobalStateIsOfType self
      (L1IRGlobalStatePushGCBarrier { localState with callDepth := localState.callDepth + 1 })
      a t = false)
    (hlen : localState.slots.length + 1 < 65536)
    (hu : E.uninitialized rest.length ≠ localState.slots.length) :
    L1IRGlobalStateCall E self localState calleeAddress a = none ∨
    ∃ localState1,
      L1IRGlobalStateCall E self localState calleeAddress a =
        some (localState1, E.uninitialized rest.length) ∧
      localState1.slots.length = localState.slots.length ∧
      E.uninitialized rest.length < localState.slots.length := by
  have hn : rest.length ≠ 0 := fun h => hrest (List.length_eq_zero.mp h)
  obtain ⟨o2, h2⟩ := mergeOperand_isSome E ((List.range (rest.length + 1)).map E.uninitialized)
    p0 2 (fun hla => by
      have := hop2 hla
      simp
      omega)
  have hstep : instantiatePrototypes E self { hasArgument := true, hasCaptured := false } type
      calleeAddress a 0 false (p0 :: rest) 0
      { localState := L1IRGlobalStatePushGCBarrier
          { localState with callDepth := localState.callDepth + 1 },
        mergingSlotRemappings := (List.range (rest.length + 1)).map E.uninitialized,
        finalArgumentLocalAddress := 0 } =
      some { localState :=
               { slots := localState.slots ++
                   [L1IRMakeSlot .Error E.L1IRErrorTypeTypeChecking 0 0],
                 gcBarriers := localState.slots.length :: localState.gcBarriers,
                 callDepth := localState.callDepth + 1 },
             mergingSlotRemappings := ((List.range (rest.length + 1)).map E.uninitialized).set 0
               (localState.slots.length % 65536),
             finalArgumentLocalAddress := 0 } := by
    simp only [L1IRGlobalStatePushGCBarrier] at hof
    simp [instantiatePrototypes, instantiatePrototype, hdepth, htype, h2, hp0, hof,
      L1IRGlobalStateCreateSlot, L1IRLocalStateCreateSlot, L1IRGlobalStatePushGCBarrier]
  have hstray := resultComputed_stray_result E
    { slots := localState.slots ++ [L1IRMakeSlot .Error E.L1IRErrorTypeTypeChecking 0 0],
      gcBarriers := localState.slots.length :: localState.gcBarriers,
      callDepth := localState.callDepth + 1 }
    localState.slots.length localState.gcBarriers (E.uninitialized rest.length) 0 rfl (by simp)
    hlen hu
  simp only [L1IRGlobalStateCall, L1IRGlobalStateEvaluate, hblock, List.length_cons,
    Nat.add_sub_cancel, hstep, unwritten_cell E rest.length _ hn]
  rcases hstray with hnone | ⟨localState1, hsome, hl, hlt⟩
  · left
    simp [hnone]
  · right
    exact ⟨localState1, by simp [hsome], hl, hlt⟩

/-- C6 at the store `intAndLambda` (a base type at address 0, a `Lambda` value at address
1, which does not inhabit it) with fresh memory holding zeros. The block
`[Argument(0, 0), Other]` stops at index 0: address 0 is returned, the
`Error(TypeChecking)` slot is collected and address 0 holds the base type. The last
conjuncts evaluate the block `[Captured, Argument(0, 0)]`, which stops at its last
index: the error slot is created at address 3 and moved to address 2 by the collector,
but the address returned is the address 3 from before the collection, outside the
store. -/
theorem type_error_returns_unwritten_cell_witness :
    ((L1IRMakeSlot .Argument 0 0 0).type = .Argument ∧
      [L1IRMakeSlot (.Other 1) 0 0 0] ≠ [] ∧
      exampleEnv.L1IRGlobalStateIsOfType
        (lambdaBlock [L1IRMakeSlot .Argument 0 0 0, L1IRMakeSlot (.Other 1) 0 0 0])
        (L1IRGlobalStatePushGCBarrier
          { intAndLambda with callDepth := intAndLambda.callDepth + 1 }) 1 0 = false ∧
      intAndLambda.slots.length + 1 < 65536 ∧
      exampleEnv.uninitialized [L1IRMakeSlot (.Other 1) 0 0 0].length ≠
        intAndLambda.slots.length) ∧
    (L1IRGlobalStateCall exampleEnv
        (lambdaBlock [L1IRMakeSlot .Argument 0 0 0, L1IRMakeSlot (.Other 1) 0 0 0])
        intAndLambda 0 1 = none ∨
      ∃ localState1,
        L1IRGlobalStateCall exampleEnv
          (lambdaBlock [L1IRMakeSlot .Argument 0 0 0, L1IRMakeSlot (.Other 1) 0 0 0])
          intAndLambda 0 1 =
          some (localState1, exampleEnv.uninitialized [L1IRMakeSlot (.Other 1) 0 0 0].length) ∧
        localState1.slots.length = intAndLambda.slots.length ∧
        exampleEnv.uninitialized [L1IRMakeSlot (.Other 1) 0 0 0].length <
          intAndLambda.slots.length) ∧
    (L1IRGlobalStateCall exampleEnv
        (lambdaBlock [L1IRMakeSlot .Argument 0 0 0, L1IRMakeSlot (.Other 1) 0 0 0])
        intAndLambda 0 1 =
      some ({ slots := [{ intSlot with annotation := true }, lambdaSlot], gcBarriers := [],
              callDepth := 0 }, 0)) ∧
    (L1IRGlobalStateCall exampleEnv
        (lambdaBlock [L1IRMakeSlot .Captured 0 0 0, L1IRMakeSlot .Argument 0 0 0])
        intAndLambda 0 1 =
      some ({ slots := [intSlot, lambdaSlot, L1IRMakeSlot .Error 1 0 0], gcBarriers := [],
              callDepth := 0 }, 3)) ∧
    [intSlot, lambdaSlot, L1IRMakeSlot .Error 1 0 0][3]? = none :=
  ⟨by decide,
   type_error_returns_unwritten_cell exampleEnv
     (lambdaBlock [L1IRMakeSlot .Argument 0 0 0, L1IRMakeSlot (.Other 1) 0 0 0])
     intAndLambda 0 1 0 .Lambda (L1IRMakeSlot .Argument 0 0 0) [L1IRMakeSlot (.Other 1) 0 0 0]
     rfl rfl (by decide) rfl rfl (fun h => by simp [exampleEnv, L1IRMakeSlot] at h)
     (by decide) (by decide) (by decide),
   by decide, by decide, by decide⟩

/-- The local store after the call of the identity lambda `[Argument(0, T0)]`: the
argument address is returned, and the only change to the store is the annotation bit
of the argument slot. -/
theorem identity_lambda_call (E : Env) (self : L1IRGlobalState) (localState : L1IRLocalState)
    (calleeAddress a T0 t : Nat)
    (hblock : self.blocks[calleeAddress]? =
      some (.native .Lambda [L1IRMakeSlot .Argument 0 T0 0]))
    (ha : a < localState.slots.length) (hlen : localState.slots.length < 65536)
    (hdepth : mergeOperand E [E.uninitialized 0] (L1IRMakeSlot .Argument 0 T0 0) 0 = some 0)
    (htype : mergeOperand E [E.uninitialized 0] (L1IRMakeSlot .Argument 0 T0 0) 1 = some t)
    (hof : E.L1IRGlobalStateIsOfType self
      (L1IRGlobalStatePushGCBarrier { localState with callDepth := localState.callDepth + 1 })
      a t = true) :
    L1IRGlobalStateCall E self localState calleeAddress a =
      some ({ localState with
                slots := localState.slots.set a { localState.slots[a] with annotation := true } },
            a) := by
  have h2 : ∃ o2, mergeOperand E [E.uninitialized 0] (L1IRMakeSlot .Argument 0 T0 0) 2 = some o2 := by
    unfold mergeOperand
    split
    · exact ⟨_, rfl⟩
    · exact ⟨_, rfl⟩
  obtain ⟨o2, h2⟩ := h2
  have hpop := pop_single_root_below E
    { slots := localState.slots, gcBarriers := localState.slots.length :: localState.gcBarriers,
      callDepth := localState.callDepth } localState.gcBarriers a ha hlen rfl
  have hM : (List.range 1).map E.uninitialized = [E.uninitialized 0] := rfl
  have hty : (L1IRMakeSlot .Argument 0 T0 0).type = .Argument := rfl
  simp only [L1IRGlobalStateCall, L1IRGlobalStateEvaluate, hblock, List.length_singleton, hM,
    instantiatePrototypes, instantiatePrototype, hdepth, htype, h2, hty]
  simp [L1IRGlobalStatePushGCBarrier, resultComputed, hof] at hof ⊢
  rw [hpop]

/-- C7 (identity lambda result): for every local store of fewer than 65536 slots, every
valid argument address `a` and every native `Lambda` block whose only prototype is
`Argument(0, T0)`, if the operand resolution of the code leaves the depth operand 0 and
gives the type address `t` (which is `T0` itself unless the descriptor table marks operand
1 of `Argument` as a local address), and `is_of_type(a, t)` holds, then `call(lambda, a)`
returns `a`, and the slot at the returned address has the type and the three operands of
the slot that was at `a` before the call. -/
theorem identity_lambda_returns_argument_slot (E : Env) (self : L1IRGlobalState)
    (localState : L1IRLocalState) (calleeAddress a T0 t : Nat)
    (hblock : self.blocks[calleeAddress]? =
      some (.native .Lambda [L1IRMakeSlot .Argument 0 T0 0]))
    (ha : a < localState.slots.length) (hlen : localState.slots.length < 65536)
    (hdepth : mergeOperand E [E.uninitialized 0] (L1IRMakeSlot .Argument 0 T0 0) 0 = some 0)
    (htype : mergeOperand E [E.uninitialized 0] (L1IRMakeSlot .Argument 0 T0 0) 1 = some t)
    (hof : E.L1IRGlobalStateIsOfType self
      (L1IRGlobalStatePushGCBarrier { localState with callDepth := localState.callDepth + 1 })
      a t = true) :
    ∃ localState1 before after,
      L1IRGlobalStateCall E self localState calleeAddress a = some (localState1, a) ∧
      localState.slots[a]? = some before ∧ localState1.slots[a]? = some after ∧
      after.type = before.type ∧ after.operand0 = before.operand0 ∧
      after.operand1 = before.operand1 ∧ after.operand2 = before.operand2 := by
  refine ⟨_, localState.slots[a], { localState.slots[a] with annotation := true },
    identity_lambda_call E self localState calleeAddress a T0 t hblock ha hlen hdepth htype hof,
    ?_, ?_, rfl, rfl, rfl, rfl⟩
  · simp [List.getElem?_eq_getElem ha]
  · simp [List.getElem?_set, ha]

/-- C7 at the store `piAndLambda`: the identity lambda declared with the `Pi` type at
address 0, called with the `Lambda` value at address 1. -/
theorem identity_lambda_returns_argument_slot_witness :
    exampleEnv.L1IRGlobalStateIsOfType (lambdaBlock [L1IRMakeSlot .Argument 0 0 0])
      (L1IRGlobalStatePushGCBarrier { piAndLambda with callDepth := piAndLambda.callDepth + 1 })
      1 0 = true ∧
    ∃ localState1 before after,
      L1IRGlobalStateCall exampleEnv (lambdaBlock [L1IRMakeSlot .Argument 0 0 0]) piAndLambda 0 1 =
        some (localState1, 1) ∧
      piAndLambda.slots[1]? = some before ∧ localState1.slots[1]? = some after ∧
      after.type = before.type ∧ after.operand0 = before.operand0 ∧
      after.operand1 = before.operand1 ∧ after.operand2 = before.operand2 :=
  ⟨by decide, identity_lambda_returns_argument_slot exampleEnv
    (lambdaBlock [L1IRMakeSlot .Argument 0 0 0]) piAndLambda 0 1 0 0 rfl (by decide) (by decide)
    rfl rfl (by decide)⟩

/-- C8 as stated fails: at the store `piAndLambda` (two slots), with `is_of_type(1, 0)`
true, the call of the identity lambda `[Argument(0, 0)]` with the argument 1 leaves a
local store of two slots, not three. -/
theorem identity_lambda_growth_counterexample :
    exampleEnv.L1IRGlobalStateIsOfType (lambdaBlock [L1IRMakeSlot .Argument 0 0 0])
      (L1IRGlobalStatePushGCBarrier { piAndLambda with callDepth := piAndLambda.callDepth + 1 })
      1 0 = true ∧
    ∃ localState1,
      L1IRGlobalStateCall exampleEnv (lambdaBlock [L1IRMakeSlot .Argument 0 0 0]) piAndLambda 0 1 =
        some (localState1, 1) ∧
      localState1.slots.length ≠ piAndLambda.slots.length + 1 := by
  refine ⟨by decide, ⟨[piSlot, { lambdaSlot with annotation := true }], [], 0⟩, by decide,
    by decide⟩

/-- C8 amended (identity lambda store growth): under the hypotheses of C7, after
`call(lambda, a)` on the native `Lambda` block with the single prototype `Argument(0, T0)`
the local store has the length it had before the call: the argument slot itself is the
result and no slot is created. -/
theorem identity_lambda_keeps_length (E : Env) (self : L1IRGlobalState)
    (localState : L1IRLocalState) (calleeAddress a T0 t : Nat)
    (hblock : self.blocks[calleeAddress]? =
      some (.native .Lambda [L1IRMakeSlot .Argument 0 T0 0]))
    (ha : a < localState.slots.length) (hlen : localState.slots.length < 65536)
    (hdepth : mergeOperand E [E.uninitialized 0] (L1IRMakeSlot .Argument 0 T0 0) 0 = some 0)
    (htype : mergeOperand E [E.uninitialized 0] (L1IRMakeSlot .Argument 0 T0 0) 1 = some t)
    (hof : E.L1IRGlobalStateIsOfType self
      (L1IRGlobalStatePushGCBarrier { localState with callDepth := localState.callDepth + 1 })
      a t = true) :
    ∃ localState1 result,
      L1IRGlobalStateCall E self localState calleeAddress a = some (localState1, result) ∧
      localState1.slots.length = localState.slots.length := by
  refine ⟨_, _, identity_lambda_call E self localState calleeAddress a T0 t hblock ha hlen hdepth
    htype hof, ?_⟩
  simp

/-- C8 amended, at the store `piAndLambda`. -/
theorem identity_lambda_keeps_length_witness :
    exampleEnv.L1IRGlobalStateIsOfType (lambdaBlock [L1IRMakeSlot .Argument 0 0 0])
      (L1IRGlobalStatePushGCBarrier { piAndLambda with callDepth := piAndLambda.callDepth + 1 })
      1 0 = true ∧
    ∃ localState1 result,
      L1IRGlobalStateCall exampleEnv (lambdaBlock [L1IRMakeSlot .Argument 0 0 0]) piAndLambda 0 1 =
        some (localState1, result) ∧
      localState1.slots.length = piAndLambda.slots.length :=
  ⟨by decide, identity_lambda_keeps_length exampleEnv
    (lambdaBlock [L1IRMakeSlot .Argument 0 0 0]) piAndLambda 0 1 0 0 rfl (by decide) (by decide)
    rfl rfl (by decide)⟩

/-! ### Garbage collection -/

/-- C9 (GC stability of roots), what the code does when the slot of a root refers below
the barrier: for every local store of fewer than 65536 slots with a
pushed barrier at `start`, every roots array and every root `r` with `start ≤ r` whose
slot has, at some position `j`, a local-address operand that points below `start` (a
strictly lower index), `pop_barrier(roots)` has no defined result: the compaction loop
looks the operand up at `slotRemappings[operand - start]`, before the remapping table. -/
theorem pop_barrier_undefined_for_root_operand_below_barrier (E : Env)
    (localState : L1IRLocalState) (start : Nat) (barriers roots : List Nat) (r j : Nat)
    (s : L1IRSlot) (hb : localState.gcBarriers = start :: barriers)
    (hlen : localState.slots.length < 65536) (hstart : start ≤ r) (hr : r ∈ roots)
    (hs : localState.slots[r]? = some s) (hj : j < 3)
    (hla : E.SlotTypeArgumentIsLocalAddress s.type j = true)
    (hop : L1IRExtractSlotOperand s j < start) :
    L1IRGlobalStatePopGCBarrier E localState roots = none := by
  have hrlen : r < localState.slots.length := (List.getElem?_eq_some_iff.mp hs).1
  have hmod : start % 65536 = start := Nat.mod_eq_of_lt (by omega)
  simp only [L1IRGlobalStatePopGCBarrier, hb, hmod]
  rw [compact_root_operand_below_start E localState.slots start _ roots r j s hstart hr hs hj
    hla hop]

/-- C9 at the store that holds a base type at address 0 and, above the barrier
`start = 1`, a `Lambda` slot at address 1 whose local-address operand 0 points to
address 0, with the root 1. -/
theorem pop_barrier_undefined_for_root_operand_below_barrier_witness :
    (1 ≤ 1 ∧ 1 ∈ [1] ∧ [intSlot, L1IRMakeSlot .Lambda 0 0 0][1]? = some (L1IRMakeSlot .Lambda 0 0 0) ∧
      exampleEnv.SlotTypeArgumentIsLocalAddress (L1IRMakeSlot .Lambda 0 0 0).type 0 = true ∧
      L1IRExtractSlotOperand (L1IRMakeSlot .Lambda 0 0 0) 0 < 1) ∧
    L1IRGlobalStatePopGCBarrier exampleEnv
      { slots := [intSlot, L1IRMakeSlot .Lambda 0 0 0], gcBarriers := [1], callDepth := 0 }
      [1] = none :=
  ⟨by decide, pop_barrier_undefined_for_root_operand_below_barrier exampleEnv
    { slots := [intSlot, L1IRMakeSlot .Lambda 0 0 0], gcBarriers := [1], callDepth := 0 }
    1 [] [1] 1 0 (L1IRMakeSlot .Lambda 0 0 0) rfl (by decide) (by decide) (by decide) rfl
    (by decide) rfl (by decide)⟩

/-- C10 (GC reference validity), evaluated on the code: `call` of the native `Lambda`
block `[Argument(0, 0), Lambda(0, 0, 0)]`, whose second prototype refers to the first,
with the argument at address 1. The evaluator creates a slot above the barrier whose
operand 0 is the argument address 1, below the barrier 2; the mark loop skips that
operand, the compaction loop looks it up at `slotRemappings[1 - 2]`, outside the
remapping table, so no defined result exists. -/
theorem evaluate_operand_below_barrier_lookup_out_of_range :
    L1IRGlobalStateCall exampleEnv
      (lambdaBlock [L1IRMakeSlot .Argument 0 0 0, L1IRMakeSlot .Lambda 0 0 0]) piAndLambda 0 1 =
      none ∧
    compactSlots exampleEnv 2 1 2
      [piSlot, lambdaSlot, { L1IRMakeSlot .Lambda 1 0 0 with annotation := true }]
      [0] 2 = none ∧
    readRemapping [65535] 2 1 = none := by
  decide

/-! ### Capture chains -/

theorem followCaptures_slot_none (E : Env) (slots : List L1IRSlot) (d a : Nat)
    (h : slots[a]? = none) :
    (match followCaptures E slots d a with
      | none => none
      | some b => slots[b]?) = none := by
  cases d with
  | zero => simpa [followCaptures] using h
  | succ d => simp [followCaptures, h]

/-- The loop of `WalkCaptureChain` ends at the slot that `followCaptures` designates. -/
theorem walkCaptureSlots_eq_follow (E : Env) (slots : List L1IRSlot) (d : Nat) :
    ∀ (a : Nat) (s : L1IRSlot), slots[a]? = some s →
      walkCaptureSlots E slots d s =
        (match followCaptures E slots d a with
          | none => none
          | some b => slots[b]?) := by
  induction d with
  | zero =>
    intro a s hs
    simp [walkCaptureSlots, followCaptures, hs]
  | succ d ih =>
    intro a s hs
    simp only [walkCaptureSlots, followCaptures, hs]
    cases hnext : slots[E.CallCapture_captures s]? with
    | none => exact (followCaptures_slot_none E slots d _ hnext).symm
    | some s1 => exact ih _ s1 hnext

/-- C19 (capture-chain walk): for every slot array, start address `s` and depth
`d < 65536` (the depth is a 16-bit operand), `WalkCaptureChain(slots, s, d)` is the
`captured` field of the slot obtained by following the `captures` field exactly `d` times
from `slots[s]`, and it has a result exactly when the slots along the chain are in range;
for `d = 0` it is the `captured` field of `slots[s]`; and
`walk(s, d + 1) = walk(captures(slots[s]), d)`. -/
theorem walk_capture_chain_follows_captures (E : Env) (slots : List L1IRSlot) (s d : Nat)
    (hd : d < 65536) :
    WalkCaptureChain E slots s d = walkCaptureChainSpec E slots s d ∧
    WalkCaptureChain E slots s 0 =
      (match slots[s]? with
        | none => none
        | some captureSlot => some (E.CallCapture_captured captureSlot)) ∧
    (d + 1 < 65536 → ∀ captureSlot, slots[s]? = some captureSlot →
      WalkCaptureChain E slots s (d + 1) =
        WalkCaptureChain E slots (E.CallCapture_captures captureSlot) d) := by
  have hmain : ∀ (a n : Nat), n < 65536 →
      WalkCaptureChain E slots a n = walkCaptureChainSpec E slots a n := by
    intro a n hn
    have hn1 : ¬ 65536 ≤ n := by omega
    unfold WalkCaptureChain walkCaptureChainSpec
    simp only [hn1, if_false]
    cases ha : slots[a]? with
    | none =>
      have := followCaptures_slot_none E slots n a ha
      cases hf : followCaptures E slots n a with
      | none => rfl
      | some b =>
        simp only [hf] at this
        simp [this]
    | some sa =>
      simp only []
      rw [walkCaptureSlots_eq_follow E slots n a sa ha]
      cases hf : followCaptures E slots n a with
      | none => rfl
      | some b => rfl
  refine ⟨hmain s d hd, ?_, ?_⟩
  · unfold WalkCaptureChain
    simp only [show ¬ (65536 ≤ 0) by decide, if_false]
    cases slots[s]? <;> simp [walkCaptureSlots]
  · intro hd1 captureSlot hs
    rw [hmain s (d + 1) hd1, hmain _ d hd]
    simp [walkCaptureChainSpec, followCaptures, hs]

/-- C19 at the cells `captureCells`: the walk from cell 2 with depth 2 passes cell 1,
ends at cell 0 and returns its payload 5. -/
theorem walk_capture_chain_follows_captures_witness :
    (2 < 65536 ∧ followCaptures exampleEnv captureCells 2 2 = some 0) ∧
    (WalkCaptureChain exampleEnv captureCells 2 2 = walkCaptureChainSpec exampleEnv captureCells 2 2 ∧
      WalkCaptureChain exampleEnv captureCells 2 0 =
        (match captureCells[2]? with
          | none => none
          | some captureSlot => some (exampleEnv.CallCapture_captured captureSlot)) ∧
      (2 + 1 < 65536 → ∀ captureSlot, captureCells[2]? = some captureSlot →
        WalkCaptureChain exampleEnv captureCells 2 (2 + 1) =
          WalkCaptureChain exampleEnv captureCells
            (exampleEnv.CallCapture_captures captureSlot) 2)) ∧
    WalkCaptureChain exampleEnv captureCells 2 2 = some 5 :=
  ⟨by decide, walk_capture_chain_follows_captures exampleEnv captureCells 2 2 (by decide),
    by decide⟩

/-! ### The evaluator: what the prototype loop leaves alone -/

/-- One iteration of the prototype loop changes neither the barrier stack nor the call
depth, and only appends to the slots. -/
theorem instantiatePrototype_frame (E : Env) (self : L1IRGlobalState)
    (flags : L1IRGlobalStateEvaluationFlags) (blockType : L1IRGlobalStateBlockType)
    (calleeAddress argumentLocalAddress captureLocalAddress : Nat) (hasOut : Bool)
    (i : Nat) (prototypeSlot : L1IRSlot) (st st1 : EvaluateLocals) (stop : Bool)
    (h : instantiatePrototype E self flags blockType calleeAddress argumentLocalAddress
      captureLocalAddress hasOut i prototypeSlot st = some (st1, stop)) :
    st1.localState.gcBarriers = st.localState.gcBarriers ∧
    st1.localState.callDepth = st.localState.callDepth ∧
    ∃ extra, st1.localState.slots = st.localState.slots ++ extra := by
  unfold instantiatePrototype at h
  split at h
  · split at h
    all_goals
      simp only [L1IRGlobalStateCreateSlot, L1IRLocalStateCreateSlot, instantiateDefault] at h
      repeat' split at h
      all_goals
        first
          | (simp only [Option.some.injEq, Prod.mk.injEq] at h
             obtain ⟨rfl, _⟩ := h
             refine ⟨rfl, rfl, ?_⟩
             first
               | exact ⟨_, rfl⟩
               | exact ⟨[], (List.append_nil _).symm⟩
               | exact ⟨_, List.append_assoc _ _ _⟩)
          | simp at h
  · simp at h

/-- The prototype loop changes neither the barrier stack nor the call depth, and only
appends to the slots. -/
theorem instantiatePrototypes_frame (E : Env) (self : L1IRGlobalState)
    (flags : L1IRGlobalStateEvaluationFlags) (blockType : L1IRGlobalStateBlockType)
    (calleeAddress argumentLocalAddress captureLocalAddress : Nat) (hasOut : Bool)
    (prototypes : List L1IRSlot) :
    ∀ (i : Nat) (st st1 : EvaluateLocals),
      instantiatePrototypes E self flags blockType calleeAddress argumentLocalAddress
        captureLocalAddress hasOut prototypes i st = some st1 →
      st1.localState.gcBarriers = st.localState.gcBarriers ∧
      st1.localState.callDepth = st.localState.callDepth ∧
      ∃ extra, st1.localState.slots = st.localState.slots ++ extra := by
  induction prototypes with
  | nil =>
    intro i st st1 h
    simp only [instantiatePrototypes, Option.some.injEq] at h
    subst h
    exact ⟨rfl, rfl, [], (List.append_nil _).symm⟩
  | cons p rest ih =>
    intro i st st1 h
    simp only [instantiatePrototypes] at h
    cases hstep : instantiatePrototype E self flags blockType calleeAddress argumentLocalAddress
        captureLocalAddress hasOut i p st with
    | none => simp [hstep] at h
    | some res =>
      obtain ⟨st2, stop⟩ := res
      obtain ⟨hb, hd, extra, hx⟩ := instantiatePrototype_frame E self flags blockType
        calleeAddress argumentLocalAddress captureLocalAddress hasOut i p st st2 stop hstep
      cases stop with
      | true =>
        simp only [hstep, Option.some.injEq] at h
        subst h
        exact ⟨hb, hd, extra, hx⟩
      | false =>
        simp only [hstep] at h
        obtain ⟨hb1, hd1, extra1, hx1⟩ := ih _ _ _ h
        exact ⟨hb1.trans hb, hd1.trans hd, extra ++ extra1, by rw [hx1, hx, List.append_assoc]⟩

/-- Popping a barrier removes the top of the barrier stack and keeps the call depth. -/
theorem pop_barrier_frame (E : Env) (localState localState1 : L1IRLocalState)
    (roots roots1 : List Nat)
    (h : L1IRGlobalStatePopGCBarrier E localState roots = some (localState1, roots1)) :
    localState1.callDepth = localState.callDepth ∧
    ∃ b, localState.gcBarriers = b :: localState1.gcBarriers := by
  unfold L1IRGlobalStatePopGCBarrier at h
  split at h
  · simp at h
  · next b rest hb =>
    split at h
    · simp at h
    · split at h
      · simp only [Option.some.injEq, Prod.mk.injEq] at h
        obtain ⟨rfl, _⟩ := h
        exact ⟨rfl, b, hb⟩
      · simp at h

/-- From the label `resultComputed` on: the call depth drops by one, the top of the
barrier stack is removed and the result address is returned as it was computed. -/
theorem resultComputed_frame (E : Env) (localState localState1 : L1IRLocalState)
    (r fa r1 : Nat) (hasOut : Bool) (o : Option Nat)
    (h : resultComputed E localState r fa hasOut = some (localState1, r1, o)) :
    localState1.callDepth = localState.callDepth - 1 ∧
    (∃ b, localState.gcBarriers = b :: localState1.gcBarriers) ∧ r1 = r := by
  unfold resultComputed at h
  split at h
  · simp at h
  · next ls2 roots2 hpop =>
    simp only [Option.some.injEq, Prod.mk.injEq] at h
    obtain ⟨rfl, rfl, _⟩ := h
    obtain ⟨hd, b, hb⟩ := pop_barrier_frame E _ _ _ _ hpop
    exact ⟨hd, ⟨b, hb⟩, rfl⟩

/-- `L1IRGlobalStateEvaluate` on a native callee: the prototype loop from the pushed
state, then the code from the label `resultComputed` on. -/
theorem evaluate_native (E : Env) (self : L1IRGlobalState) (localState : L1IRLocalState)
    (flags : L1IRGlobalStateEvaluationFlags) (calleeAddress a capture : Nat) (hasOut : Bool)
    (type : L1IRGlobalStateBlockType) (slots : List L1IRSlot)
    (hblock : self.blocks[calleeAddress]? = some (.native type slots)) :
    L1IRGlobalStateEvaluate E self localState flags calleeAddress a capture hasOut =
      if slots.length = 0 then none
      else
        match instantiatePrototypes E self flags type calleeAddress a capture hasOut slots 0
            { localState := L1IRGlobalStatePushGCBarrier
                { localState with callDepth := localState.callDepth + 1 },
              mergingSlotRemappings := (List.range slots.length).map E.uninitialized,
              finalArgumentLocalAddress := 0 } with
        | none => none
        | some st =>
          match st.mergingSlotRemappings[slots.length - 1]? with
          | none => none
          | some resultLocalAddress =>
            resultComputed E st.localState resultLocalAddress st.finalArgumentLocalAddress
              hasOut := by
  simp only [L1IRGlobalStateEvaluate, hblock]

/-! ### Barrier and call-depth balance, annotation bits, `Self` -/

/-- C14 as stated fails for a foreign callee: the callback of `tamperEnv` leaves the
length of the barrier stack unchanged (two entries in, two entries out) but overwrites
its entries; `evaluate` on the store `nestedStore`, whose barrier stack is `[1]`, returns
with the barrier stack `[2]`. -/
theorem barrier_contents_counterexample :
    ((tamperEnv.callbacks 0 { blocks := [.foreign 0 0] }
        (L1IRGlobalStatePushGCBarrier { nestedStore with callDepth := nestedStore.callDepth + 1 })
        0 1 false 0).1.gcBarriers.length =
      (L1IRGlobalStatePushGCBarrier
        { nestedStore with callDepth := nestedStore.callDepth + 1 }).gcBarriers.length) ∧
    L1IRGlobalStateEvaluate tamperEnv { blocks := [.foreign 0 0] } nestedStore
        { hasArgument := true, hasCaptured := false } 0 1 0 false =
      some ({ slots := [{ intSlot with annotation := true }, intSlot], gcBarriers := [2],
              callDepth := 1 }, 0, none) ∧
    nestedStore.gcBarriers = [1] ∧ ([2] : List Nat) ≠ [1] := by
  decide

/-- C14 amended (barrier balance): whenever `evaluate` returns, on a native callee the
barrier stack has the same length and the same contents as on entry; on a foreign callee
whose callback leaves the length of the barrier stack unchanged it has the same length as
on entry, and when the callback leaves the entries below the barrier pushed for its own
call unchanged it has the same contents as on entry. -/
theorem barrier_balance (E : Env) (self : L1IRGlobalState) (localState : L1IRLocalState)
    (flags : L1IRGlobalStateEvaluationFlags) (calleeAddress a capture : Nat) (hasOut : Bool)
    (localState1 : L1IRLocalState) (r : Nat) (o : Option Nat)
    (heval : L1IRGlobalStateEvaluate E self localState flags calleeAddress a capture hasOut =
      some (localState1, r, o)) :
    (∀ type slots, self.blocks[calleeAddress]? = some (.native type slots) →
      localState1.gcBarriers = localState.gcBarriers) ∧
    (∀ callback userdata, self.blocks[calleeAddress]? = some (.foreign callback userdata) →
      ((E.callbacks callback self
          (L1IRGlobalStatePushGCBarrier { localState with callDepth := localState.callDepth + 1 })
          calleeAddress a hasOut userdata).1.gcBarriers.length =
        (L1IRGlobalStatePushGCBarrier
          { localState with callDepth := localState.callDepth + 1 }).gcBarriers.length →
        localState1.gcBarriers.length = localState.gcBarriers.length) ∧
      ((E.callbacks callback self
          (L1IRGlobalStatePushGCBarrier { localState with callDepth := localState.callDepth + 1 })
          calleeAddress a hasOut userdata).1.gcBarriers.tail = localState.gcBarriers →
        localState1.gcBarriers = localState.gcBarriers)) := by
  constructor
  · intro type slots hblock
    rw [evaluate_native E self localState flags calleeAddress a capture hasOut type slots hblock]
      at heval
    split at heval
    · simp at heval
    · split at heval
      · simp at heval
      · next st hst =>
        split at heval
        · simp at heval
        · obtain ⟨hb, _, _⟩ := instantiatePrototypes_frame E self flags type calleeAddress a
            capture hasOut slots 0 _ st hst
          obtain ⟨_, ⟨b, hpop⟩, _⟩ := resultComputed_frame E _ _ _ _ _ _ _ heval
          rw [hb] at hpop
          simp only [L1IRGlobalStatePushGCBarrier, List.cons.injEq] at hpop
          exact hpop.2.symm
  · intro callback userdata hblock
    simp only [L1IRGlobalStateEvaluate, hblock] at heval
    split at heval
    · simp at heval
    · split at heval
      · simp at heval
      · obtain ⟨_, ⟨b, hpop⟩, _⟩ := resultComputed_frame E _ _ _ _ _ _ _ heval
        constructor
        · intro hl
          rw [hpop] at hl
          simp only [L1IRGlobalStatePushGCBarrier, List.length_cons] at hl
          omega
        · intro ht
          rw [hpop] at ht
          simpa using ht

/-- C14 amended, at `call` of the identity lambda on the store `piAndLambda` (native
callee) and at `call` of the foreign identity of `exampleEnv` on the same store. -/
theorem barrier_balance_witness :
    (L1IRGlobalStateEvaluate exampleEnv (lambdaBlock [L1IRMakeSlot .Argument 0 0 0]) piAndLambda
        { hasArgument := true, hasCaptured := false } 0 1 0 false =
      some ({ slots := [piSlot, { lambdaSlot with annotation := true }], gcBarriers := [],
              callDepth := 0 }, 1, none)) ∧
    ((∀ type slots, (lambdaBlock [L1IRMakeSlot .Argument 0 0 0]).blocks[0]? =
        some (.native type slots) →
      ([] : List Nat) = piAndLambda.gcBarriers) ∧
    (∀ callback userdata, (lambdaBlock [L1IRMakeSlot .Argument 0 0 0]).blocks[0]? =
        some (.foreign callback userdata) →
      ((exampleEnv.callbacks callback (lambdaBlock [L1IRMakeSlot .Argument 0 0 0])
          (L1IRGlobalStatePushGCBarrier { piAndLambda with callDepth := piAndLambda.callDepth + 1 })
          0 1 false userdata).1.gcBarriers.length =
        (L1IRGlobalStatePushGCBarrier
          { piAndLambda with callDepth := piAndLambda.callDepth + 1 }).gcBarriers.length →
        ([] : List Nat).length = piAndLambda.gcBarriers.length) ∧
      ((exampleEnv.callbacks callback (lambdaBlock [L1IRMakeSlot .Argument 0 0 0])
          (L1IRGlobalStatePushGCBarrier { piAndLambda with callDepth := piAndLambda.callDepth + 1 })
          0 1 false userdata).1.gcBarriers.tail = piAndLambda.gcBarriers →
        ([] : List Nat) = piAndLambda.gcBarriers))) :=
  ⟨by decide, barrier_balance exampleEnv (lambdaBlock [L1IRMakeSlot .Argument 0 0 0]) piAndLambda
    { hasArgument := true, hasCaptured := false } 0 1 0 false
    ⟨[piSlot, { lambdaSlot with annotation := true }], [], 0⟩ 1 none (by decide)⟩

/-- C15 (call-depth balance): for every `evaluate` on a native callee, whenever it returns
(after a normal completion, an early stop on `Error`/`UnresolvedSymbol` or an early stop on
a type-check failure) `callDepth` equals its value on entry; and the state reached after
any number `n` of prototypes of the block, on every path, has `callDepth` equal to the
entry value plus 1. -/
theorem call_depth_balance (E : Env) (self : L1IRGlobalState) (localState : L1IRLocalState)
    (flags : L1IRGlobalStateEvaluationFlags) (calleeAddress a capture : Nat) (hasOut : Bool)
    (type : L1IRGlobalStateBlockType) (slots : List L1IRSlot)
    (hblock : self.blocks[calleeAddress]? = some (.native type slots)) :
    (∀ localState1 r o,
      L1IRGlobalStateEvaluate E self localState flags calleeAddress a capture hasOut =
        some (localState1, r, o) →
      localState1.callDepth = localState.callDepth) ∧
    (∀ n st,
      instantiatePrototypes E self flags type calleeAddress a capture hasOut (slots.take n) 0
          { localState := L1IRGlobalStatePushGCBarrier
              { localState with callDepth := localState.callDepth + 1 },
            mergingSlotRemappings := (List.range slots.length).map E.uninitialized,
            finalArgumentLocalAddress := 0 } = some st →
      st.localState.callDepth = localState.callDepth + 1) := by
  constructor
  · intro localState1 r o heval
    rw [evaluate_native E self localState flags calleeAddress a capture hasOut type slots hblock]
      at heval
    split at heval
    · simp at heval
    · split at heval
      · simp at heval
      · next st hst =>
        split at heval
        · simp at heval
        · obtain ⟨_, hd, _⟩ := instantiatePrototypes_frame E self flags type calleeAddress a
            capture hasOut slots 0 _ st hst
          obtain ⟨hd1, _, _⟩ := resultComputed_frame E _ _ _ _ _ _ _ heval
          rw [hd1, hd]
          simp [L1IRGlobalStatePushGCBarrier]
  · intro n st hst
    obtain ⟨_, hd, _⟩ := instantiatePrototypes_frame E self flags type calleeAddress a
      capture hasOut (slots.take n) 0 _ st hst
    rw [hd]
    simp [L1IRGlobalStatePushGCBarrier]

/-- C15 on the three paths, at stores of call depth 0: the identity lambda (normal
completion), the block `[UnresolvedSymbol]` (early stop) and the identity lambda called
with an argument of the wrong type (type-check failure) all return with call depth 0. -/
theorem call_depth_balance_witness :
    ((lambdaBlock [L1IRMakeSlot .Argument 0 0 0]).blocks[0]? =
        some (.native .Lambda [L1IRMakeSlot .Argument 0 0 0]) ∧
      L1IRGlobalStateEvaluate exampleEnv (lambdaBlock [L1IRMakeSlot .Argument 0 0 0]) piAndLambda
          { hasArgument := true, hasCaptured := false } 0 1 0 false =
        some ({ slots := [piSlot, { lambdaSlot with annotation := true }], gcBarriers := [],
                callDepth := 0 }, 1, none) ∧
      L1IRGlobalStateEvaluate exampleEnv (lambdaBlock [L1IRMakeSlot .UnresolvedSymbol 0 0 0])
          piAndLambda { hasArgument := true, hasCaptured := false } 0 1 0 false =
        some ({ slots := [piSlot, lambdaSlot, L1IRMakeSlot .Error 0 0 0], gcBarriers := [],
                callDepth := 0 }, 2, none) ∧
      L1IRGlobalStateEvaluate exampleEnv (lambdaBlock [L1IRMakeSlot .Argument 0 0 0]) intAndLambda
          { hasArgument := true, hasCaptured := false } 0 1 0 false =
        some ({ slots := [intSlot, lambdaSlot, L1IRMakeSlot .Error 1 0 0], gcBarriers := [],
                callDepth := 0 }, 2, none)) ∧
    ((∀ localState1 r o,
      L1IRGlobalStateEvaluate exampleEnv (lambdaBlock [L1IRMakeSlot .Argument 0 0 0]) piAndLambda
          { hasArgument := true, hasCaptured := false } 0 1 0 false =
        some (localState1, r, o) →
      localState1.callDepth = piAndLambda.callDepth) ∧
    (∀ n st,
      instantiatePrototypes exampleEnv (lambdaBlock [L1IRMakeSlot .Argument 0 0 0])
          { hasArgument := true, hasCaptured := false } .Lambda 0 1 0 false
          ([L1IRMakeSlot .Argument 0 0 0].take n) 0
          { localState := L1IRGlobalStatePushGCBarrier
              { piAndLambda with callDepth := piAndLambda.callDepth + 1 },
            mergingSlotRemappings :=
              (List.range [L1IRMakeSlot .Argument 0 0 0].length).map exampleEnv.uninitialized,
            finalArgumentLocalAddress := 0 } = some st →
      st.localState.callDepth = piAndLambda.callDepth + 1)) :=
  ⟨by decide, call_depth_balance exampleEnv (lambdaBlock [L1IRMakeSlot .Argument 0 0 0])
    piAndLambda { hasArgument := true, hasCaptured := false } 0 1 0 false .Lambda
    [L1IRMakeSlot .Argument 0 0 0] rfl⟩

/-- C16 (annotation bit outside a GC cycle), what the code does: for every local store of
fewer than 65536 slots whose annotation bits are all zero, the call of the identity
lambda `[Argument(0, T0)]` with a valid argument `a` that inhabits the declared type
returns with the annotation bit of the slot at `a`, below the barrier, set to 1: the
collector marks every root before it looks at the barrier and returns without clearing
the mark. -/
theorem identity_lambda_leaves_mark_on_argument (E : Env) (self : L1IRGlobalState)
    (localState : L1IRLocalState) (calleeAddress a T0 t : Nat)
    (hblock : self.blocks[calleeAddress]? =
      some (.native .Lambda [L1IRMakeSlot .Argument 0 T0 0]))
    (ha : a < localState.slots.length) (hlen : localState.slots.length < 65536)
    (hdepth : mergeOperand E [E.uninitialized 0] (L1IRMakeSlot .Argument 0 T0 0) 0 = some 0)
    (htype : mergeOperand E [E.uninitialized 0] (L1IRMakeSlot .Argument 0 T0 0) 1 = some t)
    (hof : E.L1IRGlobalStateIsOfType self
      (L1IRGlobalStatePushGCBarrier { localState with callDepth := localState.callDepth + 1 })
      a t = true)
    (hzero : ∀ s ∈ localState.slots, s.annotation = false) :
    ∃ localState1 before after,
      L1IRGlobalStateCall E self localState calleeAddress a = some (localState1, a) ∧
      localState.slots[a]? = some before ∧ before.annotation = false ∧
      localState1.slots[a]? = some after ∧ after.annotation = true := by
  refine ⟨_, localState.slots[a], { localState.slots[a] with annotation := true },
    identity_lambda_call E self localState calleeAddress a T0 t hblock ha hlen hdepth htype hof,
    ?_, hzero _ (List.getElem_mem ha), ?_, rfl⟩
  · simp [List.getElem?_eq_getElem ha]
  · simp [List.getElem?_set, ha]

/-- C16 at the store `piAndLambda`, whose annotation bits are all zero: after the call of
the identity lambda with the argument 1 the slot at address 1 carries the mark. -/
theorem identity_lambda_leaves_mark_on_argument_witness :
    (1 < piAndLambda.slots.length ∧ ∀ s ∈ piAndLambda.slots, s.annotation = false) ∧
    ∃ localState1 before after,
      L1IRGlobalStateCall exampleEnv (lambdaBlock [L1IRMakeSlot .Argument 0 0 0]) piAndLambda 0 1 =
        some (localState1, 1) ∧
      piAndLambda.slots[1]? = some before ∧ before.annotation = false ∧
      localState1.slots[1]? = some after ∧ after.annotation = true :=
  ⟨by decide, identity_lambda_leaves_mark_on_argument exampleEnv
    (lambdaBlock [L1IRMakeSlot .Argument 0 0 0]) piAndLambda 0 1 0 0 rfl (by decide) (by decide)
    rfl rfl (by decide) (by decide)⟩

/-- C18 (`Self` closes over the capture chain), what the code does: for every iteration of
the prototype loop on a `Self` prototype with `has_captured` set and `callDepth > 1`, the
slot created has kind `slot_type_for_block(block.type)`, operand1 = `callee_global_addr`,
operand2 = 0, and operand0 is the result of the capture-chain walk that starts at local
address 0, whatever `capture_local_addr` was passed to `evaluate`: the `Self` case
declares its own `captureLocalAddress = 0`, which hides the parameter. -/
theorem self_closure_walks_from_address_zero (E : Env) (self : L1IRGlobalState)
    (flags : L1IRGlobalStateEvaluationFlags) (blockType : L1IRGlobalStateBlockType)
    (calleeAddress argumentLocalAddress captureLocalAddress : Nat) (hasOut : Bool)
    (i : Nat) (prototypeSlot : L1IRSlot) (st : EvaluateLocals) (o0 o1 o2 : Nat)
    (hself : prototypeSlot.type = .Self) (hcap : flags.hasCaptured = true)
    (hdepth : st.localState.callDepth > 1)
    (h0 : mergeOperand E st.mergingSlotRemappings prototypeSlot 0 = some o0)
    (h1 : mergeOperand E st.mergingSlotRemappings prototypeSlot 1 = some o1)
    (h2 : mergeOperand E st.mergingSlotRemappings prototypeSlot 2 = some o2) :
    instantiatePrototype E self flags blockType calleeAddress argumentLocalAddress
        captureLocalAddress hasOut i prototypeSlot st =
      (match WalkCaptureChain E st.localState.slots 0 o0 with
        | none => none
        | some capture =>
          some ({ st with
                  localState := { st.localState with
                    slots := st.localState.slots ++
                      [L1IRMakeSlot (SlotTypeForBlock blockType) capture calleeAddress 0] },
                  mergingSlotRemappings :=
                    st.mergingSlotRemappings.set i (st.localState.slots.length % 65536) },
            false)) := by
  simp only [instantiatePrototype, h0, h1, h2, hself, hcap, hdepth, if_true,
    L1IRGlobalStateCreateSlot, L1IRLocalStateCreateSlot]

/-- C18 at the store `captureCells` with `capture_local_addr = 2` and a `Self` prototype of
depth 0: the walk from address 2 gives 7, the walk from address 0 gives 5, and the slot
created for `Self` has operand0 = 5. -/
theorem self_closure_walks_from_address_zero_witness :
    ((L1IRMakeSlot .Self 0 0 0).type = .Self ∧ nestedLocals.localState.callDepth > 1 ∧
      WalkCaptureChain exampleEnv captureCells 2 0 = some 7 ∧
      WalkCaptureChain exampleEnv captureCells 0 0 = some 5) ∧
    instantiatePrototype exampleEnv (lambdaBlock [L1IRMakeSlot .Self 0 0 0])
        { hasArgument := false, hasCaptured := true } .Lambda 0 0 2 false 0
        (L1IRMakeSlot .Self 0 0 0) nestedLocals =
      (match WalkCaptureChain exampleEnv nestedLocals.localState.slots 0 0 with
        | none => none
        | some capture =>
          some ({ nestedLocals with
                  localState := { nestedLocals.localState with
                    slots := nestedLocals.localState.slots ++
                      [L1IRMakeSlot (SlotTypeForBlock .Lambda) capture 0 0] },
                  mergingSlotRemappings :=
                    nestedLocals.mergingSlotRemappings.set 0
                      (nestedLocals.localState.slots.length % 65536) },
            false)) :=
  ⟨by decide, self_closure_walks_from_address_zero exampleEnv
    (lambdaBlock [L1IRMakeSlot .Self 0 0 0]) { hasArgument := false, hasCaptured := true }
    .Lambda 0 0 2 false 0 (L1IRMakeSlot .Self 0 0 0) nestedLocals 0 0 0 rfl rfl (by decide)
    rfl rfl rfl⟩

/-! ### Implicit roots -/

/-- Without roots the collector truncates the store to the barrier. -/
theorem pop_without_roots (E : Env) (localState : L1IRLocalState) (start : Nat)
    (barriers : List Nat) (hb : localState.gcBarriers = start :: barriers)
    (hstart : start ≤ localState.slots.length) (hlen : localState.slots.length < 65536) :
    L1IRGlobalStatePopGCBarrier E localState [] =
      some ({ localState with slots := localState.slots.take start, gcBarriers := barriers },
        []) := by
  have hmod : start % 65536 = start := Nat.mod_eq_of_lt (by omega)
  simp [L1IRGlobalStatePopGCBarrier, hb, hmod, CompactLocalGarbage, markRoots, hstart]

/-- C13 (implicit roots are always retained), what the code does with an empty roots
array: for every local store of fewer than 65536 slots with a pushed barrier at `start`
and every slot at an index `i ≥ start` whose type is an implicit root, `pop_barrier([])`
truncates the store to `start`; no slot is left at index `i` or anywhere above the
barrier. -/
theorem implicit_root_dropped_without_roots (E : Env) (localState : L1IRLocalState)
    (start : Nat) (barriers : List Nat) (i : Nat) (s : L1IRSlot)
    (hb : localState.gcBarriers = start :: barriers)
    (hlen : localState.slots.length < 65536) (hi : start ≤ i)
    (hs : localState.slots[i]? = some s) (himp : E.IsImplicitRoot s.type = true) :
    ∃ localState1,
      L1IRGlobalStatePopGCBarrier E localState [] = some (localState1, []) ∧
      E.IsImplicitRoot s.type = true ∧
      localState1.slots.length = start ∧ localState1.slots[i]? = none := by
  have hil : i < localState.slots.length := (List.getElem?_eq_some_iff.mp hs).1
  refine ⟨_, pop_without_roots E localState start barriers hb (by omega) hlen, himp, ?_, ?_⟩
  · simp
    omega
  · simp
    omega

/-- C13 in `effectEnv`, where the type of `effectSlot` is an implicit root. With the store
`[base type, effect]`, the barrier 1 and no roots, the effect slot is dropped. The last
conjunct evaluates the store `[base type, base type, effect]` with the barrier 1 and the
root 1, which lies below the implicit-root slot: the collector scans up to the highest
root only, and the effect slot is dropped as well. -/
theorem implicit_root_dropped_without_roots_witness :
    (effectEnv.IsImplicitRoot effectSlot.type = true ∧
      [intSlot, effectSlot][1]? = some effectSlot) ∧
    (∃ localState1,
      L1IRGlobalStatePopGCBarrier effectEnv
        { slots := [intSlot, effectSlot], gcBarriers := [1], callDepth := 0 } [] =
        some (localState1, []) ∧
      effectEnv.IsImplicitRoot effectSlot.type = true ∧
      localState1.slots.length = 1 ∧ localState1.slots[1]? = none) ∧
    L1IRGlobalStatePopGCBarrier effectEnv
        { slots := [intSlot, intSlot, effectSlot], gcBarriers := [1], callDepth := 0 } [1] =
      some ({ slots := [intSlot, intSlot], gcBarriers := [], callDepth := 0 }, [1]) :=
  ⟨by decide, implicit_root_dropped_without_roots effectEnv
    { slots := [intSlot, effectSlot], gcBarriers := [1], callDepth := 0 } 1 [] 1 effectSlot rfl
    (by decide) (by decide) rfl (by decide), by decide⟩

/-! ### The collector: what each loop changes -/

theorem retained_false_iff (E : Env) (s : L1IRSlot) :
    (¬ E.IsImplicitRoot s.type = true ∧ ¬ s.annotation = true) ↔ retained E s = false := by
  unfold retained
  cases E.IsImplicitRoot s.type <;> cases s.annotation <;> simp

theorem annotates_retained {E : Env} {s s1 : L1IRSlot} (h : annotates s s1)
    (hr : retained E s = true) : retained E s1 = true := by
  rcases h with rfl | rfl
  · exact hr
  · simp [retained]

/-- Setting an annotation bit keeps the length and every other slot. -/
theorem setAnnotation_frame {slots slots1 : List L1IRSlot} {i : Nat}
    (h : L1IRSetSlotAnnotation slots i = some slots1) :
    i < slots.length ∧ slots1.length = slots.length ∧
    ∀ x, x ≠ i → slots1[x]? = slots[x]? := by
  unfold L1IRSetSlotAnnotation at h
  cases hi : slots[i]? with
  | none => simp [hi] at h
  | some si =>
    simp only [hi, Option.some.injEq] at h
    subst h
    refine ⟨(List.getElem?_eq_some_iff.mp hi).1, by simp, ?_⟩
    intro x hx
    exact List.getElem?_set_ne (fun h => hx h.symm)

/-- The loop "Mark roots" keeps the length and every slot that is not a root, asserts
that every root is below `slotCount`, and leaves `maxUsedSlotCount` at its initial value
or at one above some root, never above `slotCount` when it started below. -/
theorem markRoots_frame (slotCount : Nat) (roots : List Nat) :
    ∀ (slots slots1 : List L1IRSlot) (m m1 : Nat),
      markRoots slotCount slots m roots = some (slots1, m1) →
      slots1.length = slots.length ∧
      (∀ x, x ∉ roots → slots1[x]? = slots[x]?) ∧
      (∀ r ∈ roots, r < slotCount) ∧
      (m ≤ slotCount → m1 ≤ slotCount) ∧
      (m1 = m ∨ ∃ r ∈ roots, m1 = r + 1) := by
  induction roots with
  | nil =>
    intro slots slots1 m m1 h
    simp only [markRoots, Option.some.injEq, Prod.mk.injEq] at h
    obtain ⟨rfl, rfl⟩ := h
    exact ⟨rfl, fun _ _ => rfl, fun r hr => by simp at hr, fun h => h, Or.inl rfl⟩
  | cons r0 roots ih =>
    intro slots slots1 m m1 h
    simp only [markRoots] at h
    split at h
    · next hr0 =>
      cases hset : L1IRSetSlotAnnotation slots r0 with
      | none => simp [hset] at h
      | some slotsA =>
        simp only [hset] at h
        obtain ⟨hlenA, hunchA, _⟩ := And.intro (setAnnotation_frame hset).2.1
          (And.intro (setAnnotation_frame hset).2.2 trivial)
        obtain ⟨hlen, hunch, hroots, hmax, hm1⟩ := ih slotsA slots1 _ m1 h
        refine ⟨hlen.trans hlenA, ?_, ?_, ?_, ?_⟩
        · intro x hx
          simp only [List.mem_cons, not_or] at hx
          rw [hunch x hx.2, hunchA x hx.1]
        · intro r hr
          rcases List.mem_cons.mp hr with rfl | hr
          · exact hr0
          · exact hroots r hr
        · intro hm
          apply hmax
          split <;> omega
        · rcases hm1 with hm1 | ⟨r, hr, hm1⟩
          · split at hm1
            · exact Or.inr ⟨r0, List.mem_cons_self _ _, hm1⟩
            · exact Or.inl hm1
          · exact Or.inr ⟨r, List.mem_cons_of_mem _ hr, hm1⟩
    · simp at h

/-- The operand loop of the mark phase keeps the length and every slot that is not an
operand target at or above `slotStart`. -/
theorem markOperands_frame (E : Env) (slotStart : Nat) (slot : L1IRSlot) (n : Nat) :
    ∀ (j : Nat) (slots slots1 : List L1IRSlot),
      markOperands E slotStart slot n j slots = some slots1 →
      slots1.length = slots.length ∧
      ∀ x, (∀ j', j ≤ j' → j' < j + n → E.SlotTypeArgumentIsLocalAddress slot.type j' = true →
          slotStart ≤ L1IRExtractSlotOperand slot j' → L1IRExtractSlotOperand slot j' ≠ x) →
        slots1[x]? = slots[x]? := by
  induction n with
  | zero =>
    intro j slots slots1 h
    simp only [markOperands, Option.some.injEq] at h
    subst h
    exact ⟨rfl, fun _ _ => rfl⟩
  | succ n ih =>
    intro j slots slots1 h
    simp only [markOperands] at h
    split at h
    · obtain ⟨hlen, hunch⟩ := ih _ _ _ h
      exact ⟨hlen, fun x hx => hunch x (fun j' h1 h2 => hx j' (by omega) (by omega))⟩
    · split at h
      · obtain ⟨hlen, hunch⟩ := ih _ _ _ h
        exact ⟨hlen, fun x hx => hunch x (fun j' h1 h2 => hx j' (by omega) (by omega))⟩
      · next hla hge =>
        cases hset : L1IRSetSlotAnnotation slots (L1IRExtractSlotOperand slot j) with
        | none => simp [hset] at h
        | some slotsA =>
          simp only [hset] at h
          obtain ⟨hlen, hunch⟩ := ih _ _ _ h
          obtain ⟨_, hlenA, hunchA⟩ := setAnnotation_frame hset
          refine ⟨hlen.trans hlenA, ?_⟩
          intro x hx
          rw [hunch x (fun j' h1 h2 => hx j' (by omega) (by omega))]
          apply hunchA
          have := hx j (le_refl j) (by omega) (by simpa using hla) (by omega)
          exact fun h => this h.symm

theorem seg_cons {α : Type} (l : List α) (i k : Nat) (s : α) (h : l[i]? = some s) :
    (l.drop i).take (k + 1) = s :: (l.drop (i + 1)).take k := by
  obtain ⟨hlt, hs⟩ := List.getElem?_eq_some_iff.mp h
  rw [List.drop_eq_getElem_cons hlt, List.take_succ_cons, hs]

theorem seg_snoc {α : Type} (l : List α) (a k : Nat) (s : α) (h : l[a + k]? = some s) :
    (l.drop a).take (k + 1) = (l.drop a).take k ++ [s] := by
  rw [List.take_succ, List.getElem?_drop, h]
  rfl

theorem seg_congr {α : Type} (l l1 : List α) (a k : Nat)
    (h : ∀ x, a ≤ x → x < a + k → l1[x]? = l[x]?) :
    (l1.drop a).take k = (l.drop a).take k := by
  apply List.ext_getElem?
  intro n
  by_cases hn : n < k
  · rw [List.getElem?_take_of_lt hn, List.getElem?_take_of_lt hn, List.getElem?_drop,
      List.getElem?_drop]
    exact h _ (by omega) (by omega)
  · rw [List.getElem?_take_eq_none (by omega), List.getElem?_take_eq_none (by omega)]

/-- The loop "Propagate retain marks" keeps the length and every slot below `slotStart`,
and adds at most one to the count per slot visited. -/
theorem propagateMarks_frame (E : Env) (slotStart : Nat) (k : Nat) :
    ∀ (slots slots1 : List L1IRSlot) (c c1 : Nat),
      propagateMarks E slotStart k slots c = some (slots1, c1) →
      slots1.length = slots.length ∧
      (∀ x, x < slotStart → slots1[x]? = slots[x]?) ∧
      c ≤ c1 ∧ c1 ≤ c + k ∧ (0 < k → slotStart + k ≤ slots.length) := by
  induction k with
  | zero =>
    intro slots slots1 c c1 h
    simp only [propagateMarks, Option.some.injEq, Prod.mk.injEq] at h
    obtain ⟨rfl, rfl⟩ := h
    exact ⟨rfl, fun _ _ => rfl, le_rfl, le_rfl, fun h => absurd h (by omega)⟩
  | succ k ih =>
    intro slots slots1 c c1 h
    simp only [propagateMarks] at h
    cases hget : slots[slotStart + k]? with
    | none => simp [hget] at h
    | some slot =>
      have hlt : slotStart + k < slots.length := (List.getElem?_eq_some_iff.mp hget).1
      simp only [hget] at h
      split at h
      · obtain ⟨hlen, hunch, h1, h2, _⟩ := ih _ _ _ _ h
        exact ⟨hlen, hunch, h1, by omega, fun _ => by omega⟩
      · cases hmark : markOperands E slotStart slot 3 0 slots with
        | none => simp [hmark] at h
        | some slotsA =>
          simp only [hmark] at h
          obtain ⟨hlenA, hunchA⟩ := markOperands_frame E slotStart slot 3 0 slots slotsA hmark
          obtain ⟨hlen, hunch, h1, h2, _⟩ := ih _ _ _ _ h
          refine ⟨hlen.trans hlenA, ?_, by omega, by omega, fun _ => by omega⟩
          intro x hx
          rw [hunch x hx]
          exact hunchA x (fun j' _ _ _ hge => by omega)

theorem onlyMarks_refl (slots : List L1IRSlot) : onlyMarks slots slots :=
  ⟨rfl, fun _ s hs => ⟨s, hs, annotates_refl s⟩⟩

theorem onlyMarks_trans {a b c : List L1IRSlot} (h1 : onlyMarks a b) (h2 : onlyMarks b c) :
    onlyMarks a c := by
  refine ⟨h2.1.trans h1.1, ?_⟩
  intro r s hs
  obtain ⟨s1, hs1, ha1⟩ := h1.2 r s hs
  obtain ⟨s2, hs2, ha2⟩ := h2.2 r s1 hs1
  exact ⟨s2, hs2, annotates_trans ha1 ha2⟩

/-- Every slot of the marked list comes from the slot at the same index. -/
theorem onlyMarks_rev {slots slots1 : List L1IRSlot} (h : onlyMarks slots slots1) (r : Nat)
    (s1 : L1IRSlot) (hs1 : slots1[r]? = some s1) :
    ∃ s, slots[r]? = some s ∧ annotates s s1 := by
  have hlt : r < slots.length := by
    have := (List.getElem?_eq_some_iff.mp hs1).1
    rw [h.1] at this
    exact this
  obtain ⟨s1', hs1', ha⟩ := h.2 r slots[r] (List.getElem?_eq_getElem hlt)
  rw [hs1] at hs1'
  cases hs1'
  exact ⟨_, List.getElem?_eq_getElem hlt, ha⟩

theorem markRoots_onlyMarks {slotCount : Nat} {roots : List Nat} {slots slots1 : List L1IRSlot}
    {m m1 : Nat} (h : markRoots slotCount slots m roots = some (slots1, m1)) :
    onlyMarks slots slots1 :=
  ⟨(markRoots_frame slotCount roots slots slots1 m m1 h).1,
    (markRoots_annotates slotCount roots slots slots1 m m1 h).1⟩

theorem markOperands_onlyMarks {E : Env} {slotStart : Nat} {slot : L1IRSlot} {n j : Nat}
    {slots slots1 : List L1IRSlot} (h : markOperands E slotStart slot n j slots = some slots1) :
    onlyMarks slots slots1 :=
  ⟨(markOperands_frame E slotStart slot n j slots slots1 h).1,
    markOperands_annotates E slotStart slot n j slots slots1 h⟩

theorem propagateMarks_onlyMarks {E : Env} {slotStart k : Nat} {slots slots1 : List L1IRSlot}
    {c c1 : Nat} (h : propagateMarks E slotStart k slots c = some (slots1, c1)) :
    onlyMarks slots slots1 :=
  ⟨(propagateMarks_frame E slotStart k slots slots1 c c1 h).1,
    propagateMarks_annotates E slotStart k slots slots1 c c1 h⟩

theorem backwardOperands_onlyMarks {E : Env} {slots slots1 : List L1IRSlot} {slotStart hi : Nat}
    (h : onlyMarks slots slots1) (hb : backwardOperands E slots slotStart hi) :
    backwardOperands E slots1 slotStart hi := by
  intro i s1 hi1 hi2 hs1 j hj hla
  obtain ⟨s, hs, ha⟩ := onlyMarks_rev h i s1 hs1
  rw [annotates_type ha] at hla
  rw [annotates_operand ha]
  exact hb i s hi1 hi2 hs j hj hla

theorem backwardOperands_mono {E : Env} {slots : List L1IRSlot} {slotStart hi hi1 : Nat}
    (hb : backwardOperands E slots slotStart hi) (h : hi1 ≤ hi) :
    backwardOperands E slots slotStart hi1 :=
  fun i s h1 h2 hs j hj hla => hb i s h1 (by omega) hs j hj hla

/-- With operands that point to lower indices, the loop "Propagate retain marks" leaves
the slots at and above the index it visits as they are at the visit, and the count it
accumulates is the number of slots of the visited range that are retained in its
result. -/
theorem propagateMarks_count (E : Env) (slotStart : Nat) (k : Nat) :
    ∀ (slots slots1 : List L1IRSlot) (c c1 : Nat),
      backwardOperands E slots slotStart (slotStart + k) →
      propagateMarks E slotStart k slots c = some (slots1, c1) →
      (∀ x, slotStart + k ≤ x → slots1[x]? = slots[x]?) ∧
      c1 = c + (((slots1.drop slotStart).take k).filter (retained E)).length := by
  induction k with
  | zero =>
    intro slots slots1 c c1 _ h
    simp only [propagateMarks, Option.some.injEq, Prod.mk.injEq] at h
    obtain ⟨rfl, rfl⟩ := h
    exact ⟨fun _ _ => rfl, by simp⟩
  | succ k ih =>
    intro slots slots1 c c1 hb h
    simp only [propagateMarks] at h
    cases hget : slots[slotStart + k]? with
    | none => simp [hget] at h
    | some slot =>
      simp only [hget] at h
      split at h
      · next hskip =>
        obtain ⟨hunch, hc⟩ := ih _ _ _ _ (backwardOperands_mono hb (by omega)) h
        have hsame : slots1[slotStart + k]? = some slot := by
          rw [hunch _ le_rfl, hget]
        refine ⟨fun x hx => hunch x (by omega), ?_⟩
        rw [seg_snoc slots1 slotStart k slot hsame, List.filter_append, List.length_append, hc]
        have : retained E slot = false := (retained_false_iff E slot).mp hskip
        simp [this]
      · next hkeep =>
        cases hmark : markOperands E slotStart slot 3 0 slots with
        | none => simp [hmark] at h
        | some slotsA =>
          simp only [hmark] at h
          have hA := markOperands_onlyMarks hmark
          obtain ⟨_, hunchA⟩ := markOperands_frame E slotStart slot 3 0 slots slotsA hmark
          have hbA : backwardOperands E slotsA slotStart (slotStart + k) :=
            backwardOperands_onlyMarks hA (backwardOperands_mono hb (by omega))
          obtain ⟨hunch, hc⟩ := ih _ _ _ _ hbA h
          have hAabove : ∀ x, slotStart + k ≤ x → slotsA[x]? = slots[x]? := by
            intro x hx
            apply hunchA
            intro j' _ hj' hla _
            have := hb (slotStart + k) slot (by omega) (by omega) hget j' (by omega) hla
            omega
          have hsame : slots1[slotStart + k]? = some slot := by
            rw [hunch _ le_rfl, hAabove _ le_rfl, hget]
          refine ⟨fun x hx => by rw [hunch x (by omega), hAabove x (by omega)], ?_⟩
          rw [seg_snoc slots1 slotStart k slot hsame, List.filter_append, List.length_append, hc]
          have : retained E slot = true := by
            cases hr : retained E slot with
            | true => rfl
            | false => exact absurd ((retained_false_iff E slot).mpr hr) hkeep
          simp [this]
          omega

theorem remapOperand_not_address (E : Env) (slotRemappings : List Nat) (slotStart : Nat)
    (slot : L1IRSlot) (j o : Nat) (h : remapOperand E slotRemappings slotStart slot j = some o)
    (hla : E.SlotTypeArgumentIsLocalAddress slot.type j = false) :
    o = L1IRExtractSlotOperand slot j := by
  simp [remapOperand, hla] at h
  exact h.symm

/-- The compaction loop keeps the length and every slot below the index it writes to
first; it advances `finalSlotIndex` by the number of retained slots it visits, and the
slots it writes are, in order, the retained slots it visits, rebuilt. -/
theorem compactSlots_frame (E : Env) (slotStart : Nat) (k : Nat) :
    ∀ (i : Nat) (slots slots1 : List L1IRSlot) (remap remap1 : List Nat) (fi fi1 : Nat),
      fi ≤ i →
      compactSlots E slotStart k i slots remap fi = some (slots1, remap1, fi1) →
      slots1.length = slots.length ∧
      (∀ x, x < fi → slots1[x]? = slots[x]?) ∧
      fi1 = fi + (((slots.drop i).take k).filter (retained E)).length ∧
      List.Forall₂ (compactedFrom E) (((slots.drop i).take k).filter (retained E))
        ((slots1.drop fi).take (fi1 - fi)) ∧
      remap1.length = remap.length ∧
      (0 < k → i + k ≤ slots.length) := by
  induction k with
  | zero =>
    intro i slots slots1 remap remap1 fi fi1 _ h
    simp only [compactSlots, Option.some.injEq, Prod.mk.injEq] at h
    obtain ⟨rfl, rfl, rfl⟩ := h
    exact ⟨rfl, fun _ _ => rfl, by simp, by simp, rfl, fun h => absurd h (by omega)⟩
  | succ k ih =>
    intro i slots slots1 remap remap1 fi fi1 hfi h
    simp only [compactSlots] at h
    cases hget : slots[i]? with
    | none => simp [hget] at h
    | some slot =>
      have hlt : i < slots.length := (List.getElem?_eq_some_iff.mp hget).1
      simp only [hget] at h
      rw [seg_cons slots i k slot hget]
      split at h
      · next hskip =>
        have hr : retained E slot = false := (retained_false_iff E slot).mp hskip
        obtain ⟨hlen, hunch, hidx, hout, hrl, hk⟩ := ih _ _ _ _ _ _ _ (by omega) h
        refine ⟨hlen, hunch, ?_, ?_, ?_, fun _ => ?_⟩
        · simpa [List.filter_cons, hr] using hidx
        · simpa [List.filter_cons, hr] using hout
        · simpa using hrl
        · by_cases hk0 : 0 < k
          · have := hk hk0
            omega
          · omega
      · next hkeep =>
        have hr : retained E slot = true := by
          cases hr : retained E slot with
          | true => rfl
          | false => exact absurd ((retained_false_iff E slot).mpr hr) hkeep
        split at h
        · next o0 o1 o2 h0 h1 h2 =>
          obtain ⟨hlen, hunch, hidx, hout, hrl, hk⟩ := ih _ _ _ _ _ _ _ (by omega) h
          have hseg : ((slots.set fi (L1IRMakeSlot slot.type o0 o1 o2)).drop (i + 1)).take k =
              (slots.drop (i + 1)).take k := by
            rw [List.drop_set_of_lt _ _ (by omega)]
          rw [hseg] at hidx hout
          have hfi1 : fi1 = fi + 1 + (((slots.drop (i + 1)).take k).filter (retained E)).length :=
            hidx
          have hnew : slots1[fi]? = some (L1IRMakeSlot slot.type o0 o1 o2) := by
            rw [hunch fi (by omega)]
            simp [List.getElem?_set]
            omega
          refine ⟨by simpa using hlen, ?_, ?_, ?_, by simpa using hrl, fun _ => ?_⟩
          · intro x hx
            rw [hunch x (by omega)]
            exact List.getElem?_set_ne (by omega)
          · simp only [List.filter_cons, hr, if_true, List.length_cons]
            omega
          · simp only [List.filter_cons, hr, if_true]
            have hsplit : fi1 - fi = (fi1 - (fi + 1)) + 1 := by omega
            rw [hsplit, seg_cons slots1 fi _ _ hnew]
            refine List.Forall₂.cons ⟨rfl, rfl, ?_⟩ hout
            intro j hj hla
            have hj3 : j = 0 ∨ j = 1 ∨ j = 2 := by omega
            rcases hj3 with rfl | rfl | rfl
            · rw [remapOperand_not_address E _ _ slot 0 o0 h0 hla]
              rfl
            · rw [remapOperand_not_address E _ _ slot 1 o1 h1 hla]
              rfl
            · rw [remapOperand_not_address E _ _ slot 2 o2 h2 hla]
              rfl
          · by_cases hk0 : 0 < k
            · have := hk hk0
              simp at this
              omega
            · omega
        · simp at h

/-- What `CompactLocalGarbage` returns, in terms of its mark phase: the count is the
count of the mark phase and lies between `slotStart` and `maxUsedSlotCount`; the slots
below `slotStart` are untouched; the slots written from `slotStart` on are, in order, the
rebuilt retained slots of the marked range; and with operands that point to lower
indices the count equals the index after the last slot written. -/
theorem compact_result (E : Env) (slots slots3 : List L1IRSlot) (slotStart slotCount : Nat)
    (roots roots1 : List Nat) (c : Nat)
    (h : CompactLocalGarbage E slots slotStart slotCount roots = some (slots3, roots1, c))
    (hstart : slotStart ≤ slotCount) (hroots : ∀ r ∈ roots, slotStart ≤ r) :
    ∃ marked maxUsed,
      markPhase E slots slotStart slotCount roots = some (marked, maxUsed, c) ∧
      onlyMarks slots marked ∧ slotStart ≤ maxUsed ∧ maxUsed ≤ slotCount ∧
      slots3.length = slots.length ∧
      (∀ x, x < slotStart → slots3[x]? = slots[x]?) ∧
      slotStart ≤ c ∧ c ≤ maxUsed ∧
      List.Forall₂ (compactedFrom E)
        (((marked.drop slotStart).take (maxUsed - slotStart)).filter (retained E))
        ((slots3.drop slotStart).take
          (((marked.drop slotStart).take (maxUsed - slotStart)).filter (retained E)).length) ∧
      (backwardOperands E slots slotStart maxUsed →
        c = slotStart +
          (((marked.drop slotStart).take (maxUsed - slotStart)).filter (retained E)).length) := by
  unfold CompactLocalGarbage at h
  unfold markPhase
  cases hmark : markRoots slotCount slots slotStart roots with
  | none => simp [hmark] at h
  | some res1 =>
    obtain ⟨slots1, maxUsed⟩ := res1
    simp only [hmark] at h ⊢
    obtain ⟨hlen1, hunch1, _, hmax, _⟩ :=
      markRoots_frame slotCount roots slots slots1 slotStart maxUsed hmark
    obtain ⟨_, _, hge⟩ := markRoots_annotates slotCount roots slots slots1 slotStart maxUsed hmark
    have hM1 := markRoots_onlyMarks hmark
    have hbelow1 : ∀ x, x < slotStart → slots1[x]? = slots[x]? := by
      intro x hx
      apply hunch1
      intro hmem
      have := hroots x hmem
      omega
    by_cases heq : maxUsed = slotStart
    · simp only [heq, if_true, Option.some.injEq, Prod.mk.injEq] at h ⊢
      obtain ⟨rfl, _, rfl⟩ := h
      exact ⟨slots1, slotStart, ⟨rfl, rfl, rfl⟩, hM1, le_rfl, hstart, hlen1, hbelow1,
        le_rfl, le_rfl, by simp, fun _ => by simp⟩
    · simp only [heq, if_false] at h ⊢
      cases hprop : propagateMarks E slotStart (maxUsed - slotStart) slots1 slotStart with
      | none => simp [hprop] at h
      | some res2 =>
        obtain ⟨slots2, cm⟩ := res2
        simp only [hprop] at h ⊢
        obtain ⟨hlen2, hbelow2, hc1, hc2, hk2⟩ :=
          propagateMarks_frame E slotStart (maxUsed - slotStart) slots1 slots2 slotStart cm hprop
        have hM2 := onlyMarks_trans hM1 (propagateMarks_onlyMarks hprop)
        cases hcomp : compactSlots E slotStart (maxUsed - slotStart) slotStart slots2
            ((List.range (maxUsed - slotStart)).map E.uninitialized) slotStart with
        | none => simp [hcomp] at h
        | some res3 =>
          obtain ⟨slotsC, remap, idx⟩ := res3
          simp only [hcomp] at h
          cases hupd : updateRoots remap slotStart roots with
          | none => simp [hupd] at h
          | some rootsU =>
            simp only [hupd, Option.some.injEq, Prod.mk.injEq] at h
            obtain ⟨rfl, _, rfl⟩ := h
            obtain ⟨hlen3, hbelow3, hidx, hout, _, _⟩ :=
              compactSlots_frame E slotStart (maxUsed - slotStart) slotStart slots2 slotsC _ remap
                slotStart idx le_rfl hcomp
            have hidx' : idx - slotStart =
                (((slots2.drop slotStart).take (maxUsed - slotStart)).filter (retained E)).length := by
              omega
            rw [hidx'] at hout
            refine ⟨slots2, maxUsed, rfl, hM2, by omega, hmax hstart,
              (hlen3.trans hlen2).trans hlen1, ?_, hc1, by omega, hout, ?_⟩
            · intro x hx
              rw [hbelow3 x hx, hbelow2 x hx, hbelow1 x hx]
            · intro hb
              have hb1 : backwardOperands E slots1 slotStart (slotStart + (maxUsed - slotStart)) := by
                have : slotStart + (maxUsed - slotStart) = maxUsed := by omega
                rw [this]
                exact backwardOperands_onlyMarks hM1 hb
              exact (propagateMarks_count E slotStart (maxUsed - slotStart) slots1 slots2 slotStart
                cm hb1 hprop).2

/-! ### The collector: when it has a defined result -/

theorem suffixOperands_backward {E : Env} {slots : List L1IRSlot} {slotStart hi : Nat}
    (h : suffixOperands E slots slotStart hi) : backwardOperands E slots slotStart hi :=
  fun i s h1 h2 hs j hj hla => (h i s h1 h2 hs j hj hla).2

theorem suffixOperands_onlyMarks {E : Env} {slots slots1 : List L1IRSlot} {slotStart hi : Nat}
    (h : onlyMarks slots slots1) (hb : suffixOperands E slots slotStart hi) :
    suffixOperands E slots1 slotStart hi := by
  intro i s1 hi1 hi2 hs1 j hj hla
  obtain ⟨s, hs, ha⟩ := onlyMarks_rev h i s1 hs1
  rw [annotates_type ha] at hla
  rw [annotates_operand ha]
  exact hb i s hi1 hi2 hs j hj hla

theorem setAnnotation_isSome (slots : List L1IRSlot) (i : Nat) (h : i < slots.length) :
    ∃ slots1, L1IRSetSlotAnnotation slots i = some slots1 :=
  ⟨_, setAnnotation_of_lt slots i h⟩

theorem markRoots_isSome (slotCount : Nat) (roots : List Nat) :
    ∀ (slots : List L1IRSlot) (m : Nat), slotCount ≤ slots.length →
      (∀ r ∈ roots, r < slotCount) →
      ∃ res, markRoots slotCount slots m roots = some res := by
  induction roots with
  | nil => exact fun slots m _ _ => ⟨_, rfl⟩
  | cons r0 roots ih =>
    intro slots m hc hr
    have hr0 : r0 < slotCount := hr r0 (List.mem_cons_self _ _)
    obtain ⟨slotsA, hset⟩ := setAnnotation_isSome slots r0 (by omega)
    have hlenA := (setAnnotation_frame hset).2.1
    obtain ⟨res, hres⟩ := ih slotsA (if r0 + 1 > m then r0 + 1 else m) (by omega)
      (fun r hmem => hr r (List.mem_cons_of_mem _ hmem))
    exact ⟨res, by simp only [markRoots, hr0, if_true, hset, hres]⟩

theorem markOperands_isSome (E : Env) (slotStart : Nat) (slot : L1IRSlot) (n : Nat) :
    ∀ (j : Nat) (slots : List L1IRSlot),
      (∀ j', j ≤ j' → j' < j + n → E.SlotTypeArgumentIsLocalAddress slot.type j' = true →
        L1IRExtractSlotOperand slot j' < slots.length) →
      ∃ slots1, markOperands E slotStart slot n j slots = some slots1 := by
  induction n with
  | zero => exact fun j slots _ => ⟨_, rfl⟩
  | succ n ih =>
    intro j slots h
    simp only [markOperands]
    split
    · exact ih _ _ (fun j' h1 h2 => h j' (by omega) (by omega))
    · split
      · exact ih _ _ (fun j' h1 h2 => h j' (by omega) (by omega))
      · next hla _ =>
        obtain ⟨slotsA, hset⟩ := setAnnotation_isSome slots (L1IRExtractSlotOperand slot j)
          (h j le_rfl (by omega) (by simpa using hla))
        have hlenA := (setAnnotation_frame hset).2.1
        simp only [hset]
        exact ih _ _ (fun j' h1 h2 hla' => by
          rw [hlenA]
          exact h j' (by omega) (by omega) hla')

theorem propagateMarks_isSome (E : Env) (slotStart : Nat) (k : Nat) :
    ∀ (slots : List L1IRSlot) (c : Nat), slotStart + k ≤ slots.length →
      backwardOperands E slots slotStart (slotStart + k) →
      ∃ res, propagateMarks E slotStart k slots c = some res := by
  induction k with
  | zero => exact fun slots c _ _ => ⟨_, rfl⟩
  | succ k ih =>
    intro slots c hlen hb
    have hlt : slotStart + k < slots.length := by omega
    simp only [propagateMarks, List.getElem?_eq_getElem hlt]
    split
    · exact ih _ _ (by omega) (backwardOperands_mono hb (by omega))
    · obtain ⟨slotsA, hmark⟩ := markOperands_isSome E slotStart slots[slotStart + k] 3 0 slots
        (fun j' _ hj' hla => by
          have := hb (slotStart + k) _ (by omega) (by omega) (List.getElem?_eq_getElem hlt) j'
            (by omega) hla
          omega)
      simp only [hmark]
      have hA := markOperands_onlyMarks hmark
      exact ih _ _ (by rw [hA.1]; omega)
        (backwardOperands_onlyMarks hA (backwardOperands_mono hb (by omega)))

theorem remapOperand_isSome (E : Env) (slotRemappings : List Nat) (slotStart : Nat)
    (slot : L1IRSlot) (j : Nat)
    (h : E.SlotTypeArgumentIsLocalAddress slot.type j = true →
      slotStart ≤ L1IRExtractSlotOperand slot j ∧
      L1IRExtractSlotOperand slot j - slotStart < slotRemappings.length) :
    ∃ o, remapOperand E slotRemappings slotStart slot j = some o := by
  unfold remapOperand readRemapping
  split
  · next hla =>
    obtain ⟨h1, h2⟩ := h hla
    have : ¬ L1IRExtractSlotOperand slot j < slotStart := by omega
    simp only [this, if_false]
    exact ⟨_, List.getElem?_eq_getElem h2⟩
  · exact ⟨_, rfl⟩

theorem compactSlots_isSome (E : Env) (slotStart : Nat) (k : Nat) :
    ∀ (i : Nat) (slots : List L1IRSlot) (remap : List Nat) (fi : Nat),
      fi ≤ i → slotStart ≤ i → i + k ≤ slots.length → i + k ≤ slotStart + remap.length →
      (∀ x s, i ≤ x → x < i + k → slots[x]? = some s →
        ∀ j, j < 3 → E.SlotTypeArgumentIsLocalAddress s.type j = true →
          slotStart ≤ L1IRExtractSlotOperand s j ∧ L1IRExtractSlotOperand s j < x) →
      ∃ res, compactSlots E slotStart k i slots remap fi = some res := by
  induction k with
  | zero => exact fun i slots remap fi _ _ _ _ _ => ⟨_, rfl⟩
  | succ k ih =>
    intro i slots remap fi hfi hsi hlen hrl hb
    have hlt : i < slots.length := by omega
    have hkeepb : ∀ (slots1 : List L1IRSlot), (∀ x, i + 1 ≤ x → slots1[x]? = slots[x]?) →
        (∀ x s, i + 1 ≤ x → x < i + 1 + k → slots1[x]? = some s →
          ∀ j, j < 3 → E.SlotTypeArgumentIsLocalAddress s.type j = true →
            slotStart ≤ L1IRExtractSlotOperand s j ∧ L1IRExtractSlotOperand s j < x) := by
      intro slots1 hsame x s h1 h2 hs j hj hla
      rw [hsame x h1] at hs
      exact hb x s (by omega) (by omega) hs j hj hla
    simp only [compactSlots, List.getElem?_eq_getElem hlt]
    split
    · exact ih _ _ _ _ (by omega) (by omega) (by omega) (by simp; omega)
        (hkeepb slots (fun _ _ => rfl))
    · have hop : ∀ j, j < 3 → ∃ o, remapOperand E (remap.set (i - slotStart) 65535) slotStart
          slots[i] j = some o := by
        intro j hj
        apply remapOperand_isSome
        intro hla
        obtain ⟨h1, h2⟩ := hb i _ le_rfl (by omega) (List.getElem?_eq_getElem hlt) j hj hla
        refine ⟨h1, ?_⟩
        simp
        omega
      obtain ⟨o0, h0⟩ := hop 0 (by omega)
      obtain ⟨o1, h1⟩ := hop 1 (by omega)
      obtain ⟨o2, h2⟩ := hop 2 (by omega)
      simp only [h0, h1, h2]
      exact ih _ _ _ _ (by omega) (by omega) (by simp; omega) (by simp; omega)
        (hkeepb (slots.set fi (L1IRMakeSlot slots[i].type o0 o1 o2))
          (fun x hx => List.getElem?_set_ne (by omega)))

theorem updateRoots_isSome (slotRemappings : List Nat) (slotStart : Nat) (roots : List Nat)
    (h : ∀ r ∈ roots, slotStart ≤ r ∧ r - slotStart < slotRemappings.length) :
    ∃ roots1, updateRoots slotRemappings slotStart roots = some roots1 := by
  induction roots with
  | nil => exact ⟨_, rfl⟩
  | cons r roots ih =>
    obtain ⟨roots1, h1⟩ := ih (fun r' hr' => h r' (List.mem_cons_of_mem _ hr'))
    obtain ⟨hr1, hr2⟩ := h r (List.mem_cons_self _ _)
    have : ¬ r < slotStart := by omega
    simp only [updateRoots, readRemapping, this, if_false, List.getElem?_eq_getElem hr2, h1]
    exact ⟨_, rfl⟩

/-- With the roots in `[slotStart, slotCount)` and the operands of the slots from
`slotStart` on pointing to lower indices that are not below `slotStart`,
`CompactLocalGarbage` has a defined result. -/
theorem compact_isSome (E : Env) (slots : List L1IRSlot) (slotStart slotCount : Nat)
    (roots : List Nat) (hstart : slotStart ≤ slotCount) (hcount : slotCount ≤ slots.length)
    (hroots : ∀ r ∈ roots, slotStart ≤ r ∧ r < slotCount)
    (hops : suffixOperands E slots slotStart slots.length) :
    ∃ res, CompactLocalGarbage E slots slotStart slotCount roots = some res := by
  obtain ⟨⟨slots1, maxUsed⟩, hmark⟩ := markRoots_isSome slotCount roots slots slotStart hcount
    (fun r hr => (hroots r hr).2)
  obtain ⟨hlen1, _, _, hmax, _⟩ :=
    markRoots_frame slotCount roots slots slots1 slotStart maxUsed hmark
  obtain ⟨_, hrm, hge⟩ := markRoots_annotates slotCount roots slots slots1 slotStart maxUsed hmark
  have hM1 := markRoots_onlyMarks hmark
  have hmaxc := hmax hstart
  unfold CompactLocalGarbage
  simp only [hmark]
  by_cases heq : maxUsed = slotStart
  · simp [heq]
  · simp only [heq, if_false]
    have hops1 : suffixOperands E slots1 slotStart slots.length := suffixOperands_onlyMarks hM1 hops
    obtain ⟨⟨slots2, c⟩, hprop⟩ := propagateMarks_isSome E slotStart (maxUsed - slotStart) slots1
      slotStart (by omega)
      (fun i s h1 h2 hs j hj hla => (hops1 i s h1 (by omega) hs j hj hla).2)
    have hM2 := propagateMarks_onlyMarks hprop
    have hops2 : suffixOperands E slots2 slotStart slots.length := suffixOperands_onlyMarks hM2 hops1
    simp only [hprop]
    obtain ⟨⟨slots3, remap, idx⟩, hcomp⟩ := compactSlots_isSome E slotStart (maxUsed - slotStart)
      slotStart slots2 ((List.range (maxUsed - slotStart)).map E.uninitialized) slotStart le_rfl
      le_rfl (by rw [hM2.1, hlen1]; omega) (by simp)
      (fun x s h1 h2 hs j hj hla => hops2 x s h1 (by omega) hs j hj hla)
    simp only [hcomp]
    obtain ⟨_, _, _, _, hrl, _⟩ := compactSlots_frame E slotStart (maxUsed - slotStart) slotStart
      slots2 slots3 _ remap slotStart idx le_rfl hcomp
    obtain ⟨roots1, hupd⟩ := updateRoots_isSome remap slotStart roots (fun r hr => by
      obtain ⟨h1, h2⟩ := hroots r hr
      have hlt : r < slots.length := by omega
      obtain ⟨h3, _⟩ := hrm r slots[r] hr (List.getElem?_eq_getElem hlt)
      rw [hrl]
      simp
      omega)
    simp only [hupd]
    exact ⟨_, rfl⟩

/-- With a barrier at `start`, the roots in `[start, length)` and the operands of the
slots above the barrier pointing to lower indices above the barrier, `pop_barrier` has a
defined result. -/
theorem pop_isSome (E : Env) (localState : L1IRLocalState) (start : Nat) (barriers : List Nat)
    (roots : List Nat) (hb : localState.gcBarriers = start :: barriers)
    (hstart : start ≤ localState.slots.length) (hlen : localState.slots.length < 65536)
    (hroots : ∀ r ∈ roots, start ≤ r ∧ r < localState.slots.length)
    (hops : suffixOperands E localState.slots start localState.slots.length) :
    ∃ res, L1IRGlobalStatePopGCBarrier E localState roots = some res := by
  have hmods : start % 65536 = start := Nat.mod_eq_of_lt (by omega)
  have hmodc : localState.slots.length % 65536 = localState.slots.length := Nat.mod_eq_of_lt hlen
  obtain ⟨⟨slots3, roots1, c⟩, hcompact⟩ := compact_isSome E localState.slots start
    localState.slots.length roots hstart le_rfl hroots hops
  obtain ⟨marked, maxUsed, _, _, _, hmax, hlen3, _, _, hc, _⟩ := compact_result E localState.slots
    slots3 start localState.slots.length roots roots1 c hcompact hstart
    (fun r hr => (hroots r hr).1)
  have hle : c ≤ slots3.length := by omega
  simp only [L1IRGlobalStatePopGCBarrier, hb, hmods, hmodc, hcompact, hle, if_true]
  exact ⟨_, rfl⟩

/-- What `pop_barrier` returns, in terms of the result of `CompactLocalGarbage`. -/
theorem pop_some (E : Env) (localState localState1 : L1IRLocalState) (start : Nat)
    (barriers : List Nat) (roots roots1 : List Nat)
    (hb : localState.gcBarriers = start :: barriers)
    (hstart : start ≤ localState.slots.length) (hlen : localState.slots.length < 65536)
    (hpop : L1IRGlobalStatePopGCBarrier E localState roots = some (localState1, roots1)) :
    ∃ slots3 c,
      CompactLocalGarbage E localState.slots start localState.slots.length roots =
        some (slots3, roots1, c) ∧
      c ≤ slots3.length ∧ localState1.slots = slots3.take c ∧
      localState1.gcBarriers = barriers ∧ localState1.callDepth = localState.callDepth := by
  have hmods : start % 65536 = start := Nat.mod_eq_of_lt (by omega)
  have hmodc : localState.slots.length % 65536 = localState.slots.length := Nat.mod_eq_of_lt hlen
  simp only [L1IRGlobalStatePopGCBarrier, hb, hmods, hmodc] at hpop
  split at hpop
  · simp at hpop
  · next slots3 rootsU c hcompact =>
    split at hpop
    · next hle =>
      simp only [Option.some.injEq, Prod.mk.injEq] at hpop
      obtain ⟨rfl, rfl⟩ := hpop
      exact ⟨slots3, c, hcompact, hle, rfl, rfl, rfl⟩
    · simp at hpop

theorem checkOperands_sound (E : Env) (slots : List L1IRSlot) (slotStart lo : Nat)
    (h : checkOperands E slots slotStart lo = true) (i : Nat) (s : L1IRSlot)
    (hi : slotStart ≤ i) (hs : slots[i]? = some s) (j : Nat) (hj : j < 3)
    (hla : E.SlotTypeArgumentIsLocalAddress s.type j = true) :
    lo ≤ L1IRExtractSlotOperand s j ∧ L1IRExtractSlotOperand s j < i := by
  have hlt : i < slots.length := (List.getElem?_eq_some_iff.mp hs).1
  have h1 := (List.all_eq_true.mp h) i (List.mem_range.mpr hlt)
  have hnot : ¬ i < slotStart := by omega
  simp only [hnot, decide_False, Bool.false_or, hs] at h1
  have h2 := (List.all_eq_true.mp h1) j (List.mem_range.mpr hj)
  simpa [hla] using h2

theorem checkOperands_suffix (E : Env) (slots : List L1IRSlot) (slotStart hi : Nat)
    (h : checkOperands E slots slotStart slotStart = true) :
    suffixOperands E slots slotStart hi :=
  fun i s h1 _ hs j hj hla => checkOperands_sound E slots slotStart slotStart h i s h1 hs j hj hla

theorem checkOperands_backward (E : Env) (slots : List L1IRSlot) (slotStart hi : Nat)
    (h : checkOperands E slots slotStart 0 = true) :
    backwardOperands E slots slotStart hi :=
  fun i s h1 _ hs j hj hla =>
    (checkOperands_sound E slots slotStart 0 h i s h1 hs j hj hla).2

/-! ### Garbage collection: the rebuilt slots -/

theorem compactedFrom_types (E : Env) (l l1 : List L1IRSlot)
    (h : List.Forall₂ (compactedFrom E) l l1) :
    l1.map L1IRSlot.type = l.map L1IRSlot.type := by
  induction h with
  | nil => rfl
  | cons hab _ ih => simp [hab.1, ih]

/-! ### Reachability -/

theorem mem_operandTargets (E : Env) (s : L1IRSlot) (o : Nat) :
    o ∈ operandTargets E s ↔
      ∃ j, j < 3 ∧ E.SlotTypeArgumentIsLocalAddress s.type j = true ∧
        L1IRExtractSlotOperand s j = o := by
  simp [operandTargets, List.mem_map, List.mem_filter, List.mem_range, and_assoc]

theorem reaches_refl (E : Env) (slots : List L1IRSlot) (f a : Nat) :
    reaches E slots f a a = true := by
  cases f <;> simp [reaches]

theorem reaches_succ (E : Env) (slots : List L1IRSlot) (f : Nat) :
    ∀ (a b : Nat), reaches E slots f a b = true → reaches E slots (f + 1) a b = true := by
  induction f with
  | zero =>
    intro a b h
    simp [reaches] at h
    subst h
    exact reaches_refl E slots _ _
  | succ f ih =>
    intro a b h
    rw [reaches] at h
    rw [reaches]
    simp only [Bool.or_eq_true, decide_eq_true_eq] at h ⊢
    rcases h with h | h
    · exact Or.inl h
    · right
      cases hs : slots[a]? with
      | none => simp [hs] at h
      | some s =>
        simp only [hs, List.any_eq_true] at h ⊢
        obtain ⟨o, ho, hr⟩ := h
        exact ⟨o, ho, ih o b hr⟩

theorem reaches_mono (E : Env) (slots : List L1IRSlot) (f d a b : Nat)
    (h : reaches E slots f a b = true) : reaches E slots (f + d) a b = true := by
  induction d with
  | zero => exact h
  | succ d ih => exact reaches_succ E slots _ a b ih

/-- A path can be extended by one operand at its end. -/
theorem reaches_snoc (E : Env) (slots : List L1IRSlot) (f : Nat) :
    ∀ (r a o : Nat) (s : L1IRSlot), reaches E slots f r a = true → slots[a]? = some s →
      o ∈ operandTargets E s → reaches E slots (f + 1) r o = true := by
  induction f with
  | zero =>
    intro r a o s h hs ho
    simp [reaches] at h
    subst h
    rw [reaches]
    simp only [Bool.or_eq_true, decide_eq_true_eq, hs, List.any_eq_true]
    exact Or.inr ⟨o, ho, reaches_refl E slots _ _⟩
  | succ f ih =>
    intro r a o s h hs ho
    rw [reaches] at h
    simp only [Bool.or_eq_true, decide_eq_true_eq] at h
    rcases h with h | h
    · subst h
      rw [reaches]
      simp only [Bool.or_eq_true, decide_eq_true_eq, hs, List.any_eq_true]
      exact Or.inr ⟨o, ho, reaches_refl E slots _ _⟩
    · cases hr : slots[r]? with
      | none => simp [hr] at h
      | some sr =>
        simp only [hr, List.any_eq_true] at h
        obtain ⟨o1, ho1, hr1⟩ := h
        rw [reaches]
        simp only [Bool.or_eq_true, decide_eq_true_eq, hr, List.any_eq_true]
        exact Or.inr ⟨o1, ho1, ih o1 a o s hr1 hs ho⟩

/-! ### The mark phase: where annotation bits come from -/

theorem setAnnotation_sound {slots slots1 : List L1IRSlot} {i : Nat}
    (h : L1IRSetSlotAnnotation slots i = some slots1) (x : Nat) (t1 : L1IRSlot)
    (hx : slots1[x]? = some t1) (hbit : t1.annotation = true) :
    (∃ t, slots[x]? = some t ∧ t.annotation = true) ∨ x = i := by
  by_cases hxi : x = i
  · exact Or.inr hxi
  · left
    rw [(setAnnotation_frame h).2.2 x hxi] at hx
    exact ⟨t1, hx, hbit⟩

/-- After the loop "Mark roots" a set annotation bit was set before or belongs to a
root. -/
theorem markRoots_sound (slotCount : Nat) (roots : List Nat) :
    ∀ (slots slots1 : List L1IRSlot) (m m1 : Nat),
      markRoots slotCount slots m roots = some (slots1, m1) →
      ∀ (x : Nat) (t1 : L1IRSlot), slots1[x]? = some t1 → t1.annotation = true →
        (∃ t, slots[x]? = some t ∧ t.annotation = true) ∨ x ∈ roots := by
  induction roots with
  | nil =>
    intro slots slots1 m m1 h x t1 hx hbit
    simp only [markRoots, Option.some.injEq, Prod.mk.injEq] at h
    obtain ⟨rfl, _⟩ := h
    exact Or.inl ⟨t1, hx, hbit⟩
  | cons r0 roots ih =>
    intro slots slots1 m m1 h x t1 hx hbit
    simp only [markRoots] at h
    split at h
    · cases hset : L1IRSetSlotAnnotation slots r0 with
      | none => simp [hset] at h
      | some slotsA =>
        simp only [hset] at h
        rcases ih slotsA slots1 _ m1 h x t1 hx hbit with ⟨t, ht, htb⟩ | hmem
        · rcases setAnnotation_sound hset x t ht htb with h0 | h0
          · exact Or.inl h0
          · exact Or.inr (h0 ▸ List.mem_cons_self _ _)
        · exact Or.inr (List.mem_cons_of_mem _ hmem)
    · simp at h

/-- After the operand loop of the mark phase a set annotation bit was set before or
belongs to a local-address operand at or above `slotStart`. -/
theorem markOperands_sound (E : Env) (slotStart : Nat) (slot : L1IRSlot) (n : Nat) :
    ∀ (j : Nat) (slots slots1 : List L1IRSlot),
      markOperands E slotStart slot n j slots = some slots1 →
      ∀ (x : Nat) (t1 : L1IRSlot), slots1[x]? = some t1 → t1.annotation = true →
        (∃ t, slots[x]? = some t ∧ t.annotation = true) ∨
        (∃ j', j ≤ j' ∧ j' < j + n ∧ E.SlotTypeArgumentIsLocalAddress slot.type j' = true ∧
          L1IRExtractSlotOperand slot j' = x ∧ slotStart ≤ x) := by
  induction n with
  | zero =>
    intro j slots slots1 h x t1 hx hbit
    simp only [markOperands, Option.some.injEq] at h
    subst h
    exact Or.inl ⟨t1, hx, hbit⟩
  | succ n ih =>
    intro j slots slots1 h x t1 hx hbit
    simp only [markOperands] at h
    split at h
    · rcases ih _ _ _ h x t1 hx hbit with h0 | ⟨j', h1, h2, h3⟩
      · exact Or.inl h0
      · exact Or.inr ⟨j', by omega, by omega, h3⟩
    · split at h
      · rcases ih _ _ _ h x t1 hx hbit with h0 | ⟨j', h1, h2, h3⟩
        · exact Or.inl h0
        · exact Or.inr ⟨j', by omega, by omega, h3⟩
      · next hla hge =>
        cases hset : L1IRSetSlotAnnotation slots (L1IRExtractSlotOperand slot j) with
        | none => simp [hset] at h
        | some slotsA =>
          simp only [hset] at h
          rcases ih _ _ _ h x t1 hx hbit with ⟨t, ht, htb⟩ | ⟨j', h1, h2, h3⟩
          · rcases setAnnotation_sound hset x t ht htb with h0 | h0
            · exact Or.inl h0
            · exact Or.inr ⟨j, le_rfl, by omega, by simpa using hla, h0.symm, by omega⟩
          · exact Or.inr ⟨j', by omega, by omega, h3⟩

/-- The operand loop of the mark phase sets the annotation bit of every local-address
operand at or above `slotStart`. -/
theorem markOperands_marks (E : Env) (slotStart : Nat) (slot : L1IRSlot) (n : Nat) :
    ∀ (j : Nat) (slots slots1 : List L1IRSlot),
      markOperands E slotStart slot n j slots = some slots1 →
      ∀ j', j ≤ j' → j' < j + n → E.SlotTypeArgumentIsLocalAddress slot.type j' = true →
        slotStart ≤ L1IRExtractSlotOperand slot j' →
        ∃ t, slots1[L1IRExtractSlotOperand slot j']? = some t ∧ t.annotation = true := by
  induction n with
  | zero =>
    intro j slots slots1 _ j' h1 h2
    omega
  | succ n ih =>
    intro j slots slots1 h j' h1 h2 hla hge
    simp only [markOperands] at h
    by_cases hjj : j' = j
    · subst hjj
      simp only [hla, not_true_eq_false, if_false, show ¬ L1IRExtractSlotOperand slot j' < slotStart
        by omega] at h
      cases hset : L1IRSetSlotAnnotation slots (L1IRExtractSlotOperand slot j') with
      | none => simp [hset] at h
      | some slotsA =>
        simp only [hset] at h
        have hlt := (setAnnotation_frame hset).1
        obtain ⟨sA, hsA, _, hbit⟩ := setAnnotation_annotates hset (L1IRExtractSlotOperand slot j')
          slots[L1IRExtractSlotOperand slot j'] (List.getElem?_eq_getElem hlt)
        obtain ⟨t, ht, hat⟩ := markOperands_annotates E slotStart slot n _ slotsA slots1 h _ sA hsA
        exact ⟨t, ht, annotates_bit hat (hbit rfl)⟩
    · split at h
      · exact ih _ _ _ h j' (by omega) (by omega) hla hge
      · split at h
        · exact ih _ _ _ h j' (by omega) (by omega) hla hge
        · cases hset : L1IRSetSlotAnnotation slots (L1IRExtractSlotOperand slot j) with
          | none => simp [hset] at h
          | some slotsA =>
            simp only [hset] at h
            exact ih _ _ _ h j' (by omega) (by omega) hla hge

theorem retained_of_not_skip (E : Env) (slot : L1IRSlot)
    (h : ¬ (¬ E.IsImplicitRoot slot.type = true ∧ ¬ slot.annotation = true)) :
    retained E slot = true := by
  cases hr : retained E slot with
  | true => rfl
  | false => exact absurd ((retained_false_iff E slot).mpr hr) h

/-- After the loop "Propagate retain marks" a set annotation bit was set before or belongs
to a local-address operand, at or above `slotStart`, of a visited slot that is retained
in the result. -/
theorem propagateMarks_sound (E : Env) (slotStart : Nat) (k : Nat) :
    ∀ (slots slots1 : List L1IRSlot) (c c1 : Nat),
      propagateMarks E slotStart k slots c = some (slots1, c1) →
      ∀ (x : Nat) (t1 : L1IRSlot), slots1[x]? = some t1 → t1.annotation = true →
        (∃ t, slots[x]? = some t ∧ t.annotation = true) ∨
        (∃ a s1 j, slotStart ≤ a ∧ a < slotStart + k ∧ slots1[a]? = some s1 ∧
          retained E s1 = true ∧ j < 3 ∧ E.SlotTypeArgumentIsLocalAddress s1.type j = true ∧
          L1IRExtractSlotOperand s1 j = x ∧ slotStart ≤ x) := by
  induction k with
  | zero =>
    intro slots slots1 c c1 h x t1 hx hbit
    simp only [propagateMarks, Option.some.injEq, Prod.mk.injEq] at h
    obtain ⟨rfl, _⟩ := h
    exact Or.inl ⟨t1, hx, hbit⟩
  | succ k ih =>
    intro slots slots1 c c1 h x t1 hx hbit
    simp only [propagateMarks] at h
    cases hget : slots[slotStart + k]? with
    | none => simp [hget] at h
    | some slot =>
      simp only [hget] at h
      split at h
      · rcases ih _ _ _ _ h x t1 hx hbit with h0 | ⟨a, s1, j, h1, h2, h3⟩
        · exact Or.inl h0
        · exact Or.inr ⟨a, s1, j, h1, by omega, h3⟩
      · next hkeep =>
        cases hmark : markOperands E slotStart slot 3 0 slots with
        | none => simp [hmark] at h
        | some slotsA =>
          simp only [hmark] at h
          rcases ih _ _ _ _ h x t1 hx hbit with ⟨t, ht, htb⟩ | ⟨a, s1, j, h1, h2, h3⟩
          · rcases markOperands_sound E slotStart slot 3 0 slots slotsA hmark x t ht htb with
              h0 | ⟨j', _, hj', hla, hop, hge⟩
            · exact Or.inl h0
            · right
              have hM := onlyMarks_trans (markOperands_onlyMarks hmark)
                (propagateMarks_onlyMarks h)
              obtain ⟨s1, hs1, ha1⟩ := hM.2 _ slot hget
              refine ⟨slotStart + k, s1, j', by omega, by omega, hs1,
                annotates_retained ha1 (retained_of_not_skip E slot hkeep), by omega, ?_, ?_, hge⟩
              · rw [annotates_type ha1]
                exact hla
              · rw [annotates_operand ha1]
                exact hop
          · exact Or.inr ⟨a, s1, j, h1, by omega, h3⟩

/-- With operands that point to lower indices, after the loop "Propagate retain marks"
every local-address operand, at or above `slotStart`, of a visited slot that is retained
has its annotation bit set. -/
theorem propagateMarks_closure (E : Env) (slotStart : Nat) (k : Nat) :
    ∀ (slots slots1 : List L1IRSlot) (c c1 : Nat),
      backwardOperands E slots slotStart (slotStart + k) →
      propagateMarks E slotStart k slots c = some (slots1, c1) →
      ∀ (a : Nat) (s1 : L1IRSlot), slotStart ≤ a → a < slotStart + k →
        slots1[a]? = some s1 → retained E s1 = true →
        ∀ j, j < 3 → E.SlotTypeArgumentIsLocalAddress s1.type j = true →
          slotStart ≤ L1IRExtractSlotOperand s1 j →
          ∃ t, slots1[L1IRExtractSlotOperand s1 j]? = some t ∧ t.annotation = true := by
  induction k with
  | zero =>
    intro slots slots1 c c1 _ _ a s1 h1 h2
    omega
  | succ k ih =>
    intro slots slots1 c c1 hb h a s1 ha1 ha2 hs1 hret j hj hla hge
    obtain ⟨hunch, _⟩ := propagateMarks_count E slotStart (k + 1) slots slots1 c c1 hb h
    simp only [propagateMarks] at h
    cases hget : slots[slotStart + k]? with
    | none => simp [hget] at h
    | some slot =>
      simp only [hget] at h
      split at h
      · next hskip =>
        by_cases hak : a = slotStart + k
        · subst hak
          obtain ⟨hunchk, _⟩ := propagateMarks_count E slotStart k slots slots1 c c1
            (backwardOperands_mono hb (by omega)) h
          rw [hunchk _ le_rfl, hget] at hs1
          have hslot : slot = s1 := Option.some.inj hs1
          rw [← hslot, (retained_false_iff E slot).mp hskip] at hret
          cases hret
        · exact ih _ _ _ _ (backwardOperands_mono hb (by omega)) h a s1 ha1 (by omega) hs1 hret
            j hj hla hge
      · next hkeep =>
        cases hmark : markOperands E slotStart slot 3 0 slots with
        | none => simp [hmark] at h
        | some slotsA =>
          simp only [hmark] at h
          have hA := markOperands_onlyMarks hmark
          have hbA : backwardOperands E slotsA slotStart (slotStart + k) :=
            backwardOperands_onlyMarks hA (backwardOperands_mono hb (by omega))
          by_cases hak : a = slotStart + k
          · subst hak
            obtain ⟨hunchk, _⟩ := propagateMarks_count E slotStart k slotsA slots1 (c + 1) c1 hbA h
            obtain ⟨_, hunchA⟩ := markOperands_frame E slotStart slot 3 0 slots slotsA hmark
            have hAsame : slotsA[slotStart + k]? = slots[slotStart + k]? := by
              apply hunchA
              intro j' _ hj' hla' _
              have := hb (slotStart + k) slot (by omega) (by omega) hget j' (by omega) hla'
              omega
            rw [hunchk _ le_rfl, hAsame, hget] at hs1
            have hslot : slot = s1 := Option.some.inj hs1
            subst hslot
            obtain ⟨tA, htA, hbitA⟩ := markOperands_marks E slotStart slot 3 0 slots slotsA hmark j
              (by omega) (by omega) hla hge
            obtain ⟨t, ht, hat⟩ := (propagateMarks_onlyMarks h).2 _ tA htA
            exact ⟨t, ht, annotates_bit hat hbitA⟩
          · exact ih _ _ _ _ hbA h a s1 ha1 (by omega) hs1 hret j hj hla hge

/-! ### The mark phase marks exactly the reachable slots -/

/-- After the mark phase on slots whose annotation bits above the barrier were clear and
none of which above the barrier is an implicit root, a marked slot above the barrier lies
below `maxUsedSlotCount` and is reachable from a root. -/
theorem marked_is_reachable (E : Env) (slots slots1 slots2 : List L1IRSlot)
    (slotStart slotCount : Nat) (roots : List Nat) (maxUsed c : Nat)
    (hmark : markRoots slotCount slots slotStart roots = some (slots1, maxUsed))
    (hprop : propagateMarks E slotStart (maxUsed - slotStart) slots1 slotStart = some (slots2, c))
    (hzero : ∀ x s, slotStart ≤ x → slots[x]? = some s → s.annotation = false)
    (himp : ∀ x s, slotStart ≤ x → slots[x]? = some s → E.IsImplicitRoot s.type = false)
    (hback : backwardOperands E slots slotStart slots.length) :
    ∀ (n x : Nat) (t : L1IRSlot), slots.length - x ≤ n → slotStart ≤ x →
      slots2[x]? = some t → t.annotation = true →
      x < maxUsed ∧ ∃ r ∈ roots, x ≤ r ∧ reaches E slots (r - x) r x = true := by
  have hM1 := markRoots_onlyMarks hmark
  have hM2 := propagateMarks_onlyMarks hprop
  have hM := onlyMarks_trans hM1 hM2
  obtain ⟨_, hrm, hsm⟩ := markRoots_annotates slotCount roots slots slots1 slotStart maxUsed hmark
  intro n
  induction n with
  | zero =>
    intro x t hn _ hx _
    have := (List.getElem?_eq_some_iff.mp hx).1
    rw [hM.1] at this
    omega
  | succ n ih =>
    intro x t hn hsx hx hbit
    rcases propagateMarks_sound E slotStart (maxUsed - slotStart) slots1 slots2 slotStart c hprop
        x t hx hbit with ⟨t1, ht1, hb1⟩ | ⟨a, s1, j, ha1, ha2, hs1, hret, hj, hla, hop, _⟩
    · rcases markRoots_sound slotCount roots slots slots1 slotStart maxUsed hmark x t1 ht1 hb1 with
        ⟨t0, ht0, hb0⟩ | hmem
      · rw [hzero x t0 hsx ht0] at hb0
        cases hb0
      · obtain ⟨s0, hs0, _⟩ := onlyMarks_rev hM1 x t1 ht1
        obtain ⟨hlt, _⟩ := hrm x s0 hmem hs0
        refine ⟨hlt, x, hmem, le_rfl, ?_⟩
        simp [reaches_refl]
    · obtain ⟨s, hs, has⟩ := onlyMarks_rev hM a s1 hs1
      have halt : a < slots.length := (List.getElem?_eq_some_iff.mp hs).1
      have hxa : x < a := by
        have := hback a s ha1 halt hs j hj (by rw [← annotates_type has]; exact hla)
        rw [← annotates_operand has, hop] at this
        exact this
      have hbits1 : s1.annotation = true := by
        have h0 := himp a s ha1 hs
        unfold retained at hret
        rw [annotates_type has, h0] at hret
        simpa using hret
      obtain ⟨_, r, hr, har, hreach⟩ := ih a s1 (by omega) ha1 hs1 hbits1
      refine ⟨by omega, r, hr, by omega, ?_⟩
      have hmemo : x ∈ operandTargets E s := by
        rw [mem_operandTargets]
        exact ⟨j, hj, by rw [← annotates_type has]; exact hla,
          by rw [← annotates_operand has]; exact hop⟩
      have h1 := reaches_snoc E slots (r - a) r a x s hreach hs hmemo
      have h2 := reaches_mono E slots (r - a + 1) (r - x - (r - a + 1)) r x h1
      have : r - a + 1 + (r - x - (r - a + 1)) = r - x := by omega
      rw [this] at h2
      exact h2

/-- After the mark phase, when no marked slot of the scanned range has a local-address
operand below `slotStart`, every slot reachable from a marked slot above the barrier is
above the barrier and marked. -/
theorem reachable_is_marked (E : Env) (slots slots1 slots2 : List L1IRSlot)
    (slotStart slotCount : Nat) (roots : List Nat) (maxUsed c : Nat)
    (hmark : markRoots slotCount slots slotStart roots = some (slots1, maxUsed))
    (hprop : propagateMarks E slotStart (maxUsed - slotStart) slots1 slotStart = some (slots2, c))
    (hzero : ∀ x s, slotStart ≤ x → slots[x]? = some s → s.annotation = false)
    (himp : ∀ x s, slotStart ≤ x → slots[x]? = some s → E.IsImplicitRoot s.type = false)
    (hback : backwardOperands E slots slotStart slots.length)
    (hnb : ∀ a t j, slotStart ≤ a → a < maxUsed → slots2[a]? = some t → t.annotation = true →
      j < 3 → E.SlotTypeArgumentIsLocalAddress t.type j = true →
      slotStart ≤ L1IRExtractSlotOperand t j) :
    ∀ (f a x : Nat) (t : L1IRSlot), slotStart ≤ a → slots2[a]? = some t →
      t.annotation = true → reaches E slots f a x = true →
      slotStart ≤ x ∧ ∃ tx, slots2[x]? = some tx ∧ tx.annotation = true := by
  have hM1 := markRoots_onlyMarks hmark
  have hM2 := propagateMarks_onlyMarks hprop
  have hM := onlyMarks_trans hM1 hM2
  obtain ⟨_, _, hsm⟩ := markRoots_annotates slotCount roots slots slots1 slotStart maxUsed hmark
  have hstep : ∀ (a : Nat) (t s : L1IRSlot) (o : Nat), slotStart ≤ a → slots2[a]? = some t →
      t.annotation = true → slots[a]? = some s → o ∈ operandTargets E s →
      slotStart ≤ o ∧ ∃ tx, slots2[o]? = some tx ∧ tx.annotation = true := by
    intro a t s o ha ht hbit hs ho
    obtain ⟨j, hj, hla, hop⟩ := (mem_operandTargets E s o).mp ho
    obtain ⟨t', ht', hat⟩ := hM.2 a s hs
    rw [ht] at ht'
    cases ht'
    obtain ⟨halt, _⟩ := marked_is_reachable E slots slots1 slots2 slotStart slotCount roots maxUsed
      c hmark hprop hzero himp hback (slots.length - a) a t le_rfl ha ht hbit
    have hlat : E.SlotTypeArgumentIsLocalAddress t.type j = true := by
      rw [annotates_type hat]
      exact hla
    have hopt : L1IRExtractSlotOperand t j = o := by
      rw [annotates_operand hat]
      exact hop
    have hge := hnb a t j ha halt ht hbit hj hlat
    have hb1 : backwardOperands E slots1 slotStart (slotStart + (maxUsed - slotStart)) := by
      have : slotStart + (maxUsed - slotStart) = maxUsed := by omega
      rw [this]
      exact backwardOperands_onlyMarks hM1 (backwardOperands_mono hback (by
        have := (List.getElem?_eq_some_iff.mp hs).1
        by_contra hcon
        have hh : slots.length < maxUsed := by omega
        obtain ⟨_, _, _, _, hk⟩ := propagateMarks_frame E slotStart (maxUsed - slotStart) slots1
          slots2 slotStart c hprop
        have := hk (by omega)
        rw [hM1.1] at this
        omega))
    obtain ⟨tx, htx, hbx⟩ := propagateMarks_closure E slotStart (maxUsed - slotStart) slots1 slots2
      slotStart c hb1 hprop a t ha (by omega) ht (by simp [retained, hbit]) j hj hlat hge
    rw [hopt] at hge htx
    exact ⟨hge, tx, htx, hbx⟩
  intro f
  induction f with
  | zero =>
    intro a x t ha ht hbit hr
    simp [reaches] at hr
    subst hr
    exact ⟨ha, t, ht, hbit⟩
  | succ f ih =>
    intro a x t ha ht hbit hr
    rw [reaches] at hr
    simp only [Bool.or_eq_true, decide_eq_true_eq] at hr
    rcases hr with hr | hr
    · subst hr
      exact ⟨ha, t, ht, hbit⟩
    · cases hs : slots[a]? with
      | none => simp [hs] at hr
      | some s =>
        simp only [hs, List.any_eq_true] at hr
        obtain ⟨o, ho, hro⟩ := hr
        obtain ⟨hgo, t2, hto, hbo⟩ := hstep a t s o ha ht hbit hs ho
        exact ih o x t2 hgo hto hbo hro

/-! ### Counting the reachable slots -/

/-- Counting the elements of a segment that satisfy a test is counting the indices of the
segment whose element satisfies it. -/
theorem filter_seg_length {α : Type} (p : α → Bool) (l : List α) (a : Nat) :
    ∀ k, a + k ≤ l.length →
      (((l.drop a).take k).filter p).length =
        ((List.range' a k).filter fun i =>
          match l[i]? with
          | some s => p s
          | none => false).length := by
  intro k
  induction k with
  | zero => intro _; simp
  | succ k ih =>
    intro hk
    have hlt : a + k < l.length := by omega
    have hs : l[a + k]? = some l[a + k] := List.getElem?_eq_getElem hlt
    rw [seg_snoc l a k _ hs, List.range'_concat, List.filter_append, List.filter_append,
      List.length_append, List.length_append, ih (by omega)]
    congr 1
    simp only [List.filter_cons, List.filter_nil, Nat.one_mul, hs]
    split <;> rfl

/-- No slot is reachable from an empty list of roots. -/
theorem reachable_nil (E : Env) (slots : List L1IRSlot) (i : Nat) :
    reachable E slots [] i = false := by
  simp [reachable]

/-- What `CompactLocalGarbage` returns when the annotation bits above `slotStart` are
clear on entry, no slot above `slotStart` is an implicit root and operands point to
lower indices: `slotStart` plus the number of slots above `slotStart` that are
reachable from the roots. -/
theorem compact_count_reachable (E : Env) (slots slots3 : List L1IRSlot) (slotStart : Nat)
    (roots roots1 : List Nat) (c : Nat)
    (h : CompactLocalGarbage E slots slotStart slots.length roots = some (slots3, roots1, c))
    (hstart : slotStart ≤ slots.length)
    (hroots : ∀ r ∈ roots, slotStart ≤ r ∧ r < slots.length)
    (hzero : ∀ x s, slotStart ≤ x → slots[x]? = some s → s.annotation = false)
    (himp : ∀ x s, slotStart ≤ x → slots[x]? = some s → E.IsImplicitRoot s.type = false)
    (hback : backwardOperands E slots slotStart slots.length) :
    c = slotStart + reachableCount E slots slotStart roots := by
  obtain ⟨marked, maxUsed, hphase, _, hsm, hml, _, _, _, _, _, hcount⟩ :=
    compact_result E slots slots3 slotStart slots.length roots roots1 c h hstart
      (fun r hr => (hroots r hr).1)
  have hc := hcount (backwardOperands_mono hback hml)
  unfold CompactLocalGarbage at h
  unfold markPhase at hphase
  cases hmark : markRoots slots.length slots slotStart roots with
  | none => simp [hmark] at h
  | some res1 =>
    obtain ⟨slots1, m⟩ := res1
    simp only [hmark] at h hphase
    obtain ⟨_, hrm, _⟩ := markRoots_annotates slots.length roots slots slots1 slotStart m hmark
    have hM1 := markRoots_onlyMarks hmark
    by_cases heq : m = slotStart
    · simp only [heq, if_true, Option.some.injEq, Prod.mk.injEq] at h
      obtain ⟨_, _, rfl⟩ := h
      have hnil : roots = [] := by
        cases roots with
        | nil => rfl
        | cons r rest =>
          obtain ⟨h1, h2⟩ := hroots r (List.mem_cons_self _ _)
          obtain ⟨h3, _⟩ := hrm r slots[r] (List.mem_cons_self _ _) (List.getElem?_eq_getElem h2)
          omega
      subst hnil
      simp [reachableCount, reachable_nil]
    · simp only [heq, if_false] at h hphase
      cases hprop : propagateMarks E slotStart (m - slotStart) slots1 slotStart with
      | none => simp [hprop] at h
      | some res2 =>
        obtain ⟨slots2, c2⟩ := res2
        simp only [hprop, Option.some.injEq, Prod.mk.injEq] at h hphase
        obtain ⟨rfl, rfl, rfl⟩ := hphase
        have hM2 := propagateMarks_onlyMarks hprop
        have hM := onlyMarks_trans hM1 hM2
        cases hcomp : compactSlots E slotStart (m - slotStart) slotStart slots2
            ((List.range (m - slotStart)).map E.uninitialized) slotStart with
        | none => simp [hcomp] at h
        | some res3 =>
          have hnb : ∀ a t j, slotStart ≤ a → a < m → slots2[a]? = some t →
              t.annotation = true → j < 3 → E.SlotTypeArgumentIsLocalAddress t.type j = true →
              slotStart ≤ L1IRExtractSlotOperand t j := by
            intro a t j ha1 ha2 ht hbit hj hla
            by_contra hcon
            have := compactSlots_operand_below_start E slotStart a j t hj hbit hla (by omega)
              (m - slotStart) slotStart slots2 ((List.range (m - slotStart)).map E.uninitialized)
              slotStart le_rfl ha1 (by omega) ht
            rw [this] at hcomp
            cases hcomp
          have hA := marked_is_reachable E slots slots1 slots2 slotStart slots.length roots m c2
            hmark hprop hzero himp hback
          have hB := reachable_is_marked E slots slots1 slots2 slotStart slots.length roots m c2
            hmark hprop hzero himp hback hnb
          have hiff : ∀ x, slotStart ≤ x →
              (reachable E slots roots x = true ↔
                ∃ t, slots2[x]? = some t ∧ t.annotation = true) := by
            intro x hx
            constructor
            · intro hr
              simp only [reachable, List.any_eq_true] at hr
              obtain ⟨r, hrmem, hreach⟩ := hr
              obtain ⟨h1, h2⟩ := hroots r hrmem
              obtain ⟨_, s1, hs1, has1, hb1⟩ := hrm r slots[r] hrmem (List.getElem?_eq_getElem h2)
              obtain ⟨s2, hs2, has2⟩ := hM2.2 r s1 hs1
              have hb2 : s2.annotation = true := annotates_bit has2 hb1
              exact (hB slots.length r x s2 h1 hs2 hb2 hreach).2
            · rintro ⟨t, ht, hbit⟩
              obtain ⟨_, r, hrmem, hxr, hreach⟩ := hA (slots.length - x) x t le_rfl hx ht hbit
              simp only [reachable, List.any_eq_true]
              refine ⟨r, hrmem, ?_⟩
              have h2 := (hroots r hrmem).2
              have := reaches_mono E slots (r - x) (slots.length - (r - x)) r x hreach
              have he : r - x + (slots.length - (r - x)) = slots.length := by omega
              rw [he] at this
              exact this
          rw [hc, reachableCount]
          congr 1
          have hsplit : slots.length - slotStart = (slots.length - m) + (m - slotStart) := by omega
          rw [hsplit, ← List.range'_append_1, List.filter_append, List.length_append]
          have hm : slotStart + (m - slotStart) = m := by omega
          rw [hm]
          have htail : (List.range' m (slots.length - m)).filter
              (fun i => reachable E slots roots i) = [] := by
            rw [List.filter_eq_nil_iff]
            intro i hi hr
            rw [List.mem_range'_1] at hi
            obtain ⟨t, ht, hbit⟩ := (hiff i (by omega)).mp hr
            have := (hA (slots.length - i) i t le_rfl (by omega) ht hbit).1
            omega
          rw [htail, List.length_nil, Nat.add_zero,
            filter_seg_length (retained E) slots2 slotStart (m - slotStart)
              (by rw [hM.1]; omega)]
          congr 1
          apply List.filter_congr
          intro i hi
          rw [List.mem_range'_1] at hi
          have hlt : i < slots2.length := by rw [hM.1]; omega
          have hsome : slots2[i]? = some slots2[i] := List.getElem?_eq_getElem hlt
          obtain ⟨s0, hs0, has0⟩ := onlyMarks_rev hM i _ hsome
          have himp0 := himp i s0 hi.1 hs0
          rw [hsome]
          simp only
          rw [Bool.eq_iff_iff, hiff i hi.1]
          unfold retained
          rw [annotates_type has0, himp0, Bool.false_or]
          constructor
          · intro hb
            exact ⟨_, hsome, hb⟩
          · rintro ⟨t, ht, hb⟩
            rw [hsome] at ht
            cases ht
            exact hb

/-- With operands that point to lower indices, a path of operands never leads to a higher
index. -/
theorem reaches_le (E : Env) (slots : List L1IRSlot)
    (hback : backwardOperands E slots 0 slots.length) :
    ∀ f a b, reaches E slots f a b = true → b ≤ a := by
  intro f
  induction f with
  | zero =>
    intro a b h
    simp [reaches] at h
    omega
  | succ f ih =>
    intro a b h
    rw [reaches] at h
    simp only [Bool.or_eq_true, decide_eq_true_eq] at h
    rcases h with h | h
    · omega
    · cases hs : slots[a]? with
      | none => simp [hs] at h
      | some s =>
        simp only [hs, List.any_eq_true] at h
        obtain ⟨o, ho, hro⟩ := h
        obtain ⟨j, hj, hla, hop⟩ := (mem_operandTargets E s o).mp ho
        have hlt := (List.getElem?_eq_some_iff.mp hs).1
        have := hback a s (Nat.zero_le _) hlt hs j hj hla
        have := ih o b hro
        omega

/-- The loop "Update root handles" has a result only for roots at or above `slotStart`. -/
theorem updateRoots_ge (slotRemappings : List Nat) (slotStart : Nat) :
    ∀ (roots roots1 : List Nat), updateRoots slotRemappings slotStart roots = some roots1 →
      ∀ r ∈ roots, slotStart ≤ r := by
  intro roots
  induction roots with
  | nil => intro _ _ r hr; cases hr
  | cons r0 rest ih =>
    intro roots1 h r hr
    simp only [updateRoots] at h
    cases h0 : readRemapping slotRemappings slotStart r0 with
    | none => simp [h0] at h
    | some v =>
      cases h1 : updateRoots slotRemappings slotStart rest with
      | none => simp [h0, h1] at h
      | some rest1 =>
        rcases List.mem_cons.mp hr with rfl | hr
        · unfold readRemapping at h0
          by_contra hcon
          simp [Nat.lt_of_not_le hcon] at h0
        · exact ih rest1 h1 r hr

/-- What `CompactLocalGarbage` returns for roots anywhere in the slots, when the
annotation bits above `slotStart` are clear on entry, no slot above `slotStart` is an
implicit root and all operands point to lower indices. -/
theorem compact_count_reachable_roots (E : Env) (slots slots3 : List L1IRSlot)
    (slotStart : Nat) (roots roots1 : List Nat) (c : Nat)
    (h : CompactLocalGarbage E slots slotStart slots.length roots = some (slots3, roots1, c))
    (hstart : slotStart ≤ slots.length)
    (hzero : ∀ x s, slotStart ≤ x → slots[x]? = some s → s.annotation = false)
    (himp : ∀ x s, slotStart ≤ x → slots[x]? = some s → E.IsImplicitRoot s.type = false)
    (hback : backwardOperands E slots 0 slots.length) :
    c = slotStart + reachableCount E slots slotStart roots := by
  have hsuffix : backwardOperands E slots slotStart slots.length :=
    fun i s _ h2 hs j hj hla => hback i s (Nat.zero_le _) h2 hs j hj hla
  have h0 := h
  unfold CompactLocalGarbage at h0
  cases hmark : markRoots slots.length slots slotStart roots with
  | none => simp [hmark] at h0
  | some res1 =>
    obtain ⟨slots1, m⟩ := res1
    simp only [hmark] at h0
    obtain ⟨_, hrm, _⟩ := markRoots_annotates slots.length roots slots slots1 slotStart m hmark
    obtain ⟨_, _, hroots, _⟩ := markRoots_frame slots.length roots slots slots1 slotStart m hmark
    by_cases heq : m = slotStart
    · simp only [heq, if_true, Option.some.injEq, Prod.mk.injEq] at h0
      obtain ⟨_, _, rfl⟩ := h0
      have hnil : (List.range' slotStart (slots.length - slotStart)).filter
          (fun i => reachable E slots roots i) = [] := by
        rw [List.filter_eq_nil_iff]
        intro i hi hr
        rw [List.mem_range'_1] at hi
        simp only [reachable, List.any_eq_true] at hr
        obtain ⟨r, hrmem, hreach⟩ := hr
        have h2 := hroots r hrmem
        obtain ⟨h3, _⟩ := hrm r slots[r] hrmem (List.getElem?_eq_getElem h2)
        have := reaches_le E slots hback _ r i hreach
        omega
      simp [reachableCount, hnil]
    · simp only [heq, if_false] at h0
      cases hprop : propagateMarks E slotStart (m - slotStart) slots1 slotStart with
      | none => simp [hprop] at h0
      | some res2 =>
        obtain ⟨slots2, c2⟩ := res2
        simp only [hprop] at h0
        cases hcomp : compactSlots E slotStart (m - slotStart) slotStart slots2
            ((List.range (m - slotStart)).map E.uninitialized) slotStart with
        | none => simp [hcomp] at h0
        | some res3 =>
          obtain ⟨slots4, remap, idx⟩ := res3
          simp only [hcomp] at h0
          cases hupd : updateRoots remap slotStart roots with
          | none => simp [hupd] at h0
          | some rootsU =>
            have hge := updateRoots_ge remap slotStart roots rootsU hupd
            exact compact_count_reachable E slots slots3 slotStart roots roots1 c h hstart
              (fun r hr => ⟨hge r hr, hroots r hr⟩) hzero himp hsuffix

/-- `L1IRGlobalStateEvaluate` on a native callee is the code from the label
`resultComputed` on, run on what `instantiateBlock` yields. -/
theorem evaluate_instantiateBlock (E : Env) (self : L1IRGlobalState)
    (localState : L1IRLocalState) (flags : L1IRGlobalStateEvaluationFlags)
    (calleeAddress a capture : Nat) (hasOut : Bool) (type : L1IRGlobalStateBlockType)
    (slots : List L1IRSlot)
    (hblock : self.blocks[calleeAddress]? = some (.native type slots)) :
    L1IRGlobalStateEvaluate E self localState flags calleeAddress a capture hasOut =
      match instantiateBlock E self localState flags calleeAddress a capture hasOut with
      | none => none
      | some (pre, r, fa) => resultComputed E pre r fa hasOut := by
  simp only [L1IRGlobalStateEvaluate, instantiateBlock, hblock]
  split
  · rfl
  · split
    · rfl
    · split <;> rfl

/-- The store with which a native callee arrives at the label `resultComputed`: the
barrier pushed at the length on entry is on top of the barrier stack, the call depth is
one higher, and slots have only been appended. -/
theorem instantiateBlock_frame (E : Env) (self : L1IRGlobalState)
    (localState pre : L1IRLocalState) (flags : L1IRGlobalStateEvaluationFlags)
    (calleeAddress a capture : Nat) (hasOut : Bool) (r fa : Nat)
    (h : instantiateBlock E self localState flags calleeAddress a capture hasOut =
      some (pre, r, fa)) :
    pre.gcBarriers = localState.slots.length :: localState.gcBarriers ∧
    pre.callDepth = localState.callDepth + 1 ∧
    ∃ extra, pre.slots = localState.slots ++ extra := by
  unfold instantiateBlock at h
  split at h
  · next type slots hblock =>
    split at h
    · simp at h
    · split at h
      · simp at h
      · next st hst =>
        split at h
        · simp at h
        · simp only [Option.some.injEq, Prod.mk.injEq] at h
          obtain ⟨rfl, _, _⟩ := h
          obtain ⟨hb, hd, extra, hx⟩ := instantiatePrototypes_frame E self flags type
            calleeAddress a capture hasOut slots 0 _ st hst
          exact ⟨hb, hd, extra, hx⟩
  · simp at h

/-! ### The collector reclaims exactly the garbage -/

/-- A slot read at an index is a member of the slots. -/
theorem slot_mem {slots : List L1IRSlot} {x : Nat} {s : L1IRSlot} (h : slots[x]? = some s) :
    s ∈ slots := by
  obtain ⟨hlt, rfl⟩ := List.getElem?_eq_some_iff.mp h
  exact List.getElem_mem hlt

/-! ### The collector: exactly when it has a defined result -/

/-- The read `slotRemappings[address - slotStart]` has a value exactly for the addresses
of the table, `[slotStart, slotStart + length)`. -/
theorem readRemapping_none (slotRemappings : List Nat) (slotStart address : Nat)
    (h : address < slotStart ∨ slotStart + slotRemappings.length ≤ address) :
    readRemapping slotRemappings slotStart address = none := by
  unfold readRemapping
  split
  · rfl
  · rw [List.getElem?_eq_none_iff]
    omega

/-- The compaction loop has no defined result once it is to visit a retained slot with a
local-address operand outside the remapping table: below `slotStart`, or at or above
`slotStart` plus the length of the table. -/
theorem compactSlots_retained_operand_outside (E : Env) (slotStart r j : Nat) (s : L1IRSlot)
    (hj : j < 3) (hret : retained E s = true)
    (hla : E.SlotTypeArgumentIsLocalAddress s.type j = true) (k : Nat) :
    ∀ (i : Nat) (slots : List L1IRSlot) (slotRemappings : List Nat) (finalSlotIndex : Nat),
      finalSlotIndex ≤ i → i ≤ r → r < i + k → slots[r]? = some s →
      (L1IRExtractSlotOperand s j < slotStart ∨
        slotStart + slotRemappings.length ≤ L1IRExtractSlotOperand s j) →
      compactSlots E slotStart k i slots slotRemappings finalSlotIndex = none := by
  induction k with
  | zero =>
    intro i slots slotRemappings finalSlotIndex _ hir hrk _ _
    omega
  | succ k ih =>
    intro i slots slotRemappings finalSlotIndex hfi hir hrk hs hop
    simp only [compactSlots]
    cases hget : slots[i]? with
    | none => rfl
    | some slot =>
      simp only []
      by_cases hri : i = r
      · subst hri
        rw [hs] at hget
        cases hget
        have hnone : remapOperand E (slotRemappings.set (i - slotStart) 65535) slotStart s j =
            none := by
          unfold remapOperand
          rw [if_pos hla]
          exact readRemapping_none _ _ _ (by simpa using hop)
        have hskip : ¬ (¬ E.IsImplicitRoot s.type = true ∧ ¬ s.annotation = true) := by
          intro hcon
          rw [(retained_false_iff E s).mp hcon] at hret
          cases hret
        have hj3 : j = 0 ∨ j = 1 ∨ j = 2 := by omega
        rw [if_neg hskip]
        rcases hj3 with rfl | rfl | rfl
        · simp [hnone]
        · rw [hnone]
          split <;> simp_all
        · rw [hnone]
          split <;> simp_all
      · have hlt : i < r := by omega
        split
        · exact ih _ _ _ _ (by omega) (by omega) (by omega) hs (by simpa using hop)
        · split
          · refine ih _ _ _ _ (by omega) (by omega) (by omega) ?_ (by simpa using hop)
            rw [List.getElem?_set_ne (by omega)]
            exact hs
          · rfl

/-- The compaction loop has a defined result when every local-address operand of every
retained slot it is to visit lies within the remapping table. -/
theorem compactSlots_isSome_retained (E : Env) (slotStart : Nat) (k : Nat) :
    ∀ (i : Nat) (slots : List L1IRSlot) (remap : List Nat) (fi : Nat),
      fi ≤ i → slotStart ≤ i → i + k ≤ slots.length →
      (∀ x s, i ≤ x → x < i + k → slots[x]? = some s → retained E s = true →
        ∀ j, j < 3 → E.SlotTypeArgumentIsLocalAddress s.type j = true →
          slotStart ≤ L1IRExtractSlotOperand s j ∧
          L1IRExtractSlotOperand s j < slotStart + remap.length) →
      ∃ res, compactSlots E slotStart k i slots remap fi = some res := by
  induction k with
  | zero => exact fun i slots remap fi _ _ _ _ => ⟨_, rfl⟩
  | succ k ih =>
    intro i slots remap fi hfi hsi hlen hb
    have hlt : i < slots.length := by omega
    have hkeepb : ∀ (slots1 : List L1IRSlot) (remap1 : List Nat),
        remap1.length = remap.length → (∀ x, i + 1 ≤ x → slots1[x]? = slots[x]?) →
        (∀ x s, i + 1 ≤ x → x < i + 1 + k → slots1[x]? = some s → retained E s = true →
          ∀ j, j < 3 → E.SlotTypeArgumentIsLocalAddress s.type j = true →
            slotStart ≤ L1IRExtractSlotOperand s j ∧
            L1IRExtractSlotOperand s j < slotStart + remap1.length) := by
      intro slots1 remap1 hrl hsame x s h1 h2 hs hret j hj hla
      rw [hsame x h1] at hs
      rw [hrl]
      exact hb x s (by omega) (by omega) hs hret j hj hla
    simp only [compactSlots, List.getElem?_eq_getElem hlt]
    split
    · exact ih _ _ _ _ (by omega) (by omega) (by omega)
        (hkeepb slots _ (by simp) (fun _ _ => rfl))
    · next hskip =>
      have hret : retained E slots[i] = true := retained_of_not_skip E _ hskip
      have hop : ∀ j, j < 3 → ∃ o, remapOperand E (remap.set (i - slotStart) 65535) slotStart
          slots[i] j = some o := by
        intro j hj
        apply remapOperand_isSome
        intro hla
        obtain ⟨h1, h2⟩ := hb i _ le_rfl (by omega) (List.getElem?_eq_getElem hlt) hret j hj hla
        refine ⟨h1, ?_⟩
        simp
        omega
      obtain ⟨o0, h0⟩ := hop 0 (by omega)
      obtain ⟨o1, h1⟩ := hop 1 (by omega)
      obtain ⟨o2, h2⟩ := hop 2 (by omega)
      simp only [h0, h1, h2]
      exact ih _ _ _ _ (by omega) (by omega) (by simp; omega)
        (hkeepb (slots.set fi (L1IRMakeSlot slots[i].type o0 o1 o2)) _ (by simp)
          (fun x hx => List.getElem?_set_ne (by omega)))

/-- The loop "Propagate retain marks" has a defined result when every local-address
operand of every slot it is to visit is the address of a slot. -/
theorem propagateMarks_isSome_of_addresses (E : Env) (slotStart : Nat) (k : Nat) :
    ∀ (slots : List L1IRSlot) (c : Nat), slotStart + k ≤ slots.length →
      (∀ i s, slotStart ≤ i → i < slotStart + k → slots[i]? = some s →
        ∀ j, j < 3 → E.SlotTypeArgumentIsLocalAddress s.type j = true →
          L1IRExtractSlotOperand s j < slots.length) →
      ∃ res, propagateMarks E slotStart k slots c = some res := by
  induction k with
  | zero => exact fun slots c _ _ => ⟨_, rfl⟩
  | succ k ih =>
    intro slots c hlen hb
    have hlt : slotStart + k < slots.length := by omega
    simp only [propagateMarks, List.getElem?_eq_getElem hlt]
    split
    · exact ih _ _ (by omega) (fun i s h1 h2 hs j hj hla => hb i s h1 (by omega) hs j hj hla)
    · obtain ⟨slotsA, hmark⟩ := markOperands_isSome E slotStart slots[slotStart + k] 3 0 slots
        (fun j' _ hj' hla =>
          hb (slotStart + k) _ (by omega) (by omega) (List.getElem?_eq_getElem hlt) j'
            (by omega) hla)
      simp only [hmark]
      have hA := markOperands_onlyMarks hmark
      refine ih _ _ (by rw [hA.1]; omega) ?_
      intro i s1 h1 h2 hs1 j hj hla
      obtain ⟨s, hs, has⟩ := onlyMarks_rev hA i s1 hs1
      rw [annotates_type has] at hla
      rw [annotates_operand has, hA.1]
      exact hb i s h1 (by omega) hs j hj hla

/-- The loop "Mark roots" has a result only when every root is the address of a slot. -/
theorem markRoots_root_in_slots (slotCount : Nat) (roots : List Nat) :
    ∀ (slots slots1 : List L1IRSlot) (m m1 : Nat),
      markRoots slotCount slots m roots = some (slots1, m1) →
      ∀ r ∈ roots, r < slots.length := by
  induction roots with
  | nil => intro _ _ _ _ _ r hr; cases hr
  | cons r0 rest ih =>
    intro slots slots1 m m1 h r hr
    simp only [markRoots] at h
    split at h
    · cases hset : L1IRSetSlotAnnotation slots r0 with
      | none => simp [hset] at h
      | some slotsA =>
        simp only [hset] at h
        obtain ⟨h0, hlenA, _⟩ := setAnnotation_frame hset
        rcases List.mem_cons.mp hr with rfl | hr
        · exact h0
        · have := ih slotsA slots1 _ m1 h r hr
          omega
    · simp at h

/-- The mark phase has a defined result when the roots are below `slotCount` and every
local-address operand of every slot from `slotStart` on is the address of a slot. -/
theorem markPhase_isSome (E : Env) (slots : List L1IRSlot) (slotStart slotCount : Nat)
    (roots : List Nat) (hstart : slotStart ≤ slotCount) (hcount : slotCount ≤ slots.length)
    (hroots : ∀ r ∈ roots, r < slotCount)
    (haddr : ∀ i s, slotStart ≤ i → slots[i]? = some s →
      ∀ j, j < 3 → E.SlotTypeArgumentIsLocalAddress s.type j = true →
        L1IRExtractSlotOperand s j < slots.length) :
    ∃ marked maxUsed c, markPhase E slots slotStart slotCount roots = some (marked, maxUsed, c) := by
  obtain ⟨⟨slots1, maxUsed⟩, hmark⟩ := markRoots_isSome slotCount roots slots slotStart hcount
    hroots
  obtain ⟨hlen1, _, _, hmax, _⟩ :=
    markRoots_frame slotCount roots slots slots1 slotStart maxUsed hmark
  obtain ⟨_, _, hge⟩ := markRoots_annotates slotCount roots slots slots1 slotStart maxUsed hmark
  have hM1 := markRoots_onlyMarks hmark
  have hmaxc := hmax hstart
  unfold markPhase
  simp only [hmark]
  by_cases heq : maxUsed = slotStart
  · simp [heq]
  · simp only [heq, if_false]
    obtain ⟨⟨slots2, c⟩, hprop⟩ := propagateMarks_isSome_of_addresses E slotStart
      (maxUsed - slotStart) slots1 slotStart (by omega)
      (fun i s1 h1 _ hs1 j hj hla => by
        obtain ⟨s, hs, has⟩ := onlyMarks_rev hM1 i s1 hs1
        rw [annotates_type has] at hla
        rw [annotates_operand has, hM1.1]
        exact haddr i s h1 hs j hj hla)
    simp only [hprop]
    exact ⟨_, _, _, rfl⟩

/-- What the mark phase leaves alone: it only sets annotation bits, none of them below
`slotStart` when no root lies there, and its counts are ordered
`slotStart ≤ finalSlotCount ≤ maxUsedSlotCount ≤ slotCount`; every root is below
`maxUsedSlotCount`. -/
theorem markPhase_frame (E : Env) (slots marked : List L1IRSlot) (slotStart slotCount : Nat)
    (roots : List Nat) (maxUsed c : Nat)
    (h : markPhase E slots slotStart slotCount roots = some (marked, maxUsed, c))
    (hstart : slotStart ≤ slotCount) :
    onlyMarks slots marked ∧ slotStart ≤ c ∧ c ≤ maxUsed ∧ maxUsed ≤ slotCount ∧
    (∀ r ∈ roots, r < maxUsed) ∧
    ((∀ r ∈ roots, slotStart ≤ r) → ∀ x, x < slotStart → marked[x]? = slots[x]?) := by
  unfold markPhase at h
  cases hmark : markRoots slotCount slots slotStart roots with
  | none => simp [hmark] at h
  | some res1 =>
    obtain ⟨slots1, m⟩ := res1
    simp only [hmark] at h
    obtain ⟨hlen1, hunch1, hrc, hmax, _⟩ :=
      markRoots_frame slotCount roots slots slots1 slotStart m hmark
    obtain ⟨_, hrm, hge⟩ := markRoots_annotates slotCount roots slots slots1 slotStart m hmark
    have hM1 := markRoots_onlyMarks hmark
    have hrlt : ∀ r ∈ roots, r < m := by
      intro r hr
      have hlt := markRoots_root_in_slots slotCount roots slots slots1 slotStart m hmark r hr
      exact (hrm r slots[r] hr (List.getElem?_eq_getElem hlt)).1
    have hbelow1 : (∀ r ∈ roots, slotStart ≤ r) → ∀ x, x < slotStart → slots1[x]? = slots[x]? := by
      intro hroots x hx
      apply hunch1
      intro hmem
      have := hroots x hmem
      omega
    by_cases heq : m = slotStart
    · simp only [heq, if_true, Option.some.injEq, Prod.mk.injEq] at h
      obtain ⟨rfl, rfl, rfl⟩ := h
      exact ⟨hM1, le_rfl, le_rfl, hstart, fun r hr => heq ▸ hrlt r hr, hbelow1⟩
    · simp only [heq, if_false] at h
      cases hprop : propagateMarks E slotStart (m - slotStart) slots1 slotStart with
      | none => simp [hprop] at h
      | some res2 =>
        obtain ⟨slots2, cm⟩ := res2
        simp only [hprop, Option.some.injEq, Prod.mk.injEq] at h
        obtain ⟨rfl, rfl, rfl⟩ := h
        obtain ⟨_, hbelow2, hc1, hc2, _⟩ :=
          propagateMarks_frame E slotStart (m - slotStart) slots1 slots2 slotStart cm hprop
        refine ⟨onlyMarks_trans hM1 (propagateMarks_onlyMarks hprop), hc1, by omega, hmax hstart,
          hrlt, ?_⟩
        intro hroots x hx
        rw [hbelow2 x hx, hbelow1 hroots x hx]

/-- `CompactLocalGarbage` after its mark phase: the early return, or the loops "Compact
reachable memory and fix references" and "Update root handles". -/
theorem compact_of_markPhase (E : Env) (slots marked : List L1IRSlot)
    (slotStart slotCount : Nat) (roots : List Nat) (maxUsed c : Nat)
    (h : markPhase E slots slotStart slotCount roots = some (marked, maxUsed, c)) :
    CompactLocalGarbage E slots slotStart slotCount roots =
      if maxUsed = slotStart then some (marked, roots, slotStart)
      else
        match compactSlots E slotStart (maxUsed - slotStart) slotStart marked
            ((List.range (maxUsed - slotStart)).map E.uninitialized) slotStart with
        | none => none
        | some (slots3, slotRemappings, _) =>
          match updateRoots slotRemappings slotStart roots with
          | none => none
          | some roots1 => some (slots3, roots1, c) := by
  unfold markPhase at h
  unfold CompactLocalGarbage
  cases hmark : markRoots slotCount slots slotStart roots with
  | none => simp [hmark] at h
  | some res1 =>
    obtain ⟨slots1, m⟩ := res1
    simp only [hmark] at h ⊢
    by_cases heq : m = slotStart
    · simp only [heq, if_true, Option.some.injEq, Prod.mk.injEq] at h ⊢
      obtain ⟨rfl, rfl, _⟩ := h
      simp
    · simp only [heq, if_false] at h ⊢
      cases hprop : propagateMarks E slotStart (m - slotStart) slots1 slotStart with
      | none => simp [hprop] at h
      | some res2 =>
        obtain ⟨slots2, cm⟩ := res2
        simp only [hprop, Option.some.injEq, Prod.mk.injEq] at h
        obtain ⟨rfl, rfl, rfl⟩ := h
        simp only [heq, if_false]

/-- After the mark phase, `CompactLocalGarbage` has no defined result when a retained
slot of the scanned range `[slotStart, maxUsedSlotCount)` has a local-address operand
outside that range: the compaction loop looks it up outside the remapping table. -/
theorem compact_none_of_operand_outside (E : Env) (slots marked : List L1IRSlot)
    (slotStart slotCount : Nat) (roots : List Nat) (maxUsed c : Nat)
    (h : markPhase E slots slotStart slotCount roots = some (marked, maxUsed, c))
    (i j : Nat) (s : L1IRSlot) (hi1 : slotStart ≤ i) (hi2 : i < maxUsed)
    (hs : marked[i]? = some s) (hret : retained E s = true) (hj : j < 3)
    (hla : E.SlotTypeArgumentIsLocalAddress s.type j = true)
    (hop : L1IRExtractSlotOperand s j < slotStart ∨ maxUsed ≤ L1IRExtractSlotOperand s j) :
    CompactLocalGarbage E slots slotStart slotCount roots = none := by
  rw [compact_of_markPhase E slots marked slotStart slotCount roots maxUsed c h]
  have hne : maxUsed ≠ slotStart := by omega
  rw [if_neg hne]
  have hcomp := compactSlots_retained_operand_outside E slotStart i j s hj hret hla
    (maxUsed - slotStart) slotStart marked ((List.range (maxUsed - slotStart)).map E.uninitialized)
    slotStart le_rfl hi1 (by omega) hs (by
      simp only [List.length_map, List.length_range]
      rcases hop with hop | hop
      · exact Or.inl hop
      · exact Or.inr (by omega))
  rw [hcomp]

/-- After the mark phase, with the roots in `[slotStart, slotCount)`,
`CompactLocalGarbage` has a defined result, with the count of the mark phase, when every
local-address operand of every retained slot of the scanned range
`[slotStart, maxUsedSlotCount)` lies in that range. -/
theorem compact_some_of_operands_inside (E : Env) (slots marked : List L1IRSlot)
    (slotStart slotCount : Nat) (roots : List Nat) (maxUsed c : Nat)
    (h : markPhase E slots slotStart slotCount roots = some (marked, maxUsed, c))
    (hstart : slotStart ≤ slotCount) (hcount : slotCount ≤ slots.length)
    (hroots : ∀ r ∈ roots, slotStart ≤ r)
    (hin : ∀ i s, slotStart ≤ i → i < maxUsed → marked[i]? = some s → retained E s = true →
      ∀ j, j < 3 → E.SlotTypeArgumentIsLocalAddress s.type j = true →
        slotStart ≤ L1IRExtractSlotOperand s j ∧ L1IRExtractSlotOperand s j < maxUsed) :
    ∃ slots3 roots1, CompactLocalGarbage E slots slotStart slotCount roots =
      some (slots3, roots1, c) := by
  obtain ⟨hM, hc1, hc2, hmax, hrlt, _⟩ :=
    markPhase_frame E slots marked slotStart slotCount roots maxUsed c h hstart
  rw [compact_of_markPhase E slots marked slotStart slotCount roots maxUsed c h]
  by_cases heq : maxUsed = slotStart
  · rw [if_pos heq]
    have : c = slotStart := by omega
    rw [this]
    exact ⟨_, _, rfl⟩
  · rw [if_neg heq]
    obtain ⟨⟨slots3, remap, idx⟩, hcomp⟩ := compactSlots_isSome_retained E slotStart
      (maxUsed - slotStart) slotStart marked
      ((List.range (maxUsed - slotStart)).map E.uninitialized) slotStart le_rfl le_rfl
      (by rw [hM.1]; omega)
      (fun x s h1 h2 hs hret j hj hla => by
        obtain ⟨h3, h4⟩ := hin x s h1 (by omega) hs hret j hj hla
        refine ⟨h3, ?_⟩
        simp only [List.length_map, List.length_range]
        omega)
    simp only [hcomp]
    obtain ⟨_, _, _, _, hrl, _⟩ := compactSlots_frame E slotStart (maxUsed - slotStart) slotStart
      marked slots3 _ remap slotStart idx le_rfl hcomp
    obtain ⟨roots1, hupd⟩ := updateRoots_isSome remap slotStart roots (fun r hr => by
      have h1 := hroots r hr
      have h2 := hrlt r hr
      rw [hrl]
      simp only [List.length_map, List.length_range]
      omega)
    simp only [hupd]
    exact ⟨_, _, rfl⟩

/-- `pop_barrier` has no defined result when `CompactLocalGarbage` has none. -/
theorem pop_of_compact_none (E : Env) (localState : L1IRLocalState) (start : Nat)
    (barriers roots : List Nat) (hb : localState.gcBarriers = start :: barriers)
    (hstart : start ≤ localState.slots.length) (hlen : localState.slots.length < 65536)
    (h : CompactLocalGarbage E localState.slots start localState.slots.length roots = none) :
    L1IRGlobalStatePopGCBarrier E localState roots = none := by
  have hmods : start % 65536 = start := Nat.mod_eq_of_lt (by omega)
  have hmodc : localState.slots.length % 65536 = localState.slots.length := Nat.mod_eq_of_lt hlen
  simp only [L1IRGlobalStatePopGCBarrier, hb, hmods, hmodc, h]

/-- What `pop_barrier` returns when `CompactLocalGarbage` has a result: the first
`finalSlotCount` slots, the rest of the barrier stack and the updated roots. -/
theorem pop_of_compact_some (E : Env) (localState : L1IRLocalState) (start : Nat)
    (barriers roots : List Nat) (slots3 : List L1IRSlot) (roots1 : List Nat) (c : Nat)
    (hb : localState.gcBarriers = start :: barriers)
    (hstart : start ≤ localState.slots.length) (hlen : localState.slots.length < 65536)
    (h : CompactLocalGarbage E localState.slots start localState.slots.length roots =
      some (slots3, roots1, c))
    (hc : c ≤ slots3.length) :
    L1IRGlobalStatePopGCBarrier E localState roots =
      some ({ localState with slots := slots3.take c, gcBarriers := barriers }, roots1) := by
  have hmods : start % 65536 = start := Nat.mod_eq_of_lt (by omega)
  have hmodc : localState.slots.length % 65536 = localState.slots.length := Nat.mod_eq_of_lt hlen
  simp only [L1IRGlobalStatePopGCBarrier, hb, hmods, hmodc, h, hc, if_true]

/-- After the mark phase of `pop_barrier`, with the roots in `[start, length)`: when a
retained slot of the scanned range has a local-address operand outside that range there
is no defined result; when every such operand lies in the range there is one, and
`CompactLocalGarbage` yields the count of the mark phase. -/
theorem pop_of_markPhase (E : Env) (localState : L1IRLocalState) (start : Nat)
    (barriers roots : List Nat) (marked : List L1IRSlot) (maxUsed c : Nat)
    (hb : localState.gcBarriers = start :: barriers)
    (hstart : start ≤ localState.slots.length) (hlen : localState.slots.length < 65536)
    (hroots : ∀ r ∈ roots, start ≤ r ∧ r < localState.slots.length)
    (h : markPhase E localState.slots start localState.slots.length roots =
      some (marked, maxUsed, c)) :
    ((∃ i s j, start ≤ i ∧ i < maxUsed ∧ marked[i]? = some s ∧ retained E s = true ∧ j < 3 ∧
        E.SlotTypeArgumentIsLocalAddress s.type j = true ∧
        (L1IRExtractSlotOperand s j < start ∨ maxUsed ≤ L1IRExtractSlotOperand s j)) →
      L1IRGlobalStatePopGCBarrier E localState roots = none) ∧
    ((∀ i s, start ≤ i → i < maxUsed → marked[i]? = some s → retained E s = true →
        ∀ j, j < 3 → E.SlotTypeArgumentIsLocalAddress s.type j = true →
          start ≤ L1IRExtractSlotOperand s j ∧ L1IRExtractSlotOperand s j < maxUsed) →
      ∃ slots3 roots1,
        CompactLocalGarbage E localState.slots start localState.slots.length roots =
          some (slots3, roots1, c) ∧
        slots3.length = localState.slots.length ∧
        L1IRGlobalStatePopGCBarrier E localState roots =
          some ({ localState with slots := slots3.take c, gcBarriers := barriers }, roots1)) := by
  constructor
  · rintro ⟨i, s, j, h1, h2, hs, hret, hj, hla, hop⟩
    exact pop_of_compact_none E localState start barriers roots hb hstart hlen
      (compact_none_of_operand_outside E localState.slots marked start _ roots maxUsed c h i j s
        h1 h2 hs hret hj hla hop)
  · intro hin
    obtain ⟨slots3, roots1, hcompact⟩ := compact_some_of_operands_inside E localState.slots
      marked start _ roots maxUsed c h hstart le_rfl (fun r hr => (hroots r hr).1) hin
    obtain ⟨_, _, _, _, _, hmax, hlen3, _, _, hc, _⟩ := compact_result E localState.slots
      slots3 start localState.slots.length roots roots1 c hcompact hstart
      (fun r hr => (hroots r hr).1)
    exact ⟨slots3, roots1, hcompact, hlen3,
      pop_of_compact_some E localState start barriers roots slots3 roots1 c hb hstart hlen
        hcompact (by omega)⟩

/-! ### The mark phase and reachability -/

/-- The two loops behind a result of the mark phase. -/
theorem markPhase_loops (E : Env) (slots marked : List L1IRSlot) (slotStart slotCount : Nat)
    (roots : List Nat) (maxUsed c : Nat)
    (h : markPhase E slots slotStart slotCount roots = some (marked, maxUsed, c)) :
    ∃ slots1, markRoots slotCount slots slotStart roots = some (slots1, maxUsed) ∧
      ((maxUsed = slotStart ∧ marked = slots1 ∧ c = slotStart) ∨
       (maxUsed ≠ slotStart ∧
        propagateMarks E slotStart (maxUsed - slotStart) slots1 slotStart = some (marked, c))) := by
  unfold markPhase at h
  cases hmark : markRoots slotCount slots slotStart roots with
  | none => simp [hmark] at h
  | some res1 =>
    obtain ⟨slots1, m⟩ := res1
    simp only [hmark] at h
    by_cases heq : m = slotStart
    · simp only [heq, if_true, Option.some.injEq, Prod.mk.injEq] at h
      obtain ⟨rfl, rfl, rfl⟩ := h
      exact ⟨_, by rw [heq], Or.inl ⟨rfl, rfl, rfl⟩⟩
    · simp only [heq, if_false] at h
      cases hprop : propagateMarks E slotStart (m - slotStart) slots1 slotStart with
      | none => simp [hprop] at h
      | some res2 =>
        obtain ⟨slots2, cm⟩ := res2
        simp only [hprop, Option.some.injEq, Prod.mk.injEq] at h
        obtain ⟨rfl, rfl, rfl⟩ := h
        exact ⟨_, rfl, Or.inr ⟨heq, hprop⟩⟩

/-- After the mark phase, a local-address operand at or above `slotStart` of a marked
slot above `slotStart` is marked. -/
theorem marked_operand_is_marked (E : Env) (slots slots1 slots2 : List L1IRSlot)
    (slotStart slotCount : Nat) (roots : List Nat) (maxUsed c : Nat)
    (hmark : markRoots slotCount slots slotStart roots = some (slots1, maxUsed))
    (hprop : propagateMarks E slotStart (maxUsed - slotStart) slots1 slotStart = some (slots2, c))
    (hzero : ∀ x s, slotStart ≤ x → slots[x]? = some s → s.annotation = false)
    (himp : ∀ x s, slotStart ≤ x → slots[x]? = some s → E.IsImplicitRoot s.type = false)
    (hback : backwardOperands E slots slotStart slots.length)
    (a : Nat) (t s : L1IRSlot) (o : Nat) (ha : slotStart ≤ a) (ht : slots2[a]? = some t)
    (hbit : t.annotation = true) (hs : slots[a]? = some s) (ho : o ∈ operandTargets E s)
    (hge : slotStart ≤ o) :
    ∃ tx, slots2[o]? = some tx ∧ tx.annotation = true := by
  have hM1 := markRoots_onlyMarks hmark
  have hM2 := propagateMarks_onlyMarks hprop
  have hM := onlyMarks_trans hM1 hM2
  obtain ⟨j, hj, hla, hop⟩ := (mem_operandTargets E s o).mp ho
  obtain ⟨t', ht', hat⟩ := hM.2 a s hs
  rw [ht] at ht'
  cases ht'
  obtain ⟨halt, _⟩ := marked_is_reachable E slots slots1 slots2 slotStart slotCount roots maxUsed
    c hmark hprop hzero himp hback (slots.length - a) a t le_rfl ha ht hbit
  have hlat : E.SlotTypeArgumentIsLocalAddress t.type j = true := by
    rw [annotates_type hat]
    exact hla
  have hopt : L1IRExtractSlotOperand t j = o := by
    rw [annotates_operand hat]
    exact hop
  have hb1 : backwardOperands E slots1 slotStart (slotStart + (maxUsed - slotStart)) := by
    have : slotStart + (maxUsed - slotStart) = maxUsed := by omega
    rw [this]
    exact backwardOperands_onlyMarks hM1 (backwardOperands_mono hback (by
      have := (List.getElem?_eq_some_iff.mp hs).1
      by_contra hcon
      have hh : slots.length < maxUsed := by omega
      obtain ⟨_, _, _, _, hk⟩ := propagateMarks_frame E slotStart (maxUsed - slotStart) slots1
        slots2 slotStart c hprop
      have := hk (by omega)
      rw [hM1.1] at this
      omega))
  obtain ⟨tx, htx, hbx⟩ := propagateMarks_closure E slotStart (maxUsed - slotStart) slots1 slots2
    slotStart c hb1 hprop a t ha (by omega) ht (by simp [retained, hbit]) j hj hlat
    (by rw [hopt]; exact hge)
  rw [hopt] at htx
  exact ⟨tx, htx, hbx⟩

/-- After the mark phase, with all operands pointing to lower indices, every slot at or
above `slotStart` that is reachable from a marked slot is marked. -/
theorem reachable_is_marked_backward (E : Env) (slots slots1 slots2 : List L1IRSlot)
    (slotStart slotCount : Nat) (roots : List Nat) (maxUsed c : Nat)
    (hmark : markRoots slotCount slots slotStart roots = some (slots1, maxUsed))
    (hprop : propagateMarks E slotStart (maxUsed - slotStart) slots1 slotStart = some (slots2, c))
    (hzero : ∀ x s, slotStart ≤ x → slots[x]? = some s → s.annotation = false)
    (himp : ∀ x s, slotStart ≤ x → slots[x]? = some s → E.IsImplicitRoot s.type = false)
    (hback : backwardOperands E slots 0 slots.length) :
    ∀ (f a x : Nat) (t : L1IRSlot), slotStart ≤ x → slotStart ≤ a → slots2[a]? = some t →
      t.annotation = true → reaches E slots f a x = true →
      ∃ tx, slots2[x]? = some tx ∧ tx.annotation = true := by
  have hsuffix : backwardOperands E slots slotStart slots.length :=
    fun i s _ h2 hs j hj hla => hback i s (Nat.zero_le _) h2 hs j hj hla
  intro f
  induction f with
  | zero =>
    intro a x t _ ha ht hbit hr
    simp [reaches] at hr
    subst hr
    exact ⟨t, ht, hbit⟩
  | succ f ih =>
    intro a x t hx ha ht hbit hr
    rw [reaches] at hr
    simp only [Bool.or_eq_true, decide_eq_true_eq] at hr
    rcases hr with hr | hr
    · subst hr
      exact ⟨t, ht, hbit⟩
    · cases hs : slots[a]? with
      | none => simp [hs] at hr
      | some s =>
        simp only [hs, List.any_eq_true] at hr
        obtain ⟨o, ho, hro⟩ := hr
        have hxo := reaches_le E slots hback f o x hro
        obtain ⟨t2, hto, hbo⟩ := marked_operand_is_marked E slots slots1 slots2 slotStart
          slotCount roots maxUsed c hmark hprop hzero himp hsuffix a t s o ha ht hbit hs ho
          (by omega)
        exact ih o x t2 hx (by omega) hto hbo hro

/-- The mark phase marks exactly the reachable slots: for a store whose annotation bits
from `slotStart` on are clear, without implicit-root slots from `slotStart` on, with all
operands pointing to lower indices and the roots in `[slotStart, length)`, a slot at or
above `slotStart` is marked after the mark phase exactly when it is reachable from the
roots, and every such slot lies below `maxUsedSlotCount`. -/
theorem markPhase_marks_reachable (E : Env) (slots marked : List L1IRSlot) (slotStart : Nat)
    (roots : List Nat) (maxUsed c : Nat)
    (h : markPhase E slots slotStart slots.length roots = some (marked, maxUsed, c))
    (hroots : ∀ r ∈ roots, slotStart ≤ r ∧ r < slots.length)
    (hzero : ∀ x s, slotStart ≤ x → slots[x]? = some s → s.annotation = false)
    (himp : ∀ x s, slotStart ≤ x → slots[x]? = some s → E.IsImplicitRoot s.type = false)
    (hback : backwardOperands E slots 0 slots.length) :
    ∀ x, slotStart ≤ x →
      (reachable E slots roots x = true ↔ ∃ t, marked[x]? = some t ∧ t.annotation = true) ∧
      (reachable E slots roots x = true → x < maxUsed) := by
  have hsuffix : backwardOperands E slots slotStart slots.length :=
    fun i s _ h2 hs j hj hla => hback i s (Nat.zero_le _) h2 hs j hj hla
  obtain ⟨slots1, hmark, hcase⟩ := markPhase_loops E slots marked slotStart slots.length roots
    maxUsed c h
  obtain ⟨_, hrm, _⟩ := markRoots_annotates slots.length roots slots slots1 slotStart maxUsed hmark
  have hM1 := markRoots_onlyMarks hmark
  rcases hcase with ⟨heq, rfl, _⟩ | ⟨hne, hprop⟩
  · have hnil : roots = [] := by
      cases roots with
      | nil => rfl
      | cons r rest =>
        obtain ⟨h1, h2⟩ := hroots r (List.mem_cons_self _ _)
        obtain ⟨h3, _⟩ := hrm r slots[r] (List.mem_cons_self _ _) (List.getElem?_eq_getElem h2)
        omega
    subst hnil
    simp only [markRoots, Option.some.injEq, Prod.mk.injEq] at hmark
    obtain ⟨rfl, _⟩ := hmark
    intro x hx
    simp only [reachable_nil, Bool.false_eq_true, false_iff, false_implies, and_true, not_exists,
      not_and]
    intro t ht hbit
    rw [hzero x t hx ht] at hbit
    cases hbit
  · have hM2 := propagateMarks_onlyMarks hprop
    have hA := marked_is_reachable E slots slots1 marked slotStart slots.length roots maxUsed c
      hmark hprop hzero himp hsuffix
    have hB := reachable_is_marked_backward E slots slots1 marked slotStart slots.length roots
      maxUsed c hmark hprop hzero himp hback
    have hfwd : ∀ x, slotStart ≤ x → reachable E slots roots x = true →
        ∃ t, marked[x]? = some t ∧ t.annotation = true := by
      intro x hx hr
      simp only [reachable, List.any_eq_true] at hr
      obtain ⟨r, hrmem, hreach⟩ := hr
      obtain ⟨h1, h2⟩ := hroots r hrmem
      obtain ⟨_, s1, hs1, has1, hb1⟩ := hrm r slots[r] hrmem (List.getElem?_eq_getElem h2)
      obtain ⟨s2, hs2, has2⟩ := hM2.2 r s1 hs1
      exact hB slots.length r x s2 hx h1 hs2 (annotates_bit has2 hb1) hreach
    intro x hx
    refine ⟨⟨hfwd x hx, ?_⟩, ?_⟩
    · rintro ⟨t, ht, hbit⟩
      obtain ⟨_, r, hrmem, hxr, hreach⟩ := hA (slots.length - x) x t le_rfl hx ht hbit
      simp only [reachable, List.any_eq_true]
      refine ⟨r, hrmem, ?_⟩
      have h2 := (hroots r hrmem).2
      have := reaches_mono E slots (r - x) (slots.length - (r - x)) r x hreach
      have he : r - x + (slots.length - (r - x)) = slots.length := by omega
      rw [he] at this
      exact this
    · intro hr
      obtain ⟨t, ht, hbit⟩ := hfwd x hx hr
      exact (hA (slots.length - x) x t le_rfl hx ht hbit).1

/-! ### The claims about the collector -/

/-- `CompactLocalGarbage` has no defined result when its mark phase has none. -/
theorem compact_none_of_markPhase_none (E : Env) (slots : List L1IRSlot)
    (slotStart slotCount : Nat) (roots : List Nat)
    (h : markPhase E slots slotStart slotCount roots = none) :
    CompactLocalGarbage E slots slotStart slotCount roots = none := by
  unfold markPhase at h
  unfold CompactLocalGarbage
  cases hmark : markRoots slotCount slots slotStart roots with
  | none => rfl
  | some res1 =>
    obtain ⟨slots1, m⟩ := res1
    simp only [hmark] at h ⊢
    by_cases heq : m = slotStart
    · simp [heq] at h
    · simp only [heq, if_false] at h ⊢
      cases hprop : propagateMarks E slotStart (m - slotStart) slots1 slotStart with
      | none => rfl
      | some res2 => simp [hprop] at h

/-- C17 (GC floor), what the code does for every local store of fewer than 65536 slots
with a pushed barrier at `start` and roots that all satisfy `start ≤ r < slots.length`.
The mark phase (the loops "Mark roots" and "Propagate retain marks") has a result when
the local-address operands above the barrier are addresses of slots, and it leaves every
slot below `start` unchanged in all five fields, also when operands point below `start`.
Then `pop_barrier(roots)` has no defined result when a retained slot of the scanned range
`[start, maxUsed)` has a local-address operand outside that range, in particular below
`start`: the compaction loop looks it up outside the remapping table. In every other
case `pop_barrier(roots)` has a result, every slot below `start` is unchanged in all five
fields, and the new length is at least `start` and at most the length before. -/
theorem gc_floor (E : Env) (localState : L1IRLocalState) (start : Nat)
    (barriers roots : List Nat) (hb : localState.gcBarriers = start :: barriers)
    (hstart : start ≤ localState.slots.length) (hlen : localState.slots.length < 65536)
    (hroots : ∀ r ∈ roots, start ≤ r ∧ r < localState.slots.length) :
    ((∀ i s, start ≤ i → localState.slots[i]? = some s →
        ∀ j, j < 3 → E.SlotTypeArgumentIsLocalAddress s.type j = true →
          L1IRExtractSlotOperand s j < localState.slots.length) →
      ∃ marked maxUsed finalSlotCount,
        markPhase E localState.slots start localState.slots.length roots =
          some (marked, maxUsed, finalSlotCount)) ∧
    (markPhase E localState.slots start localState.slots.length roots = none →
      L1IRGlobalStatePopGCBarrier E localState roots = none) ∧
    ∀ marked maxUsed finalSlotCount,
      markPhase E localState.slots start localState.slots.length roots =
        some (marked, maxUsed, finalSlotCount) →
      (∀ x, x < start → marked[x]? = localState.slots[x]?) ∧
      ((∃ i s j, start ≤ i ∧ i < maxUsed ∧ marked[i]? = some s ∧ retained E s = true ∧ j < 3 ∧
          E.SlotTypeArgumentIsLocalAddress s.type j = true ∧
          (L1IRExtractSlotOperand s j < start ∨ maxUsed ≤ L1IRExtractSlotOperand s j)) →
        L1IRGlobalStatePopGCBarrier E localState roots = none) ∧
      ((∀ i s, start ≤ i → i < maxUsed → marked[i]? = some s → retained E s = true →
          ∀ j, j < 3 → E.SlotTypeArgumentIsLocalAddress s.type j = true →
            start ≤ L1IRExtractSlotOperand s j ∧ L1IRExtractSlotOperand s j < maxUsed) →
        ∃ localState1 roots1,
          L1IRGlobalStatePopGCBarrier E localState roots = some (localState1, roots1) ∧
          (∀ x, x < start → localState1.slots[x]? = localState.slots[x]?) ∧
          start ≤ localState1.slots.length ∧
          localState1.slots.length ≤ localState.slots.length) := by
  refine ⟨?_, ?_, ?_⟩
  · intro haddr
    exact markPhase_isSome E localState.slots start localState.slots.length roots hstart le_rfl
      (fun r hr => (hroots r hr).2) haddr
  · intro hnone
    exact pop_of_compact_none E localState start barriers roots hb hstart hlen
      (compact_none_of_markPhase_none E _ _ _ _ hnone)
  · intro marked maxUsed c hphase
    obtain ⟨_, hc1, hc2, hmax, _, hfloor⟩ := markPhase_frame E localState.slots marked start
      localState.slots.length roots maxUsed c hphase hstart
    obtain ⟨hbad, hgood⟩ := pop_of_markPhase E localState start barriers roots marked maxUsed c
      hb hstart hlen hroots hphase
    refine ⟨hfloor (fun r hr => (hroots r hr).1), hbad, ?_⟩
    intro hin
    obtain ⟨slots3, roots1, hcompact, hlen3, hpop⟩ := hgood hin
    obtain ⟨_, _, _, _, _, _, _, hbelow, _⟩ := compact_result E localState.slots slots3 start
      localState.slots.length roots roots1 c hcompact hstart (fun r hr => (hroots r hr).1)
    refine ⟨_, roots1, hpop, ?_, ?_, ?_⟩
    · intro x hx
      show (slots3.take c)[x]? = _
      rw [List.getElem?_take_of_lt (by omega)]
      exact hbelow x hx
    · show start ≤ (slots3.take c).length
      rw [List.length_take]
      omega
    · show (slots3.take c).length ≤ _
      rw [List.length_take]
      omega

/-- C17 at the store `belowBarrierStore` with the root 1, whose slot refers below the
barrier: the mark phase marks the root and leaves slot 0 unchanged, `pop_barrier` has no
defined result; and at the store `backwardStore` with the root 3, whose operands stay
above the barrier: `pop_barrier` has a result, the slot below the barrier is unchanged
and the length lies between 1 and 4 (it is 3). -/
theorem gc_floor_witness :
    (markPhase exampleEnv belowBarrierStore.slots 1 belowBarrierStore.slots.length [1] =
        some ([intSlot, { L1IRMakeSlot .Lambda 0 0 0 with annotation := true }], 2, 2) ∧
      markPhase exampleEnv backwardStore.slots 1 backwardStore.slots.length [3] =
        some ([intSlot, { intSlot with annotation := true }, L1IRMakeSlot (.Other 1) 0 0 0,
          { L1IRMakeSlot .Lambda 1 0 0 with annotation := true }], 4, 3) ∧
      L1IRGlobalStatePopGCBarrier exampleEnv backwardStore [3] =
        some ({ slots := [intSlot, intSlot, L1IRMakeSlot .Lambda 1 0 0], gcBarriers := [],
                callDepth := 0 }, [2])) ∧
    (∀ x, x < 1 →
      [intSlot, { L1IRMakeSlot .Lambda 0 0 0 with annotation := true }][x]? =
        belowBarrierStore.slots[x]?) ∧
    L1IRGlobalStatePopGCBarrier exampleEnv belowBarrierStore [1] = none ∧
    (∃ localState1 roots1,
      L1IRGlobalStatePopGCBarrier exampleEnv backwardStore [3] = some (localState1, roots1) ∧
      (∀ x, x < 1 → localState1.slots[x]? = backwardStore.slots[x]?) ∧
      1 ≤ localState1.slots.length ∧
      localState1.slots.length ≤ backwardStore.slots.length) :=
  ⟨by decide,
    ((gc_floor exampleEnv belowBarrierStore 1 [] [1] rfl (by decide) (by decide)
      (by decide)).2.2
        [intSlot, { L1IRMakeSlot .Lambda 0 0 0 with annotation := true }] 2 2 (by decide)).1,
    ((gc_floor exampleEnv belowBarrierStore 1 [] [1] rfl (by decide) (by decide)
      (by decide)).2.2
        [intSlot, { L1IRMakeSlot .Lambda 0 0 0 with annotation := true }] 2 2 (by decide)).2.1
      ⟨1, { L1IRMakeSlot .Lambda 0 0 0 with annotation := true }, 0, by decide, by decide,
        by decide, by decide, by decide, by decide, Or.inl (by decide)⟩,
    ((gc_floor exampleEnv backwardStore 1 [] [3] rfl (by decide) (by decide)
      (by decide)).2.2
        [intSlot, { intSlot with annotation := true }, L1IRMakeSlot (.Other 1) 0 0 0,
          { L1IRMakeSlot .Lambda 1 0 0 with annotation := true }] 4 3 (by decide)).2.2
      (fun i s h1 h2 hs _ j hj hla =>
        ⟨(checkOperands_sound exampleEnv
            [intSlot, { intSlot with annotation := true }, L1IRMakeSlot (.Other 1) 0 0 0,
              { L1IRMakeSlot .Lambda 1 0 0 with annotation := true }] 1 1 (by decide) i s h1 hs
            j hj hla).1,
          Nat.lt_trans (checkOperands_sound exampleEnv
            [intSlot, { intSlot with annotation := true }, L1IRMakeSlot (.Other 1) 0 0 0,
              { L1IRMakeSlot .Lambda 1 0 0 with annotation := true }] 1 1 (by decide) i s h1 hs
            j hj hla).2 h2⟩)⟩

/-- C20 (mark and compact phases agree), what the loops of `CompactLocalGarbage` do for
every slot array, `slotStart ≤ slotCount` within the array and roots below `slotCount`.
The loop "Mark roots" has a result; whenever every local-address operand of every slot in
`[slotStart, maxUsedSlotCount)` is below `slotStart` or strictly below the index of the
slot holding it, the loop "Propagate retain marks" has a result with a count
`finalSlotCount`. Then, when a retained slot of that range has a local-address operand
below `slotStart`, the compaction loop has no defined result (it looks the operand up
before the remapping table), so `finalSlotIndex` does not exist; when no retained slot
has such an operand, the compaction loop has a result and `finalSlotCount` equals
`finalSlotIndex`, the position after the last slot it writes. And for the slots
`forwardSlots`, which have a forward-pointing operand, the two counts differ (3 and
4). -/
theorem mark_and_compact_counts_agree :
    (∀ (E : Env) (slots : List L1IRSlot) (slotStart slotCount : Nat) (roots : List Nat),
      slotStart ≤ slotCount → slotCount ≤ slots.length → (∀ r ∈ roots, r < slotCount) →
      ∃ slots1 maxUsed,
        markRoots slotCount slots slotStart roots = some (slots1, maxUsed) ∧
        ((∀ i s, slotStart ≤ i → i < maxUsed → slots[i]? = some s →
            ∀ j, j < 3 → E.SlotTypeArgumentIsLocalAddress s.type j = true →
              L1IRExtractSlotOperand s j < slotStart ∨ L1IRExtractSlotOperand s j < i) →
          ∃ slots2 finalSlotCount,
            propagateMarks E slotStart (maxUsed - slotStart) slots1 slotStart =
              some (slots2, finalSlotCount) ∧
            ((∃ i s j, slotStart ≤ i ∧ i < maxUsed ∧ slots2[i]? = some s ∧
                retained E s = true ∧ j < 3 ∧
                E.SlotTypeArgumentIsLocalAddress s.type j = true ∧
                L1IRExtractSlotOperand s j < slotStart) →
              compactSlots E slotStart (maxUsed - slotStart) slotStart slots2
                ((List.range (maxUsed - slotStart)).map E.uninitialized) slotStart = none) ∧
            ((∀ i s, slotStart ≤ i → i < maxUsed → slots2[i]? = some s →
                retained E s = true →
                ∀ j, j < 3 → E.SlotTypeArgumentIsLocalAddress s.type j = true →
                  slotStart ≤ L1IRExtractSlotOperand s j) →
              ∃ slots3 remap finalSlotIndex,
                compactSlots E slotStart (maxUsed - slotStart) slotStart slots2
                  ((List.range (maxUsed - slotStart)).map E.uninitialized) slotStart =
                  some (slots3, remap, finalSlotIndex) ∧
                finalSlotCount = finalSlotIndex))) ∧
    (∃ slots1 slots2 slots3 remap,
      markRoots 4 forwardSlots 1 [3] = some (slots1, 4) ∧
      propagateMarks exampleEnv 1 (4 - 1) slots1 1 = some (slots2, 3) ∧
      compactSlots exampleEnv 1 (4 - 1) 1 slots2
        ((List.range (4 - 1)).map exampleEnv.uninitialized) 1 = some (slots3, remap, 4)) := by
  constructor
  · intro E slots slotStart slotCount roots hstart hcount hroots
    obtain ⟨⟨slots1, maxUsed⟩, hmark⟩ := markRoots_isSome slotCount roots slots slotStart hcount
      hroots
    refine ⟨slots1, maxUsed, hmark, ?_⟩
    intro hcond
    obtain ⟨hlen1, _, _, hmax, _⟩ :=
      markRoots_frame slotCount roots slots slots1 slotStart maxUsed hmark
    obtain ⟨_, _, hge⟩ := markRoots_annotates slotCount roots slots slots1 slotStart maxUsed hmark
    have hmaxc := hmax hstart
    have hb : backwardOperands E slots slotStart maxUsed := by
      intro i s h1 h2 hs j hj hla
      rcases hcond i s h1 h2 hs j hj hla with h | h
      · omega
      · exact h
    have hsum : slotStart + (maxUsed - slotStart) = maxUsed := by omega
    have hb1 : backwardOperands E slots1 slotStart (slotStart + (maxUsed - slotStart)) := by
      rw [hsum]
      exact backwardOperands_onlyMarks (markRoots_onlyMarks hmark) hb
    obtain ⟨⟨slots2, c⟩, hprop⟩ := propagateMarks_isSome E slotStart (maxUsed - slotStart) slots1
      slotStart (by omega) hb1
    have hM2 := propagateMarks_onlyMarks hprop
    have hb2 : backwardOperands E slots2 slotStart maxUsed := by
      rw [hsum] at hb1
      exact backwardOperands_onlyMarks hM2 hb1
    refine ⟨slots2, c, hprop, ?_, ?_⟩
    · rintro ⟨i, s, j, h1, h2, hs, hret, hj, hla, hop⟩
      exact compactSlots_retained_operand_outside E slotStart i j s hj hret hla
        (maxUsed - slotStart) slotStart slots2 _ slotStart le_rfl h1 (by omega) hs (Or.inl hop)
    · intro hin
      obtain ⟨⟨slots3, remap, idx⟩, hcomp⟩ := compactSlots_isSome_retained E slotStart
        (maxUsed - slotStart) slotStart slots2
        ((List.range (maxUsed - slotStart)).map E.uninitialized) slotStart le_rfl le_rfl
        (by rw [hM2.1, hlen1]; omega)
        (fun x s h1 h2 hs hret j hj hla => by
          refine ⟨hin x s h1 (by omega) hs hret j hj hla, ?_⟩
          have := hb2 x s h1 (by omega) hs j hj hla
          simp only [List.length_map, List.length_range]
          omega)
      refine ⟨slots3, remap, idx, hcomp, ?_⟩
      obtain ⟨_, hc⟩ := propagateMarks_count E slotStart (maxUsed - slotStart) slots1 slots2
        slotStart c hb1 hprop
      obtain ⟨_, _, hidx, _⟩ := compactSlots_frame E slotStart (maxUsed - slotStart) slotStart
        slots2 slots3 _ remap slotStart idx le_rfl hcomp
      rw [hc, hidx]
  · exact ⟨[intSlot, L1IRMakeSlot .Lambda 2 0 0, intSlot,
        { L1IRMakeSlot .Lambda 1 0 0 with annotation := true }],
      [intSlot, { L1IRMakeSlot .Lambda 2 0 0 with annotation := true },
        { intSlot with annotation := true },
        { L1IRMakeSlot .Lambda 1 0 0 with annotation := true }],
      [intSlot, L1IRMakeSlot .Lambda 0 0 0, intSlot, L1IRMakeSlot .Lambda 1 0 0],
      [1, 2, 3], by decide, by decide, by decide⟩

/-- C20 at the slots of `belowBarrierStore` with `slotStart = 1` and the root 1, whose
slot refers below `slotStart`: the mark loops count 2 and the compaction loop has no
defined result; and at the slots of `backwardStore` with the root 3: the compaction loop
has a result and both counts are 3. -/
theorem mark_and_compact_counts_agree_witness :
    (markRoots 2 belowBarrierStore.slots 1 [1] =
        some ([intSlot, { L1IRMakeSlot .Lambda 0 0 0 with annotation := true }], 2) ∧
      propagateMarks exampleEnv 1 (2 - 1)
        [intSlot, { L1IRMakeSlot .Lambda 0 0 0 with annotation := true }] 1 =
        some ([intSlot, { L1IRMakeSlot .Lambda 0 0 0 with annotation := true }], 2) ∧
      markRoots 4 backwardStore.slots 1 [3] =
        some ([intSlot, intSlot, L1IRMakeSlot (.Other 1) 0 0 0,
          { L1IRMakeSlot .Lambda 1 0 0 with annotation := true }], 4) ∧
      propagateMarks exampleEnv 1 (4 - 1)
        [intSlot, intSlot, L1IRMakeSlot (.Other 1) 0 0 0,
          { L1IRMakeSlot .Lambda 1 0 0 with annotation := true }] 1 =
        some ([intSlot, { intSlot with annotation := true }, L1IRMakeSlot (.Other 1) 0 0 0,
          { L1IRMakeSlot .Lambda 1 0 0 with annotation := true }], 3) ∧
      compactSlots exampleEnv 1 (4 - 1) 1
        [intSlot, { intSlot with annotation := true }, L1IRMakeSlot (.Other 1) 0 0 0,
          { L1IRMakeSlot .Lambda 1 0 0 with annotation := true }]
        ((List.range (4 - 1)).map exampleEnv.uninitialized) 1 =
        some ([intSlot, intSlot, L1IRMakeSlot .Lambda 1 0 0,
          { L1IRMakeSlot .Lambda 1 0 0 with annotation := true }], [1, 65535, 2], 3)) ∧
    compactSlots exampleEnv 1 (2 - 1) 1
      [intSlot, { L1IRMakeSlot .Lambda 0 0 0 with annotation := true }]
      ((List.range (2 - 1)).map exampleEnv.uninitialized) 1 = none ∧
    (∃ slots3 remap finalSlotIndex,
      compactSlots exampleEnv 1 (4 - 1) 1
        [intSlot, { intSlot with annotation := true }, L1IRMakeSlot (.Other 1) 0 0 0,
          { L1IRMakeSlot .Lambda 1 0 0 with annotation := true }]
        ((List.range (4 - 1)).map exampleEnv.uninitialized) 1 =
        some (slots3, remap, finalSlotIndex) ∧
      3 = finalSlotIndex) := by
  refine ⟨by decide, ?_, ?_⟩
  · obtain ⟨slots1, maxUsed, hmark, hrest⟩ := mark_and_compact_counts_agree.1 exampleEnv
      belowBarrierStore.slots 1 2 [1] (by decide) (by decide) (by decide)
    have hm : markRoots 2 belowBarrierStore.slots 1 [1] =
        some ([intSlot, { L1IRMakeSlot .Lambda 0 0 0 with annotation := true }], 2) := by decide
    rw [hm] at hmark
    simp only [Option.some.injEq, Prod.mk.injEq] at hmark
    obtain ⟨rfl, rfl⟩ := hmark
    obtain ⟨slots2, c, hprop, hbad, _⟩ := hrest (fun i s h1 _ hs j hj hla =>
      Or.inr (checkOperands_sound exampleEnv belowBarrierStore.slots 1 0 (by decide) i s h1 hs j
        hj hla).2)
    have hp : propagateMarks exampleEnv 1 (2 - 1)
        [intSlot, { L1IRMakeSlot .Lambda 0 0 0 with annotation := true }] 1 =
        some ([intSlot, { L1IRMakeSlot .Lambda 0 0 0 with annotation := true }], 2) := by decide
    rw [hp] at hprop
    simp only [Option.some.injEq, Prod.mk.injEq] at hprop
    obtain ⟨rfl, rfl⟩ := hprop
    exact hbad ⟨1, { L1IRMakeSlot .Lambda 0 0 0 with annotation := true }, 0, by decide,
      by decide, by decide, by decide, by decide, by decide, by decide⟩
  · obtain ⟨slots1, maxUsed, hmark, hrest⟩ := mark_and_compact_counts_agree.1 exampleEnv
      backwardStore.slots 1 4 [3] (by decide) (by decide) (by decide)
    have hm : markRoots 4 backwardStore.slots 1 [3] =
        some ([intSlot, intSlot, L1IRMakeSlot (.Other 1) 0 0 0,
          { L1IRMakeSlot .Lambda 1 0 0 with annotation := true }], 4) := by decide
    rw [hm] at hmark
    simp only [Option.some.injEq, Prod.mk.injEq] at hmark
    obtain ⟨rfl, rfl⟩ := hmark
    obtain ⟨slots2, c, hprop, _, hgood⟩ := hrest (fun i s h1 _ hs j hj hla =>
      Or.inr (checkOperands_sound exampleEnv backwardStore.slots 1 0 (by decide) i s h1 hs j hj
        hla).2)
    have hp : propagateMarks exampleEnv 1 (4 - 1)
        [intSlot, intSlot, L1IRMakeSlot (.Other 1) 0 0 0,
          { L1IRMakeSlot .Lambda 1 0 0 with annotation := true }] 1 =
        some ([intSlot, { intSlot with annotation := true }, L1IRMakeSlot (.Other 1) 0 0 0,
          { L1IRMakeSlot .Lambda 1 0 0 with annotation := true }], 3) := by decide
    rw [hp] at hprop
    simp only [Option.some.injEq, Prod.mk.injEq] at hprop
    obtain ⟨rfl, rfl⟩ := hprop
    exact hgood (fun i s h1 _ hs _ j hj hla =>
      (checkOperands_sound exampleEnv
        [intSlot, { intSlot with annotation := true }, L1IRMakeSlot (.Other 1) 0 0 0,
          { L1IRMakeSlot .Lambda 1 0 0 with annotation := true }] 1 1 (by decide) i s h1 hs j hj
        hla).1)

/-- C11 (stable compaction), what the code does for every local store of fewer than 65536
slots with a pushed barrier at `start`, roots in `[start, slots.length)` and operands of
the slots above the barrier that point to lower indices. The mark phase has a result
(`marked`: the pre-GC slots with their marks, scanned range `[start, maxUsed)` where
`maxUsed` is the highest root plus one); retained means marked or of an implicit-root
type. When a retained slot of the scanned range has a local-address operand below
`start`, `pop_barrier(roots)` has no defined result. Otherwise it has a result and the
post-GC suffix `slots[start..new length)` consists of exactly the retained slots of the
scanned range, rebuilt, in their original order, without gaps or duplicates, so the
sequences of slot types are equal; and the sequence of slot types of the post-GC suffix
equals that of the retained slots of the whole pre-GC suffix exactly when no slot at or
above `maxUsed` is retained: a retained slot above the highest root is dropped. -/
theorem stable_compaction (E : Env) (localState : L1IRLocalState) (start : Nat)
    (barriers roots : List Nat) (hb : localState.gcBarriers = start :: barriers)
    (hstart : start ≤ localState.slots.length) (hlen : localState.slots.length < 65536)
    (hroots : ∀ r ∈ roots, start ≤ r ∧ r < localState.slots.length)
    (hback : backwardOperands E localState.slots start localState.slots.length) :
    ∃ marked maxUsed finalSlotCount,
      markPhase E localState.slots start localState.slots.length roots =
        some (marked, maxUsed, finalSlotCount) ∧
      onlyMarks localState.slots marked ∧
      ((∃ i s j, start ≤ i ∧ i < maxUsed ∧ marked[i]? = some s ∧ retained E s = true ∧ j < 3 ∧
          E.SlotTypeArgumentIsLocalAddress s.type j = true ∧
          L1IRExtractSlotOperand s j < start) →
        L1IRGlobalStatePopGCBarrier E localState roots = none) ∧
      ((∀ i s, start ≤ i → i < maxUsed → marked[i]? = some s → retained E s = true →
          ∀ j, j < 3 → E.SlotTypeArgumentIsLocalAddress s.type j = true →
            start ≤ L1IRExtractSlotOperand s j) →
        ∃ localState1 roots1,
          L1IRGlobalStatePopGCBarrier E localState roots = some (localState1, roots1) ∧
          List.Forall₂ (compactedFrom E)
            (((marked.drop start).take (maxUsed - start)).filter (retained E))
            (localState1.slots.drop start) ∧
          (localState1.slots.drop start).map L1IRSlot.type =
            (((marked.drop start).take (maxUsed - start)).filter (retained E)).map
              L1IRSlot.type ∧
          ((localState1.slots.drop start).map L1IRSlot.type =
              ((marked.drop start).filter (retained E)).map L1IRSlot.type ↔
            ∀ x s, maxUsed ≤ x → marked[x]? = some s → retained E s = false)) := by
  obtain ⟨marked, maxUsed, c, hphase⟩ := markPhase_isSome E localState.slots start
    localState.slots.length roots hstart le_rfl (fun r hr => (hroots r hr).2)
    (fun i s h1 hs j hj hla => by
      have hlt := (List.getElem?_eq_some_iff.mp hs).1
      have := hback i s h1 hlt hs j hj hla
      omega)
  obtain ⟨hM, hc1, hc2, hmax, _, _⟩ := markPhase_frame E localState.slots marked start
    localState.slots.length roots maxUsed c hphase hstart
  obtain ⟨hbad, hgood⟩ := pop_of_markPhase E localState start barriers roots marked maxUsed c
    hb hstart hlen hroots hphase
  have hbackM : backwardOperands E marked start localState.slots.length :=
    backwardOperands_onlyMarks hM hback
  refine ⟨marked, maxUsed, c, hphase, hM, ?_, ?_⟩
  · rintro ⟨i, s, j, h1, h2, hs, hret, hj, hla, hop⟩
    exact hbad ⟨i, s, j, h1, h2, hs, hret, hj, hla, Or.inl hop⟩
  · intro hin
    obtain ⟨slots3, roots1, hcompact, hlen3, hpop⟩ := hgood (fun i s h1 h2 hs hret j hj hla => by
      refine ⟨hin i s h1 h2 hs hret j hj hla, ?_⟩
      have := hbackM i s h1 (by omega) hs j hj hla
      omega)
    obtain ⟨marked', maxUsed', hphase', _, _, _, _, _, _, _, hout, hcount⟩ :=
      compact_result E localState.slots slots3 start localState.slots.length roots roots1 c
        hcompact hstart (fun r hr => (hroots r hr).1)
    rw [hphase] at hphase'
    simp only [Option.some.injEq, Prod.mk.injEq] at hphase'
    obtain ⟨rfl, rfl, _⟩ := hphase'
    have hc := hcount (backwardOperands_mono hback hmax)
    have hdrop : (slots3.take c).drop start =
        (slots3.drop start).take
          (((marked.drop start).take (maxUsed - start)).filter (retained E)).length := by
      rw [List.drop_take]
      congr 1
      omega
    rw [← hdrop] at hout
    have htypes := compactedFrom_types E _ _ hout
    refine ⟨_, roots1, hpop, hout, htypes, ?_⟩
    show ((slots3.take c).drop start).map L1IRSlot.type = _ ↔ _
    have hsplit : marked.drop start =
        (marked.drop start).take (maxUsed - start) ++ (marked.drop start).drop (maxUsed - start) :=
      (List.take_append_drop _ _).symm
    have hrest : ((marked.drop start).drop (maxUsed - start)).filter (retained E) = [] ↔
        ∀ x s, maxUsed ≤ x → marked[x]? = some s → retained E s = false := by
      rw [List.filter_eq_nil_iff]
      constructor
      · intro hall x s hx hs
        have hmem : s ∈ (marked.drop start).drop (maxUsed - start) := by
          rw [List.drop_drop]
          apply List.mem_iff_getElem?.mpr
          refine ⟨x - maxUsed, ?_⟩
          rw [List.getElem?_drop]
          have : start + (maxUsed - start) + (x - maxUsed) = x := by omega
          rw [this]
          exact hs
        have := hall s hmem
        simpa using this
      · intro habove s hs
        obtain ⟨n, hn⟩ := List.getElem?_of_mem hs
        rw [List.drop_drop, List.getElem?_drop] at hn
        have := habove _ s (by omega) hn
        simp [this]
    rw [htypes, ← hrest]
    constructor
    · intro heq
      have hl := congrArg List.length heq
      conv at hl => rhs; rw [hsplit, List.filter_append]
      simp only [List.length_map, List.length_append] at hl
      exact List.length_eq_zero.mp (by omega)
    · intro hnil
      conv_rhs => rw [hsplit, List.filter_append, hnil, List.append_nil]

/-- C11 in `effectEnv` at the store `effectStore` with the root 1, which lies below the
implicit-root slot at index 2: the scanned range is `[1, 2)`, `pop_barrier` has a result,
the post-GC suffix has the slot types `[Other 0]`, and these are not the slot types
`[Other 0, Other 9]` of the retained slots of the pre-GC suffix. And at the store
`belowBarrierStore` with the root 1, whose slot refers below the barrier, `pop_barrier`
has no defined result. -/
theorem stable_compaction_witness :
    (markPhase effectEnv effectStore.slots 1 effectStore.slots.length [1] =
        some ([intSlot, { intSlot with annotation := true }, effectSlot], 2, 2) ∧
      L1IRGlobalStatePopGCBarrier effectEnv effectStore [1] =
        some ({ slots := [intSlot, intSlot], gcBarriers := [], callDepth := 0 }, [1]) ∧
      ((([intSlot, { intSlot with annotation := true }, effectSlot].drop 1).filter
        (retained effectEnv)).map L1IRSlot.type) = [.Other 0, .Other 9] ∧
      markPhase exampleEnv belowBarrierStore.slots 1 belowBarrierStore.slots.length [1] =
        some ([intSlot, { L1IRMakeSlot .Lambda 0 0 0 with annotation := true }], 2, 2)) ∧
    (∃ localState1 roots1,
      L1IRGlobalStatePopGCBarrier effectEnv effectStore [1] = some (localState1, roots1) ∧
      (localState1.slots.drop 1).map L1IRSlot.type = [.Other 0] ∧
      (localState1.slots.drop 1).map L1IRSlot.type ≠
        (([intSlot, { intSlot with annotation := true }, effectSlot].drop 1).filter
          (retained effectEnv)).map L1IRSlot.type) ∧
    L1IRGlobalStatePopGCBarrier exampleEnv belowBarrierStore [1] = none := by
  refine ⟨by decide, ?_, ?_⟩
  · obtain ⟨marked, maxUsed, c, hphase, _, _, hgood⟩ := stable_compaction effectEnv effectStore
      1 [] [1] rfl (by decide) (by decide) (by decide)
      (checkOperands_backward effectEnv effectStore.slots 1 _ (by decide))
    have hm : markPhase effectEnv effectStore.slots 1 effectStore.slots.length [1] =
        some ([intSlot, { intSlot with annotation := true }, effectSlot], 2, 2) := by decide
    rw [hm] at hphase
    simp only [Option.some.injEq, Prod.mk.injEq] at hphase
    obtain ⟨rfl, rfl, rfl⟩ := hphase
    obtain ⟨localState1, roots1, hpop, _, htypes, hiff⟩ := hgood (fun i s h1 _ hs _ j hj hla =>
      (checkOperands_sound effectEnv [intSlot, { intSlot with annotation := true }, effectSlot]
        1 1 (by decide) i s h1 hs j hj hla).1)
    refine ⟨localState1, roots1, hpop, ?_, ?_⟩
    · rw [htypes]
      decide
    · intro heq
      have := hiff.mp heq 2 effectSlot (by decide) (by decide)
      revert this
      decide
  · obtain ⟨marked, maxUsed, c, hphase, _, hbad, _⟩ := stable_compaction exampleEnv
      belowBarrierStore 1 [] [1] rfl (by decide) (by decide) (by decide)
      (checkOperands_backward exampleEnv belowBarrierStore.slots 1 _ (by decide))
    have hm : markPhase exampleEnv belowBarrierStore.slots 1 belowBarrierStore.slots.length [1] =
        some ([intSlot, { L1IRMakeSlot .Lambda 0 0 0 with annotation := true }], 2, 2) := by
      decide
    rw [hm] at hphase
    simp only [Option.some.injEq, Prod.mk.injEq] at hphase
    obtain ⟨rfl, rfl, rfl⟩ := hphase
    exact hbad ⟨1, { L1IRMakeSlot .Lambda 0 0 0 with annotation := true }, 0, by decide,
      by decide, by decide, by decide, by decide, by decide, by decide⟩

/-- For a local store with all annotation bits zero, a barrier at `start`, roots in
`[start, length)`, all operands pointing to lower indices and no implicit-root slot above
the barrier: `pop_barrier(roots)` has no defined result when a slot above the barrier
that is reachable from the roots has a local-address operand below the barrier;
otherwise it has a result, and the new length is `start` plus the number of slots at
indices `≥ start` that are reachable from the roots. -/
theorem pop_reclaims (E : Env) (localState : L1IRLocalState) (start : Nat)
    (barriers roots : List Nat) (hb : localState.gcBarriers = start :: barriers)
    (hstart : start ≤ localState.slots.length) (hlen : localState.slots.length < 65536)
    (hzero : ∀ s ∈ localState.slots, s.annotation = false)
    (hroots : ∀ r ∈ roots, start ≤ r ∧ r < localState.slots.length)
    (hback : backwardOperands E localState.slots 0 localState.slots.length)
    (himp : ∀ x s, start ≤ x → localState.slots[x]? = some s →
      E.IsImplicitRoot s.type = false) :
    ((∃ i s j, start ≤ i ∧ localState.slots[i]? = some s ∧
        reachable E localState.slots roots i = true ∧ j < 3 ∧
        E.SlotTypeArgumentIsLocalAddress s.type j = true ∧
        L1IRExtractSlotOperand s j < start) →
      L1IRGlobalStatePopGCBarrier E localState roots = none) ∧
    ((∀ i s, start ≤ i → localState.slots[i]? = some s →
        reachable E localState.slots roots i = true →
        ∀ j, j < 3 → E.SlotTypeArgumentIsLocalAddress s.type j = true →
          start ≤ L1IRExtractSlotOperand s j) →
      ∃ localState1 roots1,
        L1IRGlobalStatePopGCBarrier E localState roots = some (localState1, roots1) ∧
        localState1.slots.length = start + reachableCount E localState.slots start roots ∧
        localState1.gcBarriers = barriers ∧
        localState1.callDepth = localState.callDepth) := by
  have hzero' : ∀ x s, start ≤ x → localState.slots[x]? = some s → s.annotation = false :=
    fun x s _ hs => hzero s (slot_mem hs)
  have hsuffix : backwardOperands E localState.slots start localState.slots.length :=
    fun i s _ h2 hs j hj hla => hback i s (Nat.zero_le _) h2 hs j hj hla
  obtain ⟨marked, maxUsed, c, hphase⟩ := markPhase_isSome E localState.slots start
    localState.slots.length roots hstart le_rfl (fun r hr => (hroots r hr).2)
    (fun i s h1 hs j hj hla => by
      have hlt := (List.getElem?_eq_some_iff.mp hs).1
      have := hback i s (Nat.zero_le _) hlt hs j hj hla
      omega)
  obtain ⟨hM, hc1, hc2, hmax, _, _⟩ := markPhase_frame E localState.slots marked start
    localState.slots.length roots maxUsed c hphase hstart
  have hMR := markPhase_marks_reachable E localState.slots marked start roots maxUsed c hphase
    hroots hzero' himp hback
  obtain ⟨hbad, hgood⟩ := pop_of_markPhase E localState start barriers roots marked maxUsed c
    hb hstart hlen hroots hphase
  constructor
  · rintro ⟨i, s, j, h1, hs, hreach, hj, hla, hop⟩
    obtain ⟨t, ht, hbit⟩ := (hMR i h1).1.mp hreach
    have hlt := (hMR i h1).2 hreach
    obtain ⟨t', ht', hat⟩ := hM.2 i s hs
    rw [ht] at ht'
    cases ht'
    exact hbad ⟨i, t, j, h1, hlt, ht, by simp [retained, hbit], hj,
      by rw [annotates_type hat]; exact hla,
      Or.inl (by rw [annotates_operand hat]; exact hop)⟩
  · intro hin
    obtain ⟨slots3, roots1, hcompact, hlen3, hpop⟩ := hgood (fun i t h1 h2 ht hret j hj hla => by
      obtain ⟨s, hs, hat⟩ := onlyMarks_rev hM i t ht
      have hbit : t.annotation = true := by
        have h0 := himp i s h1 hs
        unfold retained at hret
        rw [annotates_type hat, h0] at hret
        simpa using hret
      have hreach := (hMR i h1).1.mpr ⟨t, ht, hbit⟩
      rw [annotates_type hat] at hla
      rw [annotates_operand hat]
      refine ⟨hin i s h1 hs hreach j hj hla, ?_⟩
      have hlt := (List.getElem?_eq_some_iff.mp hs).1
      have := hback i s (Nat.zero_le _) hlt hs j hj hla
      omega)
    have hc := compact_count_reachable E localState.slots slots3 start roots roots1 c hcompact
      hstart hroots hzero' himp hsuffix
    refine ⟨_, roots1, hpop, ?_, rfl, rfl⟩
    show (slots3.take c).length = _
    rw [List.length_take, ← hc]
    omega

/-- With all operands pointing to lower indices, no slot at or above `start` is reachable
from roots below `start`. -/
theorem reachableCount_roots_below (E : Env) (slots : List L1IRSlot) (start : Nat)
    (roots : List Nat) (hback : backwardOperands E slots 0 slots.length)
    (hroots : ∀ r ∈ roots, r < start) :
    reachableCount E slots start roots = 0 := by
  unfold reachableCount
  rw [List.length_eq_zero, List.filter_eq_nil_iff]
  intro i hi hr
  rw [List.mem_range'_1] at hi
  simp only [reachable, List.any_eq_true] at hr
  obtain ⟨r, hrmem, hreach⟩ := hr
  have := reaches_le E slots hback _ r i hreach
  have := hroots r hrmem
  omega

/-- C12 (GC reclaims exactly the garbage), what the code does. First part: for every
local store of fewer than 65536 slots whose annotation bits are all zero, with a barrier
at `start`, roots in `[start, slots.length)`, all operands pointing to lower indices and
no implicit-root slot above the barrier. When a slot above the barrier that is reachable
from the roots has a local-address operand below the barrier, `pop_barrier(roots)` has no
defined result (the compaction loop looks the operand up before the remapping table).
Otherwise `pop_barrier(roots)` has a result and the length after it is `start` plus the
number of slots at indices `≥ start` that are reachable from the roots through
local-address operands. Second part: the same for `L1IRGlobalStateEvaluate` on a native
block, where the store is the one that the prototype loop hands to the collector, the
barrier is the length on entry, and the roots are the retained addresses (the result, and
the final argument when the out-pointer is given): no defined result when a reachable
slot refers below the barrier, as a slot that refers to the argument does; otherwise the
result address is returned and the store is longer than on entry by the number of
reachable slots above the entry length. Third part: without an out-pointer, when the
result address lies below the entry length (as for a block that returns its argument),
`L1IRGlobalStateEvaluate` has a result and the store has its entry length, no slot above
it being reachable. Fourth part: when the prototype loop has no result, neither has
`L1IRGlobalStateEvaluate`. -/
theorem gc_reclaims_exactly_garbage (E : Env) :
    (∀ (localState : L1IRLocalState) (start : Nat) (barriers roots : List Nat),
      localState.gcBarriers = start :: barriers →
      start ≤ localState.slots.length → localState.slots.length < 65536 →
      (∀ s ∈ localState.slots, s.annotation = false) →
      (∀ r ∈ roots, start ≤ r ∧ r < localState.slots.length) →
      backwardOperands E localState.slots 0 localState.slots.length →
      (∀ x s, start ≤ x → localState.slots[x]? = some s → E.IsImplicitRoot s.type = false) →
      ((∃ i s j, start ≤ i ∧ localState.slots[i]? = some s ∧
          reachable E localState.slots roots i = true ∧ j < 3 ∧
          E.SlotTypeArgumentIsLocalAddress s.type j = true ∧
          L1IRExtractSlotOperand s j < start) →
        L1IRGlobalStatePopGCBarrier E localState roots = none) ∧
      ((∀ i s, start ≤ i → localState.slots[i]? = some s →
          reachable E localState.slots roots i = true →
          ∀ j, j < 3 → E.SlotTypeArgumentIsLocalAddress s.type j = true →
            start ≤ L1IRExtractSlotOperand s j) →
        ∃ localState1 roots1,
          L1IRGlobalStatePopGCBarrier E localState roots = some (localState1, roots1) ∧
          localState1.slots.length =
            start + reachableCount E localState.slots start roots)) ∧
    (∀ (self : L1IRGlobalState) (localState pre : L1IRLocalState)
        (flags : L1IRGlobalStateEvaluationFlags) (calleeAddress a capture : Nat) (hasOut : Bool)
        (type : L1IRGlobalStateBlockType) (prototypes : List L1IRSlot) (r fa : Nat),
      self.blocks[calleeAddress]? = some (.native type prototypes) →
      instantiateBlock E self localState flags calleeAddress a capture hasOut =
        some (pre, r, fa) →
      pre.slots.length < 65536 →
      (∀ s ∈ pre.slots, s.annotation = false) →
      (∀ x ∈ (if hasOut then [r, fa] else [r]),
        localState.slots.length ≤ x ∧ x < pre.slots.length) →
      backwardOperands E pre.slots 0 pre.slots.length →
      (∀ x s, localState.slots.length ≤ x → pre.slots[x]? = some s →
        E.IsImplicitRoot s.type = false) →
      ((∃ i s j, localState.slots.length ≤ i ∧ pre.slots[i]? = some s ∧
          reachable E pre.slots (if hasOut then [r, fa] else [r]) i = true ∧ j < 3 ∧
          E.SlotTypeArgumentIsLocalAddress s.type j = true ∧
          L1IRExtractSlotOperand s j < localState.slots.length) →
        L1IRGlobalStateEvaluate E self localState flags calleeAddress a capture hasOut =
          none) ∧
      ((∀ i s, localState.slots.length ≤ i → pre.slots[i]? = some s →
          reachable E pre.slots (if hasOut then [r, fa] else [r]) i = true →
          ∀ j, j < 3 → E.SlotTypeArgumentIsLocalAddress s.type j = true →
            localState.slots.length ≤ L1IRExtractSlotOperand s j) →
        ∃ localState1 out,
          L1IRGlobalStateEvaluate E self localState flags calleeAddress a capture hasOut =
            some (localState1, r, out) ∧
          localState1.slots.length =
            localState.slots.length +
              reachableCount E pre.slots localState.slots.length
                (if hasOut then [r, fa] else [r]))) ∧
    (∀ (self : L1IRGlobalState) (localState pre : L1IRLocalState)
        (flags : L1IRGlobalStateEvaluationFlags) (calleeAddress a capture : Nat)
        (type : L1IRGlobalStateBlockType) (prototypes : List L1IRSlot) (r fa : Nat),
      self.blocks[calleeAddress]? = some (.native type prototypes) →
      instantiateBlock E self localState flags calleeAddress a capture false =
        some (pre, r, fa) →
      pre.slots.length < 65536 →
      r < localState.slots.length →
      backwardOperands E pre.slots 0 pre.slots.length →
      ∃ localState1,
        L1IRGlobalStateEvaluate E self localState flags calleeAddress a capture false =
          some (localState1, r, none) ∧
        reachableCount E pre.slots localState.slots.length [r] = 0 ∧
        localState1.slots.length =
          localState.slots.length + reachableCount E pre.slots localState.slots.length [r]) ∧
    (∀ (self : L1IRGlobalState) (localState : L1IRLocalState)
        (flags : L1IRGlobalStateEvaluationFlags) (calleeAddress a capture : Nat) (hasOut : Bool)
        (type : L1IRGlobalStateBlockType) (prototypes : List L1IRSlot),
      self.blocks[calleeAddress]? = some (.native type prototypes) →
      instantiateBlock E self localState flags calleeAddress a capture hasOut = none →
      L1IRGlobalStateEvaluate E self localState flags calleeAddress a capture hasOut =
        none) := by
  refine ⟨?_, ?_, ?_, ?_⟩
  · intro localState start barriers roots hb hstart hlen hzero hroots hback himp
    obtain ⟨hbad, hgood⟩ := pop_reclaims E localState start barriers roots hb hstart hlen hzero
      hroots hback himp
    refine ⟨hbad, fun hin => ?_⟩
    obtain ⟨localState1, roots1, hpop, hl, _, _⟩ := hgood hin
    exact ⟨localState1, roots1, hpop, hl⟩
  · intro self localState pre flags calleeAddress a capture hasOut type prototypes r fa hblock
      hinst hlen hzero hroots hback himp
    obtain ⟨hb, _, extra, hx⟩ := instantiateBlock_frame E self localState pre flags calleeAddress
      a capture hasOut r fa hinst
    have hstart : localState.slots.length ≤ pre.slots.length := by
      rw [hx, List.length_append]
      omega
    have heval := evaluate_instantiateBlock E self localState flags calleeAddress a capture
      hasOut type prototypes hblock
    rw [hinst] at heval
    simp only at heval
    obtain ⟨hbad, hgood⟩ := pop_reclaims E { pre with callDepth := pre.callDepth - 1 }
      localState.slots.length localState.gcBarriers (if hasOut then [r, fa] else [r]) hb hstart
      hlen hzero hroots hback himp
    constructor
    · intro hex
      have hpop := hbad hex
      rw [heval]
      unfold resultComputed
      rw [hpop]
    · intro hin
      obtain ⟨localState1, roots1, hpop, hl, _, _⟩ := hgood hin
      refine ⟨localState1, if hasOut then some fa else none, ?_, hl⟩
      rw [heval]
      unfold resultComputed
      rw [hpop]
  · intro self localState pre flags calleeAddress a capture type prototypes r fa hblock hinst
      hlen hr hback
    obtain ⟨hb, _, extra, hx⟩ := instantiateBlock_frame E self localState pre flags calleeAddress
      a capture false r fa hinst
    have hstart : localState.slots.length ≤ pre.slots.length := by
      rw [hx, List.length_append]
      omega
    have heval := evaluate_instantiateBlock E self localState flags calleeAddress a capture
      false type prototypes hblock
    rw [hinst] at heval
    simp only at heval
    have hcompact := compact_single_root_below E pre.slots localState.slots.length r
      (by omega) hr
    have hpop := pop_of_compact_some E { pre with callDepth := pre.callDepth - 1 }
      localState.slots.length localState.gcBarriers [r] _ [r] localState.slots.length hb hstart
      hlen hcompact (by rw [List.length_set]; exact hstart)
    have hzero := reachableCount_roots_below E pre.slots localState.slots.length [r] hback
      (fun x hx => by
        rw [List.mem_singleton] at hx
        omega)
    have key : ∃ localState1,
        L1IRGlobalStatePopGCBarrier E { pre with callDepth := pre.callDepth - 1 } [r] =
          some (localState1, [r]) ∧
        localState1.slots.length = localState.slots.length :=
      ⟨_, hpop, by
        show ((pre.slots.set r _).take localState.slots.length).length = _
        rw [List.length_take, List.length_set]
        omega⟩
    obtain ⟨localState1, hpop1, hl⟩ := key
    refine ⟨localState1, ?_, hzero, ?_⟩
    · rw [heval]
      unfold resultComputed
      simp only [Bool.false_eq_true, if_false]
      rw [hpop1]
    · rw [hzero, hl, Nat.add_zero]
  · intro self localState flags calleeAddress a capture hasOut type prototypes hblock hnone
    rw [evaluate_instantiateBlock E self localState flags calleeAddress a capture hasOut type
      prototypes hblock, hnone]

/-- C12 at the store `belowBarrierStore` with the root 1 (the root slot is reachable and
refers below the barrier: one reachable slot, no defined result) and at the evaluation of
`argumentUsePrototypes` on `twoIntStore` with the argument at address 1 (the result slot
refers to the argument: one reachable slot, no defined result); and, where no reachable
slot refers below the barrier, at the store `backwardStore` with the root 3 (two
reachable slots, the new length is 1 + 2) and at the evaluation of the four prototypes
`reclaimPrototypes` on `reclaimStore` (two reachable slots, the store grows from 1 to
1 + 2 slots); and at the evaluation of the block `[Argument(0, 1)]` on `twoIntStore`,
which returns the argument address 1, below the barrier (no reachable slot above the
barrier, the store keeps its 2 slots). -/
theorem gc_reclaims_exactly_garbage_witness :
    (reachableCount exampleEnv belowBarrierStore.slots 1 [1] = 1 ∧
      instantiateBlock exampleEnv (lambdaBlock argumentUsePrototypes) twoIntStore
          { hasArgument := true, hasCaptured := false } 0 1 0 false =
        some (argumentUseInstantiated, 2, 0) ∧
      reachableCount exampleEnv argumentUseInstantiated.slots 2 [2] = 1 ∧
      reachableCount exampleEnv backwardStore.slots 1 [3] = 2 ∧
      L1IRGlobalStatePopGCBarrier exampleEnv backwardStore [3] =
        some ({ slots := [intSlot, intSlot, L1IRMakeSlot .Lambda 1 0 0], gcBarriers := [],
                callDepth := 0 }, [2]) ∧
      instantiateBlock exampleEnv (lambdaBlock reclaimPrototypes) reclaimStore
          { hasArgument := true, hasCaptured := false } 0 0 0 false =
        some (reclaimInstantiated, 4, 0) ∧
      reachableCount exampleEnv reclaimInstantiated.slots 1 [4] = 2 ∧
      L1IRGlobalStateEvaluate exampleEnv (lambdaBlock reclaimPrototypes) reclaimStore
          { hasArgument := true, hasCaptured := false } 0 0 0 false =
        some ({ slots := [intSlot, L1IRMakeSlot .Captured 1 0 0, L1IRMakeSlot .Lambda 1 0 0],
                gcBarriers := [], callDepth := 0 }, 4, none)) ∧
    L1IRGlobalStatePopGCBarrier exampleEnv belowBarrierStore [1] = none ∧
    (∃ localState1 roots1,
      L1IRGlobalStatePopGCBarrier exampleEnv backwardStore [3] = some (localState1, roots1) ∧
      localState1.slots.length = 1 + reachableCount exampleEnv backwardStore.slots 1 [3]) ∧
    L1IRGlobalStateEvaluate exampleEnv (lambdaBlock argumentUsePrototypes) twoIntStore
      { hasArgument := true, hasCaptured := false } 0 1 0 false = none ∧
    (∃ localState1 out,
      L1IRGlobalStateEvaluate exampleEnv (lambdaBlock reclaimPrototypes) reclaimStore
        { hasArgument := true, hasCaptured := false } 0 0 0 false =
        some (localState1, 4, out) ∧
      localState1.slots.length =
        reclaimStore.slots.length +
          reachableCount exampleEnv reclaimInstantiated.slots reclaimStore.slots.length
            (if false = true then [4, 0] else [4])) ∧
    (∃ localState1,
      L1IRGlobalStateEvaluate exampleEnv (lambdaBlock [L1IRMakeSlot .Argument 0 1 0]) twoIntStore
        { hasArgument := true, hasCaptured := false } 0 1 0 false =
        some (localState1, 1, none) ∧
      reachableCount exampleEnv [intSlot, intSlot] twoIntStore.slots.length [1] = 0 ∧
      localState1.slots.length =
        twoIntStore.slots.length +
          reachableCount exampleEnv [intSlot, intSlot] twoIntStore.slots.length [1]) :=
  ⟨by decide,
    ((gc_reclaims_exactly_garbage exampleEnv).1 belowBarrierStore 1 [] [1] rfl (by decide)
      (by decide) (by decide) (by decide)
      (checkOperands_backward exampleEnv belowBarrierStore.slots 0
        belowBarrierStore.slots.length (by decide))
      (fun _ _ _ _ => rfl)).1
      ⟨1, L1IRMakeSlot .Lambda 0 0 0, 0, by decide, by decide, by decide, by decide, by decide,
        by decide⟩,
    ((gc_reclaims_exactly_garbage exampleEnv).1 backwardStore 1 [] [3] rfl (by decide)
      (by decide) (by decide) (by decide)
      (checkOperands_backward exampleEnv backwardStore.slots 0 backwardStore.slots.length
        (by decide))
      (fun _ _ _ _ => rfl)).2
      (fun i s h1 hs _ j hj hla =>
        (checkOperands_sound exampleEnv backwardStore.slots 1 1 (by decide) i s h1 hs j hj
          hla).1),
    ((gc_reclaims_exactly_garbage exampleEnv).2.1 (lambdaBlock argumentUsePrototypes)
      twoIntStore argumentUseInstantiated { hasArgument := true, hasCaptured := false } 0 1 0
      false .Lambda argumentUsePrototypes 2 0 rfl (by decide) (by decide) (by decide)
      (by decide)
      (checkOperands_backward exampleEnv argumentUseInstantiated.slots 0
        argumentUseInstantiated.slots.length (by decide))
      (fun _ _ _ _ => rfl)).1
      ⟨2, L1IRMakeSlot .Lambda 1 0 0, 0, by decide, by decide, by decide, by decide, by decide,
        by decide⟩,
    ((gc_reclaims_exactly_garbage exampleEnv).2.1 (lambdaBlock reclaimPrototypes) reclaimStore
      reclaimInstantiated { hasArgument := true, hasCaptured := false } 0 0 0 false .Lambda
      reclaimPrototypes 4 0 rfl (by decide) (by decide) (by decide) (by decide)
      (checkOperands_backward exampleEnv reclaimInstantiated.slots 0
        reclaimInstantiated.slots.length (by decide))
      (fun _ _ _ _ => rfl)).2
      (fun i s h1 hs _ j hj hla =>
        (checkOperands_sound exampleEnv reclaimInstantiated.slots 1 1 (by decide) i s h1 hs j
          hj hla).1),
    (gc_reclaims_exactly_garbage exampleEnv).2.2.1 (lambdaBlock [L1IRMakeSlot .Argument 0 1 0])
      twoIntStore { slots := [intSlot, intSlot], gcBarriers := [2], callDepth := 1 }
      { hasArgument := true, hasCaptured := false } 0 1 0 .Lambda
      [L1IRMakeSlot .Argument 0 1 0] 1 0 rfl (by decide) (by decide) (by decide)
      (checkOperands_backward exampleEnv [intSlot, intSlot] 0 2 (by decide))⟩

end L1
